import Mathlib

/-!
# Desktop Drone: behaviour and animation update engine

A shallow embedding of `src/main.c`: the function `random` and the body of the
`while` loop of `main` (clock accumulation, frame advance, behaviour
transition, motion integration), followed by theorems about them.

Modelling conventions.

* C `int` is a 32 bit signed integer.  The arithmetic of `random` is checked:
  a signed overflow or a division by zero is undefined behaviour in C and makes
  the model return `none`.
* A value returned by `rand()` lies in `0 .. RAND_MAX` and is a `Nat`.
* `float` is IEEE 754 binary32 and `double` is binary64, rounded to nearest with
  ties to even, with gradual underflow, overflow to infinity, and NaN.  A finite
  value is the rational it denotes; the two zeros are not distinguished, which no
  comparison or result of the program depends on.  Every operation is evaluated
  in the type C gives it (`FLT_EVAL_METHOD` 0): `float + float` in binary32, an
  operation with a `double` operand in binary64.
* `deltaTime` (the difference of two `glfwGetTime` readings, a finite `double`)
  and the values `rand()` returns are inputs of each loop iteration.
-/

namespace DesktopDrone

/-! ## Machine integers -/

/-- Lower end of the C type `int`. -/
def INT_MIN : Int := -2147483648

/-- Upper end of the C type `int`. -/
def INT_MAX : Int := 2147483647

/-- Result of a signed `int` operation: defined only when it fits the type. -/
def checkInt (v : Int) : Option Int :=
  if INT_MIN ≤ v ∧ v ≤ INT_MAX then some v else none

/-! ## Floating point -/

/-- Nearest integer, ties to even. -/
def roundEven (t : ℚ) : ℤ :=
  if t - ⌊t⌋ < 1 / 2 then ⌊t⌋
  else if 1 / 2 < t - ⌊t⌋ then ⌊t⌋ + 1
  else if ⌊t⌋ % 2 = 0 then ⌊t⌋ else ⌊t⌋ + 1

/-- Exponent of the unit in the last place at `q`, for precision `p` and least
normal exponent `emin`. -/
def ulpExp (p emin : ℤ) (q : ℚ) : ℤ := max (Int.log 2 |q|) emin - (p - 1)

/-- Round to nearest, ties to even, with `p` significant bits, gradual underflow
below `2 ^ emin` and no upper limit on the exponent. -/
def roundTo (p emin : ℤ) (q : ℚ) : ℚ :=
  (roundEven (q / (2 : ℚ) ^ ulpExp p emin q) : ℚ) * (2 : ℚ) ^ ulpExp p emin q

/-- An IEEE 754 value: a finite number, an infinity or a NaN. -/
inductive Fp where
  | fin (q : ℚ)
  | pinf
  | ninf
  | nan
  deriving DecidableEq

/-- Rounding of an exact result to a format with `p` significant bits, least
normal exponent `emin` and overflow threshold `2 ^ emax1`. -/
def roundFp (p emin : ℤ) (emax1 : ℕ) (q : ℚ) : Fp :=
  if (2 : ℚ) ^ emax1 ≤ |roundTo p emin q| then (if 0 < q then .pinf else .ninf)
  else .fin (roundTo p emin q)

/-- Rounding to `float` (binary32). -/
def binary32 (q : ℚ) : Fp := roundFp 24 (-126) 128 q

/-- Rounding to `double` (binary64). -/
def binary64 (q : ℚ) : Fp := roundFp 53 (-1022) 1024 q

/-- Negation. -/
def Fp.neg : Fp → Fp
  | .fin q => .fin (-q)
  | .pinf => .ninf
  | .ninf => .pinf
  | .nan => .nan

/-- Addition, the exact sum rounded by `rnd`. -/
def Fp.add (rnd : ℚ → Fp) : Fp → Fp → Fp
  | .fin a, .fin b => rnd (a + b)
  | .nan, _ => .nan
  | _, .nan => .nan
  | .pinf, .ninf => .nan
  | .ninf, .pinf => .nan
  | .pinf, _ => .pinf
  | _, .pinf => .pinf
  | .ninf, _ => .ninf
  | _, .ninf => .ninf

/-- Subtraction. -/
def Fp.sub (rnd : ℚ → Fp) (a b : Fp) : Fp := Fp.add rnd a b.neg

/-- Product of an infinity, positive or not, with the finite factor `q`: NaN when
`q` is zero, else the infinity of the product of the signs. -/
def Fp.infTimes (positive : Bool) (q : ℚ) : Fp :=
  if q = 0 then .nan
  else if (0 < q) = positive then .pinf else .ninf

/-- Multiplication, the exact product rounded by `rnd`. -/
def Fp.mul (rnd : ℚ → Fp) : Fp → Fp → Fp
  | .fin a, .fin b => rnd (a * b)
  | .nan, _ => .nan
  | _, .nan => .nan
  | .pinf, .fin b => Fp.infTimes true b
  | .ninf, .fin b => Fp.infTimes false b
  | .fin a, .pinf => Fp.infTimes true a
  | .fin a, .ninf => Fp.infTimes false a
  | .pinf, .pinf => .pinf
  | .ninf, .ninf => .pinf
  | .pinf, .ninf => .ninf
  | .ninf, .pinf => .ninf

/-- Division, the exact quotient rounded by `rnd`; a zero divisor is `+0`. -/
def Fp.div (rnd : ℚ → Fp) : Fp → Fp → Fp
  | .fin a, .fin b =>
    if b = 0 then (if a = 0 then .nan else if 0 < a then .pinf else .ninf)
    else rnd (a / b)
  | .nan, _ => .nan
  | _, .nan => .nan
  | .fin _, _ => .fin 0
  | .pinf, .fin b => if 0 ≤ b then .pinf else .ninf
  | .ninf, .fin b => if 0 ≤ b then .ninf else .pinf
  | _, _ => .nan

/-- Comparison `a < b`: false when an operand is NaN. -/
def Fp.lt : Fp → Fp → Bool
  | .fin a, .fin b => decide (a < b)
  | .nan, _ => false
  | _, .nan => false
  | .ninf, .ninf => false
  | .ninf, _ => true
  | _, .ninf => false
  | .pinf, _ => false
  | _, .pinf => true

/-- Comparison `a <= b`: false when an operand is NaN. -/
def Fp.le : Fp → Fp → Bool
  | .fin a, .fin b => decide (a ≤ b)
  | .nan, _ => false
  | _, .nan => false
  | .ninf, _ => true
  | _, .pinf => true
  | .pinf, _ => false
  | _, .ninf => false

/-- Conversion of a `double` to `float`. -/
def Fp.toFloat : Fp → Fp
  | .fin q => binary32 q
  | v => v

/-- Conversion of an `int` to `float`. -/
def intToFloat (n : Int) : Fp := binary32 (n : ℚ)

/-- Conversion of an `int` to `double`. -/
def intToDouble (n : Int) : Fp := binary64 (n : ℚ)

/-- A number with the precision and the least exponent of `float`: a fixed point of
the rounding to binary32.  Every finite `float` is one. -/
def IsFloat (q : ℚ) : Prop := roundTo 24 (-126) q = q

/-- A number with the precision and the least exponent of `double`: a fixed point
of the rounding to binary64.  Every finite `double` is one. -/
def IsDouble (q : ℚ) : Prop := roundTo 53 (-1022) q = q

instance (q : ℚ) : Decidable (IsFloat q) := by unfold IsFloat; infer_instance

instance (q : ℚ) : Decidable (IsDouble q) := by unfold IsDouble; infer_instance

/-! ## Data model -/

/-- Globals `screenWidth` and `screenHeight`, set once by `glfwGetFramebufferSize`. -/
structure Screen where
  screenWidth : Int
  screenHeight : Int
  deriving DecidableEq

/-- Local variables of `main` that live across loop iterations: `x` and `y` are
`float`, `animationTime` and `currentTime` are `double`. -/
structure Drone where
  state : Int
  previousState : Int
  x : Fp
  y : Fp
  animationTime : Fp
  currentFrame : Int
  currentTime : Fp
  timeInBetweenAnimations : Int
  deriving DecidableEq

/-- Inputs of one loop iteration: the elapsed time and the two values `rand()`
returns when the transition fires (first for the state, then for the interval). -/
structure Tick where
  deltaTime : ℚ
  rand1 : Nat
  rand2 : Nat
  deriving DecidableEq

/-- Constant `velocity = 0.05f`. -/
def velocity : Fp := binary32 0.05

/-- Constant `animationDuration = 0.3`. -/
def animationDuration : Fp := binary64 0.3

/-- Constant `minTimeInState = 2`. -/
def minTimeInState : Int := 2

/-- Constant `maxTimeInState = 5`. -/
def maxTimeInState : Int := 5

/-! ## `random` (main.c 116-118) -/

/-- Function `random`: `min + rand() % (max - min + 1)`, where `r` is the value of
`rand()`.  The remainder is the truncating one of C. -/
def random (min max : Int) (r : Nat) : Option Int := do
  let span ← checkInt (max - min)
  let n ← checkInt (span + 1)
  if n = 0 then none
  else checkInt (min + Int.tmod (r : Int) n)

/-! ## The loop of `main` (main.c 165-240) -/

/-- State before the first iteration (main.c 122-125, 166-171). -/
def mainInit (r0 : Nat) : Option Drone := do
  let t ← random minTimeInState maxTimeInState r0
  some { state := 0, previousState := 0, x := .fin 0, y := .fin (-1),
         animationTime := .fin 0, currentFrame := 1, currentTime := .fin 0,
         timeInBetweenAnimations := t }

/-- Frame advance `(currentFrame >= 4) ? 1 : currentFrame + 1` (main.c 182). -/
def nextFrame (currentFrame : Int) : Int :=
  if currentFrame ≥ 4 then 1 else currentFrame + 1

/-- Test `animationTime >= animationDuration` after `animationTime += deltaTime`
(main.c 178, 181): whether this iteration advances the frame. -/
def frameDue (deltaTime : ℚ) (s : Drone) : Bool :=
  Fp.le animationDuration (Fp.add binary64 s.animationTime (.fin deltaTime))

/-- Clock accumulation and frame advance (main.c 178-184). -/
def advanceClocks (deltaTime : ℚ) (s : Drone) : Drone :=
  let animationTime := Fp.add binary64 s.animationTime (.fin deltaTime)
  let currentTime := Fp.add binary64 s.currentTime (.fin deltaTime)
  if frameDue deltaTime s then
    { s with animationTime := .fin 0, currentTime := currentTime,
             currentFrame := nextFrame s.currentFrame }
  else
    { s with animationTime := animationTime, currentTime := currentTime }

/-- Test `currentTime >= timeInBetweenAnimations` (main.c 186), the `int` converted
to `double`. -/
def transitionDue (s : Drone) : Bool :=
  Fp.le (intToDouble s.timeInBetweenAnimations) s.currentTime

/-- Behaviour transition (main.c 186-197). -/
def transition (rand1 rand2 : Nat) (s : Drone) : Option Drone :=
  if transitionDue s then do
    let state ← random 0 5 rand1
    let t ← if state = 3 then random (minTimeInState * 2) (maxTimeInState * 2) rand2
            else random minTimeInState maxTimeInState rand2
    if state ≠ s.previousState then
      some { s with state := state, currentTime := .fin 0, timeInBetweenAnimations := t,
                    currentFrame := 1, previousState := state }
    else
      some { s with state := state, currentTime := .fin 0, timeInBetweenAnimations := t }
  else some s

/-- Sprite width `104.0f / (float)screenWidth * 2.0f` (main.c 202). -/
def imageWidth (c : Screen) : Fp :=
  Fp.mul binary32 (Fp.div binary32 (.fin 104) (intToFloat c.screenWidth)) (.fin 2)

/-- Sprite height `104.0f / (float)screenHeight * 2.0f` (main.c 203). -/
def imageHeight (c : Screen) : Fp :=
  Fp.mul binary32 (Fp.div binary32 (.fin 104) (intToFloat c.screenHeight)) (.fin 2)

/-- Step `velocity * deltaTime`, a `double` product (main.c 210, 217). -/
def stepX (deltaTime : ℚ) : Fp := Fp.mul binary64 velocity (.fin deltaTime)

/-- Step `(velocity * 3) * deltaTime`: a `float` product, then a `double` product
(main.c 228, 235). -/
def stepY (deltaTime : ℚ) : Fp :=
  Fp.mul binary64 (Fp.mul binary32 velocity (intToFloat 3)) (.fin deltaTime)

/-- Motion integration: the `if` chain on `state` (main.c 204-240), for a sprite
of width `w` and height `h`.  Drawing does not touch the state. -/
def motion (w h : Fp) (deltaTime : ℚ) (s : Drone) : Drone :=
  if s.state = 0 then s
  else if s.state = 1 then
    if Fp.lt (Fp.add binary32 s.x w) (binary32 0.95) then
      { s with x := (Fp.add binary64 s.x (stepX deltaTime)).toFloat }
    else s
  else if s.state = 2 then
    if Fp.lt (binary32 0.95).neg s.x then
      { s with x := (Fp.sub binary64 s.x (stepX deltaTime)).toFloat }
    else s
  else if s.state = 3 then s
  else if s.state = 4 then
    if Fp.lt (Fp.add binary32 s.y h) (binary32 0.88) then
      { s with y := (Fp.add binary64 s.y (stepY deltaTime)).toFloat }
    else s
  else if s.state = 5 then
    if Fp.lt (binary32 1.0).neg s.y then
      { s with y := (Fp.sub binary64 s.y (stepY deltaTime)).toFloat }
    else s
  else s

/-- One iteration of the `while` loop (main.c 174-240). -/
def mainLoopBody (c : Screen) (s : Drone) (i : Tick) : Option Drone :=
  (transition i.rand1 i.rand2 (advanceClocks i.deltaTime s)).map
    (motion (imageWidth c) (imageHeight c) i.deltaTime)

/-- Iterations of the loop from a given state, one per element of `ticks`. -/
def mainLoopFrom (c : Screen) : Drone → List Tick → Option Drone
  | s, [] => some s
  | s, i :: ticks => (mainLoopBody c s i).bind (fun s' => mainLoopFrom c s' ticks)

/-- Function `main` from the start: initialisation, then the loop. -/
def mainLoop (c : Screen) (r0 : Nat) (ticks : List Tick) : Option Drone :=
  (mainInit r0).bind (fun s => mainLoopFrom c s ticks)

/-- Whether the transition fires in the iteration that starts in `s` with input `i`:
the test of main.c 186, made after the clocks have advanced. -/
def transitionFires (s : Drone) (i : Tick) : Bool :=
  transitionDue (advanceClocks i.deltaTime s)

/-- Number of iterations, among those run from `s` on `ticks`, in which the frame
advance of main.c 181-184 is executed. -/
def frameAdvances (c : Screen) : Drone → List Tick → Nat
  | _, [] => 0
  | s, i :: ticks =>
    (if frameDue i.deltaTime s then 1 else 0) +
      ((mainLoopBody c s i).map (fun s' => frameAdvances c s' ticks)).getD 0

/-- Sum of the `deltaTime` values of a sequence of iterations. -/
def totalTime (ticks : List Tick) : ℚ := (ticks.map Tick.deltaTime).sum

/-! ## Vocabulary of the specification -/

/-- Behaviours of the specification, in the order of their `state` numbers. -/
inductive Behavior where
  | Idle | WalkRight | WalkLeft | Sleep | RiseUp | Descend
  deriving DecidableEq

/-- Number that `state` holds for a behaviour: the draw `random(0, 5)` and the
sprite folders of main.c 204-240 fix the numbering. -/
def Behavior.code : Behavior → Int
  | .Idle => 0
  | .WalkRight => 1
  | .WalkLeft => 2
  | .Sleep => 3
  | .RiseUp => 4
  | .Descend => 5

/-- Midpoint of an integer range, rounded down, as a test random source returns it. -/
def midpoint (lo hi : Int) : Int := (lo + hi) / 2

/-- The `double` nearest to 0.1. -/
def double01 : ℚ := 3602879701896397 / 36028797018963968

/-- Iteration input of the midpoint scenario: `deltaTime` is the `double` 0.1, and
the `rand()` values make `random` return the midpoint of each range it is asked for. -/
def midpointTick : Tick := { deltaTime := double01, rand1 := 2, rand2 := 17 }

/-- Value of `rand()` at initialisation in the midpoint scenario. -/
def midpointSeed : Nat := 17

/-- A common screen size, used for concrete runs. -/
def fullHD : Screen := { screenWidth := 1920, screenHeight := 1080 }

/-- A screen on which the sprite is exactly `0.125` wide and `0.25` high. -/
def screen1664 : Screen := { screenWidth := 1664, screenHeight := 832 }

/-! ## Concrete states of example runs -/

/-- State before the first iteration when `rand()` returns 0: the interval is 2. -/
def startState : Drone :=
  { state := 0, previousState := 0, x := .fin 0, y := .fin (-1), animationTime := .fin 0,
    currentFrame := 1, currentTime := .fin 0, timeInBetweenAnimations := 2 }

/-- State `startState` after one iteration with `deltaTime = 2` that draws state 1:
`x` is `0.05f * 2`. -/
def walkingState : Drone :=
  { state := 1, previousState := 1, x := .fin (13421773 / 134217728), y := .fin (-1),
    animationTime := .fin 0, currentFrame := 1, currentTime := .fin 0,
    timeInBetweenAnimations := 2 }

/-- State `startState` after one iteration with `deltaTime = 1.75`. -/
def idleState175 : Drone :=
  { state := 0, previousState := 0, x := .fin 0, y := .fin (-1), animationTime := .fin 0,
    currentFrame := 2, currentTime := .fin (7 / 4), timeInBetweenAnimations := 2 }

/-- State `idleState175` after one more iteration with `deltaTime = 0.25` that draws
state 1: two seconds have passed, the behaviour has changed; `x` is `0.05f / 4`. -/
def changedState : Drone :=
  { state := 1, previousState := 1, x := .fin (13421773 / 1073741824), y := .fin (-1),
    animationTime := .fin (1 / 4), currentFrame := 1, currentTime := .fin 0,
    timeInBetweenAnimations := 2 }

/-- State `walkingState` after one more iteration with `deltaTime = 32` that draws
state 1 again: `x` is the `float` nearest to `0.05f * 2 + 0.05f * 32`. -/
def runawayState : Drone :=
  { state := 1, previousState := 1, x := .fin (7130317 / 4194304), y := .fin (-1),
    animationTime := .fin 0, currentFrame := 2, currentTime := .fin 0,
    timeInBetweenAnimations := 2 }

/-- Motion table of the specification (section 4.3), written from its words over
exact numbers: the new position for behaviour `b`, horizontal speed `v`, sprite
footprint `w` by `h`, elapsed time `dt` and position `p`. -/
def specIntegrate (b : Behavior) (v w h dt : ℚ) (p : ℚ × ℚ) : ℚ × ℚ :=
  match b with
  | .Idle => p
  | .Sleep => p
  | .WalkRight => if p.1 + w < 0.95 then (p.1 + v * dt, p.2) else p
  | .WalkLeft => if p.1 > -0.95 then (p.1 - v * dt, p.2) else p
  | .RiseUp => if p.2 + h < 0.88 then (p.1, p.2 + 3 * v * dt) else p
  | .Descend => if p.2 > -1.0 then (p.1, p.2 - 3 * v * dt) else p

/-- The same table with every number a machine number: the bounds 0.95, 0.88 and
1.0 rounded to `float`, the sums `x + w` and `y + h` of the gates rounded to `float`,
the speed `3 * v` a `float` product, the steps `v * dt` and `3 * v * dt` and the
new coordinate computed in `double`, the new coordinate then rounded to `float`. -/
def floatIntegrate (b : Behavior) (v w h : Fp) (dt : ℚ) (p : Fp × Fp) : Fp × Fp :=
  match b with
  | .Idle => p
  | .Sleep => p
  | .WalkRight =>
    if Fp.lt (Fp.add binary32 p.1 w) (binary32 0.95) then
      ((Fp.add binary64 p.1 (Fp.mul binary64 v (.fin dt))).toFloat, p.2)
    else p
  | .WalkLeft =>
    if Fp.lt (binary32 0.95).neg p.1 then
      ((Fp.sub binary64 p.1 (Fp.mul binary64 v (.fin dt))).toFloat, p.2)
    else p
  | .RiseUp =>
    if Fp.lt (Fp.add binary32 p.2 h) (binary32 0.88) then
      (p.1, (Fp.add binary64 p.2
        (Fp.mul binary64 (Fp.mul binary32 v (.fin 3)) (.fin dt))).toFloat)
    else p
  | .Descend =>
    if Fp.lt (binary32 1.0).neg p.2 then
      (p.1, (Fp.sub binary64 p.2
        (Fp.mul binary64 (Fp.mul binary32 v (.fin 3)) (.fin dt))).toFloat)
    else p

/-- Value of `currentTime` after `k` additions of the `double` 0.1 in binary64,
for `k` up to 30. -/
def midpointClock (k : Nat) : ℚ :=
  [0, 3602879701896397 / 36028797018963968, 3602879701896397 / 18014398509481984, 1351079888211149 / 4503599627370496, 3602879701896397 / 9007199254740992, 1 / 2, 5404319552844595 / 9007199254740992, 3152519739159347 / 4503599627370496, 7205759403792793 / 9007199254740992, 2026619832316723 / 2251799813685248, 9007199254740991 / 9007199254740992, 4953959590107545 / 4503599627370496, 5404319552844595 / 4503599627370496, 5854679515581645 / 4503599627370496, 6305039478318695 / 4503599627370496, 6755399441055745 / 4503599627370496, 7205759403792795 / 4503599627370496, 7656119366529845 / 4503599627370496, 8106479329266895 / 4503599627370496, 8556839292003945 / 4503599627370496, 4503599627370497 / 2251799813685248, 2364389804369511 / 1125899906842624, 4953959590107547 / 2251799813685248, 647392446434509 / 281474976710656, 5404319552844597 / 2251799813685248, 2814749767106561 / 1125899906842624, 5854679515581647 / 2251799813685248, 1519964874237543 / 562949953421312, 6305039478318697 / 2251799813685248, 3265109729843611 / 1125899906842624, 6755399441055747 / 2251799813685248].getD k 0

/-! ## Rounding to nearest, ties to even -/

theorem roundEven_le (t : ℚ) : (roundEven t : ℚ) ≤ t + 1 / 2 := by
  have h1 := Int.floor_le t
  have h2 := Int.lt_floor_add_one t
  unfold roundEven
  split_ifs <;> push_cast <;> linarith

theorem roundEven_ge (t : ℚ) : t - 1 / 2 ≤ (roundEven t : ℚ) := by
  have h1 := Int.floor_le t
  have h2 := Int.lt_floor_add_one t
  unfold roundEven
  split_ifs <;> push_cast <;> linarith

theorem roundEven_intCast (n : ℤ) : roundEven (n : ℚ) = n := by
  unfold roundEven
  simp

/-- An integer above `t` is above the rounding of `t`. -/
theorem roundEven_le_of_le (t : ℚ) (n : ℤ) (h : t ≤ n) : roundEven t ≤ n := by
  have h1 := Int.floor_le t
  have hf : ⌊t⌋ ≤ n := by
    have : ((⌊t⌋ : ℤ) : ℚ) ≤ (n : ℚ) := le_trans h1 h
    exact_mod_cast this
  unfold roundEven
  by_cases hlt : t - ⌊t⌋ < 1 / 2
  · rw [if_pos hlt]; exact hf
  · rw [if_neg hlt]
    have hne : ⌊t⌋ ≠ n := by
      intro he
      rw [he] at hlt
      apply hlt
      linarith
    have : ⌊t⌋ + 1 ≤ n := by omega
    split_ifs <;> omega

/-- An integer below `t` is below the rounding of `t`. -/
theorem roundEven_ge_of_ge (t : ℚ) (n : ℤ) (h : (n : ℚ) ≤ t) : n ≤ roundEven t := by
  have hf : n ≤ ⌊t⌋ := Int.le_floor.mpr h
  unfold roundEven
  split_ifs <;> omega

theorem roundEven_mono {t1 t2 : ℚ} (h : t1 ≤ t2) : roundEven t1 ≤ roundEven t2 := by
  by_cases hf : ⌊t1⌋ = ⌊t2⌋
  · unfold roundEven
    rw [hf]
    have : t1 - ⌊t2⌋ ≤ t2 - ⌊t2⌋ := by linarith
    split_ifs <;> first | omega | (exfalso; linarith)
  · have hle : ⌊t1⌋ ≤ ⌊t2⌋ := Int.floor_mono h
    have hlt : ⌊t1⌋ + 1 ≤ ⌊t2⌋ := by omega
    have h1 : roundEven t1 ≤ ⌊t1⌋ + 1 := by unfold roundEven; split_ifs <;> omega
    have h2 : ⌊t2⌋ ≤ roundEven t2 := by unfold roundEven; split_ifs <;> omega
    omega

theorem roundEven_neg (t : ℚ) : roundEven (-t) = -roundEven t := by
  by_cases hi : (⌊t⌋ : ℚ) = t
  · rw [← hi, ← Int.cast_neg, roundEven_intCast, roundEven_intCast]
  · have h1 := Int.floor_le t
    have h2 := Int.lt_floor_add_one t
    have hlt : (⌊t⌋ : ℚ) < t := lt_of_le_of_ne h1 hi
    have hfl : ⌊-t⌋ = -⌊t⌋ - 1 := by
      rw [Int.floor_eq_iff]
      push_cast
      constructor <;> linarith
    unfold roundEven
    rw [hfl]
    push_cast
    have hpar : (-⌊t⌋ - 1) % 2 = 0 ↔ ¬ (⌊t⌋ % 2 = 0) := by omega
    split_ifs <;> first | omega | (exfalso; linarith)

theorem ulpExp_neg (p emin : ℤ) (q : ℚ) : ulpExp p emin (-q) = ulpExp p emin q := by
  simp [ulpExp]

theorem roundTo_neg (p emin : ℤ) (q : ℚ) : roundTo p emin (-q) = -roundTo p emin q := by
  simp only [roundTo, ulpExp_neg, neg_div, roundEven_neg]
  push_cast
  ring

theorem roundTo_zero (p emin : ℤ) : roundTo p emin 0 = 0 := by
  simp [roundTo, roundEven]

theorem ulp_pos (e : ℤ) : (0 : ℚ) < (2 : ℚ) ^ e := zpow_pos (by norm_num) e

theorem roundTo_nonneg (p emin : ℤ) {q : ℚ} (h : 0 ≤ q) : 0 ≤ roundTo p emin q := by
  unfold roundTo
  have hu := ulp_pos (ulpExp p emin q)
  have h0 : (0 : ℤ) ≤ roundEven (q / (2 : ℚ) ^ ulpExp p emin q) :=
    roundEven_ge_of_ge _ 0 (by simpa using div_nonneg h hu.le)
  have : (0 : ℚ) ≤ (roundEven (q / (2 : ℚ) ^ ulpExp p emin q) : ℚ) := by exact_mod_cast h0
  positivity

/-- Rounding moves a value by at most half a unit in the last place. -/
theorem roundTo_err (p emin : ℤ) (q : ℚ) :
    |roundTo p emin q - q| ≤ (2 : ℚ) ^ ulpExp p emin q / 2 := by
  have hu := ulp_pos (ulpExp p emin q)
  have h1 := roundEven_le (q / (2 : ℚ) ^ ulpExp p emin q)
  have h2 := roundEven_ge (q / (2 : ℚ) ^ ulpExp p emin q)
  have hq : q = q / (2 : ℚ) ^ ulpExp p emin q * (2 : ℚ) ^ ulpExp p emin q := by
    field_simp
  unfold roundTo
  rw [abs_le]
  constructor
  · nlinarith
  · nlinarith

theorem roundTo_le_of_le_mul (p emin : ℤ) (q : ℚ) (n : ℤ)
    (h : q ≤ n * (2 : ℚ) ^ ulpExp p emin q) :
    roundTo p emin q ≤ n * (2 : ℚ) ^ ulpExp p emin q := by
  have hu := ulp_pos (ulpExp p emin q)
  have h1 : roundEven (q / (2 : ℚ) ^ ulpExp p emin q) ≤ n :=
    roundEven_le_of_le _ n (by rw [div_le_iff₀ hu]; exact h)
  have h2 : (roundEven (q / (2 : ℚ) ^ ulpExp p emin q) : ℚ) ≤ n := by exact_mod_cast h1
  unfold roundTo
  exact mul_le_mul_of_nonneg_right h2 hu.le

theorem roundTo_ge_of_ge_mul (p emin : ℤ) (q : ℚ) (n : ℤ)
    (h : n * (2 : ℚ) ^ ulpExp p emin q ≤ q) :
    n * (2 : ℚ) ^ ulpExp p emin q ≤ roundTo p emin q := by
  have hu := ulp_pos (ulpExp p emin q)
  have h1 : n ≤ roundEven (q / (2 : ℚ) ^ ulpExp p emin q) :=
    roundEven_ge_of_ge _ n (by rw [le_div_iff₀ hu]; exact h)
  have h2 : (n : ℚ) ≤ (roundEven (q / (2 : ℚ) ^ ulpExp p emin q) : ℚ) := by exact_mod_cast h1
  unfold roundTo
  exact mul_le_mul_of_nonneg_right h2 hu.le

/-- A power of two above a given exponent is an integer multiple of the lower power. -/
theorem zpow_eq_int_mul (a e : ℤ) (h : e ≤ a) :
    ∃ n : ℤ, (2 : ℚ) ^ a = n * (2 : ℚ) ^ e := by
  refine ⟨2 ^ (a - e).toNat, ?_⟩
  have hk : ((a - e).toNat : ℤ) = a - e := Int.toNat_of_nonneg (by omega)
  have : (2 : ℚ) ^ a = (2 : ℚ) ^ (((a - e).toNat : ℤ) + e) := by rw [hk]; congr 1; ring
  rw [this, zpow_add₀ (by norm_num), zpow_natCast]
  push_cast
  ring

theorem log_le_self (q : ℚ) (h : 0 < q) : (2 : ℚ) ^ Int.log 2 q ≤ q := by
  have := Int.zpow_log_le_self (b := 2) (by norm_num) h
  simpa using this

theorem lt_log_succ (q : ℚ) : q < (2 : ℚ) ^ (Int.log 2 q + 1) := by
  have := Int.lt_zpow_succ_log_self (b := 2) (by norm_num) q
  simpa using this

/-- Rounding with a fixed precision is monotone on the positive values. -/
theorem roundTo_mono_pos (p emin : ℤ) (hp : 1 ≤ p) {q1 q2 : ℚ} (h1 : 0 < q1)
    (h12 : q1 ≤ q2) : roundTo p emin q1 ≤ roundTo p emin q2 := by
  have h2 : 0 < q2 := lt_of_lt_of_le h1 h12
  have hlog : Int.log 2 |q1| ≤ Int.log 2 |q2| := by
    rw [abs_of_pos h1, abs_of_pos h2]
    exact Int.log_mono_right h1 h12
  have he : ulpExp p emin q1 ≤ ulpExp p emin q2 := by
    unfold ulpExp
    have := max_le_max hlog (le_refl emin)
    omega
  rcases eq_or_lt_of_le he with heq | hlt
  · unfold roundTo
    rw [heq]
    have hu := ulp_pos (ulpExp p emin q2)
    have hm : roundEven (q1 / (2 : ℚ) ^ ulpExp p emin q2)
        ≤ roundEven (q2 / (2 : ℚ) ^ ulpExp p emin q2) :=
      roundEven_mono (div_le_div_of_nonneg_right h12 hu.le)
    have hm' : (roundEven (q1 / (2 : ℚ) ^ ulpExp p emin q2) : ℚ)
        ≤ (roundEven (q2 / (2 : ℚ) ^ ulpExp p emin q2) : ℚ) := by exact_mod_cast hm
    exact mul_le_mul_of_nonneg_right hm' hu.le
  · -- the values lie in different binades: the power of two between them separates
    have hL2 : emin < Int.log 2 |q2| := by
      unfold ulpExp at hlt
      by_contra hcon
      have h3 : max (Int.log 2 |q2|) emin = emin := max_eq_right (by omega)
      have h4 : emin ≤ max (Int.log 2 |q1|) emin := le_max_right _ _
      rw [h3] at hlt
      omega
    have he2 : ulpExp p emin q2 = Int.log 2 |q2| - (p - 1) := by
      unfold ulpExp
      rw [max_eq_left (le_of_lt hL2)]
    obtain ⟨n1, hn1⟩ := zpow_eq_int_mul (Int.log 2 |q2|) (ulpExp p emin q1) (by
      rw [he2] at hlt
      omega)
    obtain ⟨n2, hn2⟩ := zpow_eq_int_mul (Int.log 2 |q2|) (ulpExp p emin q2) (by
      rw [he2]; omega)
    have hB1 : q1 ≤ (2 : ℚ) ^ Int.log 2 |q2| := by
      have ha := lt_log_succ q1
      have hb : (2 : ℚ) ^ (Int.log 2 q1 + 1) ≤ (2 : ℚ) ^ Int.log 2 |q2| := by
        apply zpow_le_zpow_right₀ (by norm_num)
        have hle1 : Int.log 2 |q1| ≤ max (Int.log 2 |q1|) emin := le_max_left _ _
        rw [abs_of_pos h1] at hle1
        unfold ulpExp at hlt
        rw [max_eq_left (le_of_lt hL2), abs_of_pos h1] at hlt
        omega
      linarith
    have hB2 : (2 : ℚ) ^ Int.log 2 |q2| ≤ q2 := by
      rw [abs_of_pos h2]
      exact log_le_self q2 h2
    have hA := roundTo_le_of_le_mul p emin q1 n1 (by rw [← hn1]; exact hB1)
    have hB := roundTo_ge_of_ge_mul p emin q2 n2 (by rw [← hn2]; exact hB2)
    rw [← hn1] at hA
    rw [← hn2] at hB
    linarith

theorem roundTo_nonpos (p emin : ℤ) {q : ℚ} (h : q ≤ 0) : roundTo p emin q ≤ 0 := by
  have := roundTo_nonneg p emin (neg_nonneg.mpr h)
  rw [roundTo_neg] at this
  linarith

/-- Rounding with a fixed precision is monotone. -/
theorem roundTo_mono (p emin : ℤ) (hp : 1 ≤ p) {q1 q2 : ℚ} (h : q1 ≤ q2) :
    roundTo p emin q1 ≤ roundTo p emin q2 := by
  rcases lt_trichotomy q1 0 with h1 | h1 | h1
  · rcases le_or_lt 0 q2 with h2 | h2
    · exact le_trans (roundTo_nonpos p emin h1.le) (roundTo_nonneg p emin h2)
    · have := roundTo_mono_pos p emin hp (neg_pos.mpr h2) (neg_le_neg h)
      rw [roundTo_neg, roundTo_neg] at this
      linarith
  · rw [h1, roundTo_zero]
    exact roundTo_nonneg p emin (h1 ▸ h)
  · exact roundTo_mono_pos p emin hp h1 h

theorem log_lt_of_lt_zpow (q : ℚ) (x : ℤ) (h0 : 0 < q) (h : q < (2 : ℚ) ^ x) :
    Int.log 2 q < x := by
  have := (Int.lt_zpow_iff_log_lt (b := 2) (by norm_num) h0 (x := x)).mp (by simpa using h)
  exact this

theorem le_log_of_zpow_le (q : ℚ) (x : ℤ) (h0 : 0 < q) (h : (2 : ℚ) ^ x ≤ q) :
    x ≤ Int.log 2 q := by
  have := (Int.zpow_le_iff_le_log (b := 2) (by norm_num) h0 (x := x)).mp (by simpa using h)
  exact this

/-- Values `n * 2 ^ e` with fewer than `p` significant bits and an exponent in
range are left alone by rounding. -/
theorem roundTo_of_rep (p emin : ℤ) (n e : ℤ) (hn : |n| < 2 ^ p.toNat) (hp : 1 ≤ p)
    (he : emin - (p - 1) ≤ e) :
    roundTo p emin (n * (2 : ℚ) ^ e) = n * (2 : ℚ) ^ e := by
  rcases eq_or_ne n 0 with h0 | h0
  · rw [h0]; simp [roundTo_zero]
  have hpe : (2 : ℚ) ^ e > 0 := ulp_pos e
  have habs : |(n : ℚ) * (2 : ℚ) ^ e| = (|n| : ℤ) * (2 : ℚ) ^ e := by
    rw [abs_mul, abs_of_pos hpe]; push_cast; rfl
  have hpos : 0 < |(n : ℚ) * (2 : ℚ) ^ e| := by
    rw [habs]
    have : (0 : ℚ) < ((|n| : ℤ) : ℚ) := by exact_mod_cast abs_pos.mpr h0
    positivity
  have hlt : |(n : ℚ) * (2 : ℚ) ^ e| < (2 : ℚ) ^ (e + p) := by
    rw [habs, add_comm, zpow_add₀ (by norm_num)]
    have h1 : ((|n| : ℤ) : ℚ) < (2 : ℚ) ^ p := by
      have h2 : ((|n| : ℤ) : ℚ) < ((2 ^ p.toNat : ℤ) : ℚ) := Int.cast_lt.mpr hn
      have h3 : ((p.toNat : ℤ)) = p := Int.toNat_of_nonneg (by omega)
      rw [← h3, zpow_natCast]
      rw [Int.cast_pow] at h2
      exact_mod_cast h2
    exact mul_lt_mul_of_pos_right h1 hpe
  have hlog := log_lt_of_lt_zpow _ _ hpos hlt
  have hu : ulpExp p emin (n * (2 : ℚ) ^ e) ≤ e := by
    unfold ulpExp
    have : max (Int.log 2 |(n : ℚ) * (2 : ℚ) ^ e|) emin ≤ e + (p - 1) :=
      max_le (by omega) (by omega)
    omega
  unfold roundTo
  generalize ulpExp p emin (n * (2 : ℚ) ^ e) = k at hu ⊢
  obtain ⟨m, hm⟩ := zpow_eq_int_mul e k hu
  have hup := ulp_pos k
  have hq : (n : ℚ) * (2 : ℚ) ^ e / (2 : ℚ) ^ k = ((n * m : ℤ) : ℚ) := by
    rw [hm]; push_cast; field_simp; ring
  rw [hq, roundEven_intCast, hm]
  push_cast
  ring

theorem abs_lt_zpow_ulp (p emin : ℤ) (q : ℚ) :
    |q| < (2 : ℚ) ^ (ulpExp p emin q + p) := by
  have h1 := lt_log_succ |q|
  have h2 : (2 : ℚ) ^ (Int.log 2 |q| + 1) ≤ (2 : ℚ) ^ (ulpExp p emin q + p) := by
    apply zpow_le_zpow_right₀ (by norm_num)
    unfold ulpExp
    have := le_max_left (Int.log 2 |q|) emin
    omega
  linarith

theorem zpow_toNat (p : ℤ) (hp : 0 ≤ p) : (2 : ℚ) ^ p = (((2 : ℤ) ^ p.toNat : ℤ) : ℚ) := by
  have h3 : ((p.toNat : ℤ)) = p := Int.toNat_of_nonneg hp
  conv_lhs => rw [← h3]
  rw [zpow_natCast]
  push_cast
  rfl

/-- The significand of a rounded value has at most `p` bits. -/
theorem roundEven_ulp_bound (p emin : ℤ) (hp : 1 ≤ p) (q : ℚ) :
    |roundEven (q / (2 : ℚ) ^ ulpExp p emin q)| ≤ 2 ^ p.toNat := by
  have hu := ulp_pos (ulpExp p emin q)
  have hq := abs_lt_zpow_ulp p emin q
  rw [zpow_add₀ (by norm_num), zpow_toNat p (by omega)] at hq
  have hq' := abs_lt.mp hq
  rw [abs_le]
  constructor
  · have := roundEven_ge_of_ge (q / (2 : ℚ) ^ ulpExp p emin q) (-(2 ^ p.toNat)) (by
      rw [le_div_iff₀ hu]
      push_cast at hq' ⊢
      nlinarith [hq'.1])
    exact this
  · exact roundEven_le_of_le (q / (2 : ℚ) ^ ulpExp p emin q) (2 ^ p.toNat) (by
      rw [div_le_iff₀ hu]
      push_cast at hq' ⊢
      nlinarith [hq'.2])

theorem ulpExp_ge (p emin : ℤ) (q : ℚ) : emin - (p - 1) ≤ ulpExp p emin q := by
  unfold ulpExp
  have := le_max_right (Int.log 2 |q|) emin
  omega

/-- Rounding a rounded value changes nothing. -/
theorem roundTo_idem (p emin : ℤ) (hp : 1 ≤ p) (q : ℚ) :
    roundTo p emin (roundTo p emin q) = roundTo p emin q := by
  have hb := roundEven_ulp_bound p emin hp q
  have hk := ulpExp_ge p emin q
  have hval : roundTo p emin q
      = (roundEven (q / (2 : ℚ) ^ ulpExp p emin q) : ℚ) * (2 : ℚ) ^ ulpExp p emin q := rfl
  generalize roundEven (q / (2 : ℚ) ^ ulpExp p emin q) = m at hb hval
  generalize ulpExp p emin q = k at hk hval
  rw [hval]
  rcases lt_or_eq_of_le hb with hlt | heq
  · exact roundTo_of_rep p emin m k hlt hp hk
  · -- the significand is `2 ^ p` in absolute value: move one bit into the exponent
    have hpn : p.toNat = (p.toNat - 1) + 1 := by
      have : 1 ≤ p.toNat := by omega
      omega
    have hpow : (2 : ℤ) ^ p.toNat = 2 * 2 ^ (p.toNat - 1) := by
      conv_lhs => rw [hpn, pow_succ]
      ring
    have hsmall : |m / 2| < 2 ^ p.toNat := by
      have h1 : |m| = 2 * 2 ^ (p.toNat - 1) := by rw [heq, hpow]
      have h2 : (0 : ℤ) < 2 ^ (p.toNat - 1) := by positivity
      rw [abs_lt]
      rcases abs_cases m with ⟨ha, _⟩ | ⟨ha, _⟩ <;> constructor <;> omega
    have hm2 : m = 2 * (m / 2) := by
      have h1 : |m| = 2 * 2 ^ (p.toNat - 1) := by rw [heq, hpow]
      rcases abs_cases m with ⟨ha, _⟩ | ⟨ha, _⟩ <;> omega
    have hre : (m : ℚ) * (2 : ℚ) ^ k = ((m / 2 : ℤ) : ℚ) * (2 : ℚ) ^ (k + 1) := by
      rw [zpow_add₀ (by norm_num)]
      conv_lhs => rw [hm2]
      push_cast
      ring
    rw [hre]
    exact roundTo_of_rep p emin (m / 2) (k + 1) hsmall hp (by omega)

/-- A value below a representable value rounds below it. -/
theorem roundTo_le_of_le_rep (p emin : ℤ) (hp : 1 ≤ p) {q f : ℚ}
    (hf : roundTo p emin f = f) (h : q ≤ f) : roundTo p emin q ≤ f := by
  have := roundTo_mono p emin hp h
  rwa [hf] at this

/-- A value above a representable value rounds above it. -/
theorem roundTo_ge_of_ge_rep (p emin : ℤ) (hp : 1 ≤ p) {q f : ℚ}
    (hf : roundTo p emin f = f) (h : f ≤ q) : f ≤ roundTo p emin q := by
  have := roundTo_mono p emin hp h
  rwa [hf] at this

theorem roundEven_eq_of_near (t : ℚ) (n : ℤ) (h1 : (n : ℚ) - 1 / 2 < t)
    (h2 : t < n + 1 / 2) : roundEven t = n := by
  have ha := roundEven_le t
  have hb := roundEven_ge t
  have hc : (roundEven t : ℚ) < n + 1 := by linarith
  have hd : (n : ℚ) - 1 < roundEven t := by linarith
  have hc' : roundEven t < n + 1 := by exact_mod_cast hc
  have hd' : n - 1 < roundEven t := by exact_mod_cast hd
  omega

theorem log_abs_eq (q : ℚ) (L : ℤ) (h1 : (2 : ℚ) ^ L ≤ |q|) (h2 : |q| < (2 : ℚ) ^ (L + 1)) :
    Int.log 2 |q| = L := by
  have hpos : 0 < |q| := lt_of_lt_of_le (ulp_pos L) h1
  have ha := le_log_of_zpow_le _ _ hpos h1
  have hb := log_lt_of_lt_zpow _ _ hpos h2
  omega

/-- Evaluation of a rounding in the normal range: `q` lies in the binade of `2 ^ L`
and within half a unit of `n` units. -/
theorem roundTo_eval (p emin : ℤ) (q : ℚ) (L n : ℤ) (h1 : (2 : ℚ) ^ L ≤ |q|)
    (h2 : |q| < (2 : ℚ) ^ (L + 1)) (hL : emin ≤ L)
    (h3 : (n : ℚ) - 1 / 2 < q / (2 : ℚ) ^ (L - (p - 1)))
    (h4 : q / (2 : ℚ) ^ (L - (p - 1)) < n + 1 / 2) :
    roundTo p emin q = n * (2 : ℚ) ^ (L - (p - 1)) := by
  have hu : ulpExp p emin q = L - (p - 1) := by
    unfold ulpExp
    rw [log_abs_eq q L h1 h2, max_eq_left hL]
  unfold roundTo
  rw [hu, roundEven_eq_of_near _ n h3 h4]

/-- Relative error of a rounding, with the absolute term of gradual underflow. -/
theorem roundTo_rel_err (p emin : ℤ) (q : ℚ) :
    |roundTo p emin q - q| ≤ |q| * (2 : ℚ) ^ (-p) + (2 : ℚ) ^ (emin - p) := by
  have herr := roundTo_err p emin q
  have h2 : (2 : ℚ) ^ ulpExp p emin q / 2 = (2 : ℚ) ^ (max (Int.log 2 |q|) emin - p) := by
    unfold ulpExp
    have : max (Int.log 2 |q|) emin - (p - 1) = (max (Int.log 2 |q|) emin - p) + 1 := by ring
    rw [this, zpow_add₀ (by norm_num)]
    simp
  rw [h2] at herr
  have hn1 : (0 : ℚ) ≤ |q| * (2 : ℚ) ^ (-p) := mul_nonneg (abs_nonneg q) (ulp_pos _).le
  have hn2 := (ulp_pos (emin - p)).le
  rcases le_total (Int.log 2 |q|) emin with hle | hle
  · rw [max_eq_right hle] at herr
    linarith
  · rw [max_eq_left hle] at herr
    rcases eq_or_ne q 0 with h0 | h0
    · rw [h0, roundTo_zero] at *
      simp
      positivity
    · have hpos : 0 < |q| := abs_pos.mpr h0
      have hlog := log_le_self |q| hpos
      have : (2 : ℚ) ^ (Int.log 2 |q| - p) ≤ |q| * (2 : ℚ) ^ (-p) := by
        rw [sub_eq_add_neg, zpow_add₀ (by norm_num)]
        exact mul_le_mul_of_nonneg_right hlog (ulp_pos _).le
      linarith

/-! ## Basic facts -/

theorem random_of_fits (min max : Int) (r : Nat) (hmin : INT_MIN ≤ min)
    (hmax : max ≤ INT_MAX) (hle : min ≤ max) (hspan : max - min < INT_MAX) :
    random min max r = some (min + (r : Int) % (max - min + 1)) := by
  have hn : (0 : Int) < max - min + 1 := by omega
  have hr : (0 : Int) ≤ (r : Int) := Int.ofNat_nonneg r
  have hmod0 := Int.emod_nonneg (r : Int) (ne_of_gt hn)
  have hmod1 := Int.emod_lt_of_pos (r : Int) hn
  have htm : Int.tmod (r : Int) (max - min + 1) = (r : Int) % (max - min + 1) :=
    Int.tmod_eq_emod hr (le_of_lt hn)
  simp only [INT_MIN, INT_MAX] at hmin hmax hspan
  have h1 : checkInt (max - min) = some (max - min) := by
    simp only [checkInt, INT_MIN, INT_MAX]; rw [if_pos]; constructor <;> omega
  have h2 : checkInt (max - min + 1) = some (max - min + 1) := by
    simp only [checkInt, INT_MIN, INT_MAX]; rw [if_pos]; constructor <;> omega
  have h3 : checkInt (min + (r : Int) % (max - min + 1))
      = some (min + (r : Int) % (max - min + 1)) := by
    simp only [checkInt, INT_MIN, INT_MAX]; rw [if_pos]; constructor <;> omega
  simp only [random, h1, h2, Option.bind_eq_bind, Option.some_bind, htm, h3]
  rw [if_neg (ne_of_gt hn)]

theorem random_state (r : Nat) : random 0 5 r = some ((r : Int) % 6) := by
  have h := random_of_fits 0 5 r (by decide) (by decide) (by decide) (by decide)
  simpa using h

theorem random_short (r : Nat) :
    random minTimeInState maxTimeInState r = some (2 + (r : Int) % 4) := by
  have h := random_of_fits 2 5 r (by decide) (by decide) (by decide) (by decide)
  simpa [minTimeInState, maxTimeInState] using h

theorem random_long (r : Nat) :
    random (minTimeInState * 2) (maxTimeInState * 2) r = some (4 + (r : Int) % 7) := by
  have h := random_of_fits 4 10 r (by decide) (by decide) (by decide) (by decide)
  simpa [minTimeInState, maxTimeInState] using h

theorem mainInit_eq (r0 : Nat) :
    mainInit r0 = some
      { state := 0, previousState := 0, x := .fin 0, y := .fin (-1), animationTime := .fin 0,
        currentFrame := 1, currentTime := .fin 0,
        timeInBetweenAnimations := 2 + (r0 : Int) % 4 } := by
  simp [mainInit, random_short]

/-- Closed form of the transition: the drawn state `b` and interval `t` exist and
are in range, and the result is the state the two branches of main.c 186-197 build. -/
theorem transition_spec (rand1 rand2 : Nat) (s : Drone) :
    ∃ b t : Int, random 0 5 rand1 = some b ∧ 0 ≤ b ∧ b ≤ 5 ∧
      (b = 3 → 4 ≤ t ∧ t ≤ 10) ∧ (b ≠ 3 → 2 ≤ t ∧ t ≤ 5) ∧
      transition rand1 rand2 s = some
        (if transitionDue s then
          (if b ≠ s.previousState then
            { s with state := b, currentTime := .fin 0, timeInBetweenAnimations := t,
                     currentFrame := 1, previousState := b }
           else { s with state := b, currentTime := .fin 0, timeInBetweenAnimations := t })
         else s) := by
  have hb0 := Int.emod_nonneg (rand1 : Int) (show (6 : Int) ≠ 0 by decide)
  have hb1 := Int.emod_lt_of_pos (rand1 : Int) (show (0 : Int) < 6 by decide)
  have hl0 := Int.emod_nonneg (rand2 : Int) (show (7 : Int) ≠ 0 by decide)
  have hl1 := Int.emod_lt_of_pos (rand2 : Int) (show (0 : Int) < 7 by decide)
  have hs0 := Int.emod_nonneg (rand2 : Int) (show (4 : Int) ≠ 0 by decide)
  have hs1 := Int.emod_lt_of_pos (rand2 : Int) (show (0 : Int) < 4 by decide)
  by_cases h3 : (rand1 : Int) % 6 = 3
  · refine ⟨(rand1 : Int) % 6, 4 + (rand2 : Int) % 7, random_state rand1, hb0, by omega,
      fun _ => ⟨by omega, by omega⟩, fun h => absurd h3 h, ?_⟩
    unfold transition
    by_cases hd : transitionDue s = true
    · simp only [hd, if_true, random_state, Option.bind_eq_bind, Option.some_bind, h3,
        random_long]
      split <;> rfl
    · simp [hd]
  · refine ⟨(rand1 : Int) % 6, 2 + (rand2 : Int) % 4, random_state rand1, hb0, by omega,
      fun h => absurd h h3, fun _ => ⟨by omega, by omega⟩, ?_⟩
    unfold transition
    by_cases hd : transitionDue s = true
    · simp only [hd, if_true, random_state, Option.bind_eq_bind, Option.some_bind, h3,
        if_false, random_short]
      split <;> rfl
    · simp [hd]

/-- Closed form of one loop iteration. -/
theorem mainLoopBody_spec (c : Screen) (s : Drone) (i : Tick) :
    ∃ b t : Int, random 0 5 i.rand1 = some b ∧ 0 ≤ b ∧ b ≤ 5 ∧
      (b = 3 → 4 ≤ t ∧ t ≤ 10) ∧ (b ≠ 3 → 2 ≤ t ∧ t ≤ 5) ∧
      mainLoopBody c s i = some (motion (imageWidth c) (imageHeight c) i.deltaTime
        (if transitionFires s i then
          (if b ≠ s.previousState then
            { advanceClocks i.deltaTime s with
                state := b, currentTime := .fin 0, timeInBetweenAnimations := t,
                currentFrame := 1, previousState := b }
           else
            { advanceClocks i.deltaTime s with
                state := b, currentTime := .fin 0, timeInBetweenAnimations := t })
         else advanceClocks i.deltaTime s)) := by
  obtain ⟨b, t, hb, h0, h5, hl, hs, ht⟩ :=
    transition_spec i.rand1 i.rand2 (advanceClocks i.deltaTime s)
  refine ⟨b, t, hb, h0, h5, hl, hs, ?_⟩
  have hp : (advanceClocks i.deltaTime s).previousState = s.previousState := by
    unfold advanceClocks; split <;> rfl
  simp only [mainLoopBody, ht, Option.map_some', transitionFires, hp]

theorem mainLoopBody_total (c : Screen) (s : Drone) (i : Tick) :
    ∃ s', mainLoopBody c s i = some s' := by
  obtain ⟨b, t, -, -, -, -, -, h⟩ := mainLoopBody_spec c s i
  exact ⟨_, h⟩

/-- Induction over the iterations of the loop: a property that every iteration
preserves (for inputs satisfying `Q`) holds after any number of them, and the loop
does produce a state. -/
theorem mainLoopFrom_induct (c : Screen) (P : Drone → Prop) (Q : Tick → Prop)
    (hstep : ∀ s i s', P s → Q i → mainLoopBody c s i = some s' → P s') :
    ∀ (ticks : List Tick) (s : Drone), P s → (∀ i ∈ ticks, Q i) →
      ∃ s', mainLoopFrom c s ticks = some s' ∧ P s' := by
  intro ticks
  induction ticks with
  | nil => intro s hs _; exact ⟨s, rfl, hs⟩
  | cons i ticks ih =>
    intro s hs hq
    obtain ⟨s1, h1⟩ := mainLoopBody_total c s i
    have hP1 : P s1 := hstep s i s1 hs (hq i (List.mem_cons_self i ticks)) h1
    obtain ⟨s2, h2, hP2⟩ := ih s1 hP1 (fun j hj => hq j (List.mem_cons_of_mem i hj))
    exact ⟨s2, by simp [mainLoopFrom, h1, h2], hP2⟩

theorem mainLoop_induct (c : Screen) (P : Drone → Prop)
    (hinit : ∀ r0 s, mainInit r0 = some s → P s)
    (hstep : ∀ s i s', P s → mainLoopBody c s i = some s' → P s')
    (r0 : Nat) (ticks : List Tick) : ∃ s, mainLoop c r0 ticks = some s ∧ P s := by
  have h0 := mainInit_eq r0
  obtain ⟨s, hs, hP⟩ := mainLoopFrom_induct c P (fun _ => True)
    (fun s i s' hP _ h => hstep s i s' hP h) ticks _ (hinit r0 _ h0) (fun _ _ => trivial)
  exact ⟨s, by simp [mainLoop, h0, hs], hP⟩

/-! ### Fields that motion and the clocks leave alone -/

theorem motion_state (w h : Fp) (dt : ℚ) (s : Drone) : (motion w h dt s).state = s.state := by
  unfold motion; split_ifs <;> rfl

theorem motion_previousState (w h : Fp) (dt : ℚ) (s : Drone) :
    (motion w h dt s).previousState = s.previousState := by
  unfold motion; split_ifs <;> rfl

theorem motion_currentFrame (w h : Fp) (dt : ℚ) (s : Drone) :
    (motion w h dt s).currentFrame = s.currentFrame := by
  unfold motion; split_ifs <;> rfl

theorem motion_animationTime (w h : Fp) (dt : ℚ) (s : Drone) :
    (motion w h dt s).animationTime = s.animationTime := by
  unfold motion; split_ifs <;> rfl

theorem motion_currentTime (w h : Fp) (dt : ℚ) (s : Drone) :
    (motion w h dt s).currentTime = s.currentTime := by
  unfold motion; split_ifs <;> rfl

theorem motion_timeInBetweenAnimations (w h : Fp) (dt : ℚ) (s : Drone) :
    (motion w h dt s).timeInBetweenAnimations = s.timeInBetweenAnimations := by
  unfold motion; split_ifs <;> rfl

theorem advanceClocks_state (dt : ℚ) (s : Drone) : (advanceClocks dt s).state = s.state := by
  unfold advanceClocks; split <;> rfl

theorem advanceClocks_previousState (dt : ℚ) (s : Drone) :
    (advanceClocks dt s).previousState = s.previousState := by
  unfold advanceClocks; split <;> rfl

theorem advanceClocks_x (dt : ℚ) (s : Drone) : (advanceClocks dt s).x = s.x := by
  unfold advanceClocks; split <;> rfl

theorem advanceClocks_y (dt : ℚ) (s : Drone) : (advanceClocks dt s).y = s.y := by
  unfold advanceClocks; split <;> rfl

theorem advanceClocks_currentFrame (dt : ℚ) (s : Drone) :
    (advanceClocks dt s).currentFrame
      = if frameDue dt s then nextFrame s.currentFrame else s.currentFrame := by
  unfold advanceClocks; split <;> rfl

theorem advanceClocks_animationTime (dt : ℚ) (s : Drone) :
    (advanceClocks dt s).animationTime
      = if frameDue dt s then .fin 0
        else Fp.add binary64 s.animationTime (.fin dt) := by
  unfold advanceClocks; split <;> rfl

theorem advanceClocks_timeInBetweenAnimations (dt : ℚ) (s : Drone) :
    (advanceClocks dt s).timeInBetweenAnimations = s.timeInBetweenAnimations := by
  unfold advanceClocks; split <;> rfl

theorem advanceClocks_currentTime (dt : ℚ) (s : Drone) :
    (advanceClocks dt s).currentTime = Fp.add binary64 s.currentTime (.fin dt) := by
  unfold advanceClocks; split <;> rfl

theorem nextFrame_range (f : Int) (h : 1 ≤ f ∧ f ≤ 4) :
    1 ≤ nextFrame f ∧ nextFrame f ≤ 4 := by
  unfold nextFrame; split_ifs <;> omega

/-- At the start of every iteration `previousState` equals `state`. -/
theorem previousState_eq_state (c : Screen) (r0 : Nat) (ticks : List Tick) :
    ∃ s, mainLoop c r0 ticks = some s ∧ s.previousState = s.state := by
  refine mainLoop_induct c (fun s => s.previousState = s.state) ?_ ?_ r0 ticks
  · intro r s h
    rw [mainInit_eq] at h
    cases h; rfl
  · intro s i s' hs h
    obtain ⟨b, t, -, -, -, -, -, hb⟩ := mainLoopBody_spec c s i
    rw [hb] at h
    cases h
    rw [motion_previousState, motion_state]
    split_ifs with h1 h2
    · rfl
    · simp only [ne_eq, not_not] at h2
      simp [h2, advanceClocks_previousState]
    · rw [advanceClocks_previousState, advanceClocks_state, hs]

/-! ### Position after motion -/

theorem motion_x (w h : Fp) (dt : ℚ) (s : Drone) :
    (motion w h dt s).x =
      if s.state = 1 then
        (if Fp.lt (Fp.add binary32 s.x w) (binary32 0.95) then
          (Fp.add binary64 s.x (stepX dt)).toFloat else s.x)
      else if s.state = 2 then
        (if Fp.lt (binary32 0.95).neg s.x then
          (Fp.sub binary64 s.x (stepX dt)).toFloat else s.x)
      else s.x := by
  unfold motion
  split_ifs <;> first | rfl | omega

theorem motion_y (w h : Fp) (dt : ℚ) (s : Drone) :
    (motion w h dt s).y =
      if s.state = 4 then
        (if Fp.lt (Fp.add binary32 s.y h) (binary32 0.88) then
          (Fp.add binary64 s.y (stepY dt)).toFloat else s.y)
      else if s.state = 5 then
        (if Fp.lt (binary32 1.0).neg s.y then
          (Fp.sub binary64 s.y (stepY dt)).toFloat else s.y)
      else s.y := by
  unfold motion
  split_ifs <;> first | rfl | omega

/-- State on which motion runs in an iteration: the one the transition has left. -/
theorem mainLoopBody_position (c : Screen) (s : Drone) (i : Tick) :
    ∃ b s', random 0 5 i.rand1 = some b ∧ mainLoopBody c s i = some s' ∧
      s'.state = (if transitionFires s i then b else s.state) ∧
      s'.x = (motion (imageWidth c) (imageHeight c) i.deltaTime
        { s with state := if transitionFires s i then b else s.state }).x ∧
      s'.y = (motion (imageWidth c) (imageHeight c) i.deltaTime
        { s with state := if transitionFires s i then b else s.state }).y := by
  obtain ⟨b, t, hb, -, -, -, -, hbody⟩ := mainLoopBody_spec c s i
  refine ⟨b, _, hb, hbody, ?_, ?_, ?_⟩
  · rw [motion_state]
    split_ifs <;> first | rfl | exact advanceClocks_state _ _
  · rw [motion_x, motion_x]
    split_ifs <;> simp_all [advanceClocks_x, advanceClocks_state]
  · rw [motion_y, motion_y]
    split_ifs <;> simp_all [advanceClocks_y, advanceClocks_state]

/-- One iteration moves the position as motion does on the state the transition
has left, whose position is still the one before the iteration. -/
theorem mainLoopBody_moves (c : Screen) (s s' : Drone) (i : Tick)
    (h : mainLoopBody c s i = some s') :
    ∃ t : Drone, t.x = s.x ∧ t.y = s.y ∧
      s'.x = (motion (imageWidth c) (imageHeight c) i.deltaTime t).x ∧
      s'.y = (motion (imageWidth c) (imageHeight c) i.deltaTime t).y := by
  obtain ⟨b, s1, -, hbody, -, hx, hy⟩ := mainLoopBody_position c s i
  rw [h] at hbody
  cases hbody
  exact ⟨{ s with state := if transitionFires s i then b else s.state }, rfl, rfl, hx, hy⟩

/-- At the start of every iteration `state` is one of the six behaviour numbers. -/
theorem state_in_range (c : Screen) (r0 : Nat) (ticks : List Tick) :
    ∃ s, mainLoop c r0 ticks = some s ∧ 0 ≤ s.state ∧ s.state ≤ 5 := by
  refine mainLoop_induct c (fun s => 0 ≤ s.state ∧ s.state ≤ 5) ?_ ?_ r0 ticks
  · intro r s h
    rw [mainInit_eq] at h
    cases h
    exact ⟨le_refl _, by norm_num⟩
  · intro s i s' hs h
    obtain ⟨b', t, hb', h0, h5, -, -, -⟩ := mainLoopBody_spec c s i
    obtain ⟨b, s1, hb, hbody, hst, -, -⟩ := mainLoopBody_position c s i
    rw [h] at hbody
    cases hbody
    rw [hb'] at hb
    cases hb
    show 0 ≤ s'.state ∧ s'.state ≤ 5
    rw [hst]
    split_ifs
    · exact ⟨h0, h5⟩
    · exact hs

theorem mainLoopFrom_append (c : Screen) (i : Tick) :
    ∀ (ticks : List Tick) (s : Drone),
      mainLoopFrom c s (ticks ++ [i])
        = (mainLoopFrom c s ticks).bind (fun s' => mainLoopBody c s' i) := by
  intro ticks
  induction ticks with
  | nil =>
    intro s
    obtain ⟨s', h⟩ := mainLoopBody_total c s i
    simp [mainLoopFrom, h]
  | cons j ticks ih =>
    intro s
    obtain ⟨s', h⟩ := mainLoopBody_total c s j
    simp [mainLoopFrom, h, ih]

theorem mainLoop_append (c : Screen) (r0 : Nat) (ticks : List Tick) (i : Tick) :
    mainLoop c r0 (ticks ++ [i])
      = (mainLoop c r0 ticks).bind (fun s' => mainLoopBody c s' i) := by
  simp [mainLoop, mainInit_eq, mainLoopFrom_append]

/-- An iteration in which no transition fires only advances the clocks and moves. -/
theorem mainLoopBody_quiet (c : Screen) (s : Drone) (i : Tick)
    (h : transitionFires s i = false) :
    ∃ s', mainLoopBody c s i = some s' ∧
      s'.currentTime = Fp.add binary64 s.currentTime (.fin i.deltaTime) ∧
      s'.timeInBetweenAnimations = s.timeInBetweenAnimations := by
  obtain ⟨b, t, -, -, -, -, -, hbody⟩ := mainLoopBody_spec c s i
  refine ⟨_, hbody, ?_, ?_⟩
  · rw [motion_currentTime]
    simp only [h, Bool.false_eq_true, if_false]
    exact advanceClocks_currentTime _ _
  · rw [motion_timeInBetweenAnimations]
    simp only [h, Bool.false_eq_true, if_false]
    exact advanceClocks_timeInBetweenAnimations _ _

theorem transitionFires_eq (s : Drone) (i : Tick) :
    transitionFires s i
      = Fp.le (intToDouble s.timeInBetweenAnimations)
          (Fp.add binary64 s.currentTime (.fin i.deltaTime)) := by
  simp [transitionFires, transitionDue, advanceClocks_currentTime,
    advanceClocks_timeInBetweenAnimations]

theorem mainLoopBody_animationTime (c : Screen) (s s' : Drone) (i : Tick)
    (h : mainLoopBody c s i = some s') :
    s'.animationTime = if frameDue i.deltaTime s then .fin 0
      else Fp.add binary64 s.animationTime (.fin i.deltaTime) := by
  obtain ⟨b, t, -, -, -, -, -, hbody⟩ := mainLoopBody_spec c s i
  rw [h] at hbody
  cases hbody
  rw [motion_animationTime]
  split_ifs <;> simp_all [advanceClocks_animationTime]

theorem frameAdvances_cons (c : Screen) (s s' : Drone) (i : Tick) (ticks : List Tick)
    (h : mainLoopBody c s i = some s') :
    frameAdvances c s (i :: ticks)
      = (if frameDue i.deltaTime s then 1 else 0) + frameAdvances c s' ticks := by
  rw [frameAdvances, h]
  rfl

theorem totalTime_cons (i : Tick) (ticks : List Tick) :
    totalTime (i :: ticks) = i.deltaTime + totalTime ticks := by
  simp [totalTime]

/-! ### Evaluation of roundings -/

theorem roundTo_dyadic (p emin : ℤ) (hp : 1 ≤ p) (n : ℤ) (k : ℕ) (hn : |n| < 2 ^ p.toNat)
    (hk : (k : ℤ) ≤ (p - 1) - emin) :
    roundTo p emin ((n : ℚ) / 2 ^ k) = (n : ℚ) / 2 ^ k := by
  have h : (n : ℚ) / 2 ^ k = (n : ℚ) * (2 : ℚ) ^ (-(k : ℤ)) := by
    rw [zpow_neg, zpow_natCast, div_eq_mul_inv]
  rw [h]
  exact roundTo_of_rep p emin n (-(k : ℤ)) hn hp (by omega)

theorem abs_dyadic_lt (n : ℤ) (k m : ℕ) (hn : |n| < 2 ^ m) :
    |(n : ℚ) / 2 ^ k| < (2 : ℚ) ^ m := by
  have h1 : (1 : ℚ) ≤ 2 ^ k := one_le_pow₀ (by norm_num)
  have h2 : |(n : ℚ)| < (2 : ℚ) ^ m := by
    have : ((|n| : ℤ) : ℚ) < ((2 ^ m : ℤ) : ℚ) := Int.cast_lt.mpr hn
    rw [Int.cast_abs, Int.cast_pow] at this
    exact_mod_cast this
  rw [abs_div, abs_of_pos (by positivity : (0 : ℚ) < 2 ^ k)]
  calc |(n : ℚ)| / 2 ^ k ≤ |(n : ℚ)| / 1 :=
        div_le_div_of_nonneg_left (abs_nonneg _) (by norm_num) h1
    _ = |(n : ℚ)| := by simp
    _ < (2 : ℚ) ^ m := h2

theorem roundFp_fin (p emin : ℤ) (emax1 : ℕ) (q : ℚ)
    (h : |roundTo p emin q| < (2 : ℚ) ^ emax1) :
    roundFp p emin emax1 q = .fin (roundTo p emin q) := by
  unfold roundFp
  rw [if_neg (not_le.mpr h)]

/-- A dyadic value with at most 53 significant bits is a `double`. -/
theorem binary64_dyadic (n : ℤ) (k : ℕ) (hn : |n| < 2 ^ 53) (hk : k ≤ 1074) :
    binary64 ((n : ℚ) / 2 ^ k) = .fin ((n : ℚ) / 2 ^ k) := by
  have hr := roundTo_dyadic 53 (-1022) (by norm_num) n k hn (by omega)
  unfold binary64
  rw [roundFp_fin, hr]
  rw [hr]
  have := abs_dyadic_lt n k 53 hn
  have h2 : (2 : ℚ) ^ 53 < (2 : ℚ) ^ 1024 := by norm_num
  exact lt_trans this h2

/-- A dyadic value with at most 24 significant bits is a `float`. -/
theorem binary32_dyadic (n : ℤ) (k : ℕ) (hn : |n| < 2 ^ 24) (hk : k ≤ 149) :
    binary32 ((n : ℚ) / 2 ^ k) = .fin ((n : ℚ) / 2 ^ k) := by
  have hr := roundTo_dyadic 24 (-126) (by norm_num) n k hn (by omega)
  unfold binary32
  rw [roundFp_fin, hr]
  rw [hr]
  have := abs_dyadic_lt n k 24 hn
  have h2 : (2 : ℚ) ^ 24 < (2 : ℚ) ^ 128 := by norm_num
  exact lt_trans this h2

theorem isFloat_dyadic (n : ℤ) (k : ℕ) (hn : |n| < 2 ^ 24) (hk : k ≤ 149) :
    IsFloat ((n : ℚ) / 2 ^ k) :=
  roundTo_dyadic 24 (-126) (by norm_num) n k hn (by omega)

theorem isDouble_dyadic (n : ℤ) (k : ℕ) (hn : |n| < 2 ^ 53) (hk : k ≤ 1074) :
    IsDouble ((n : ℚ) / 2 ^ k) :=
  roundTo_dyadic 53 (-1022) (by norm_num) n k hn (by omega)

/-- Evaluation of `binary64` at a value written `n / 2 ^ k`. -/
theorem binary64_eq (q : ℚ) (n : ℤ) (k : ℕ) (hq : q = (n : ℚ) / 2 ^ k)
    (hn : |n| < 2 ^ 53) (hk : k ≤ 1074) : binary64 q = .fin q := by
  rw [hq]; exact binary64_dyadic n k hn hk

/-- Evaluation of `binary32` at a value written `n / 2 ^ k`. -/
theorem binary32_eq (q : ℚ) (n : ℤ) (k : ℕ) (hq : q = (n : ℚ) / 2 ^ k)
    (hn : |n| < 2 ^ 24) (hk : k ≤ 149) : binary32 q = .fin q := by
  rw [hq]; exact binary32_dyadic n k hn hk

/-- Evaluation of `binary32` in the normal range. -/
theorem binary32_eval (q : ℚ) (L n : ℤ) (h1 : (2 : ℚ) ^ L ≤ |q|)
    (h2 : |q| < (2 : ℚ) ^ (L + 1)) (hL : -126 ≤ L)
    (h3 : (n : ℚ) - 1 / 2 < q / (2 : ℚ) ^ (L - 23))
    (h4 : q / (2 : ℚ) ^ (L - 23) < n + 1 / 2)
    (h5 : |(n : ℚ) * (2 : ℚ) ^ (L - 23)| < (2 : ℚ) ^ 128) :
    binary32 q = .fin (n * (2 : ℚ) ^ (L - 23)) := by
  have hr := roundTo_eval 24 (-126) q L n h1 h2 hL h3 h4
  have : L - (24 - 1) = L - 23 := by ring
  rw [this] at hr
  unfold binary32
  rw [roundFp_fin, hr]
  rw [hr]; exact h5

/-- Evaluation of `binary64` in the normal range. -/
theorem binary64_eval (q : ℚ) (L n : ℤ) (h1 : (2 : ℚ) ^ L ≤ |q|)
    (h2 : |q| < (2 : ℚ) ^ (L + 1)) (hL : -1022 ≤ L)
    (h3 : (n : ℚ) - 1 / 2 < q / (2 : ℚ) ^ (L - 52))
    (h4 : q / (2 : ℚ) ^ (L - 52) < n + 1 / 2)
    (h5 : |(n : ℚ) * (2 : ℚ) ^ (L - 52)| < (2 : ℚ) ^ 1024) :
    binary64 q = .fin (n * (2 : ℚ) ^ (L - 52)) := by
  have hr := roundTo_eval 53 (-1022) q L n h1 h2 hL h3 h4
  have : L - (53 - 1) = L - 52 := by ring
  rw [this] at hr
  unfold binary64
  rw [roundFp_fin, hr]
  rw [hr]; exact h5

/-! ### The constants of the program -/

theorem velocity_eq : velocity = .fin (13421773 / 268435456) := by
  have h := binary32_eval 0.05 (-5) 13421773 (by norm_num [abs_of_pos])
    (by norm_num [abs_of_pos]) (by norm_num) (by norm_num) (by norm_num)
    (by norm_num [abs_of_pos])
  rw [velocity, h]
  norm_num

theorem animationDuration_eq :
    animationDuration = .fin (5404319552844595 / 18014398509481984) := by
  have h := binary64_eval 0.3 (-2) 5404319552844595 (by norm_num [abs_of_pos])
    (by norm_num [abs_of_pos]) (by norm_num) (by norm_num) (by norm_num)
    (by norm_num [abs_of_pos])
  rw [animationDuration, h]
  norm_num

theorem gate95_eq : binary32 0.95 = .fin (15938355 / 16777216) := by
  have h := binary32_eval 0.95 (-1) 15938355 (by norm_num [abs_of_pos])
    (by norm_num [abs_of_pos]) (by norm_num) (by norm_num) (by norm_num)
    (by norm_num [abs_of_pos])
  rw [h]
  norm_num

theorem gate88_eq : binary32 0.88 = .fin (7381975 / 8388608) := by
  have h := binary32_eval 0.88 (-1) 14763950 (by norm_num [abs_of_pos])
    (by norm_num [abs_of_pos]) (by norm_num) (by norm_num) (by norm_num)
    (by norm_num [abs_of_pos])
  rw [h]
  norm_num

theorem gate1_eq : binary32 1.0 = .fin 1 := by
  have h := binary32_eq 1 1 0 (by norm_num) (by norm_num) (by norm_num)
  norm_num
  exact h

theorem intToFloat_three : intToFloat 3 = .fin 3 := by
  have h := binary32_eq 3 3 0 (by norm_num) (by norm_num) (by norm_num)
  simpa [intToFloat] using h

theorem velocity3_eq :
    Fp.mul binary32 velocity (intToFloat 3) = .fin (5033165 / 33554432) := by
  rw [velocity_eq, intToFloat_three]
  show binary32 (13421773 / 268435456 * 3) = _
  have h := binary32_eval (13421773 / 268435456 * 3) (-3) 10066330
    (by norm_num [abs_of_pos]) (by norm_num [abs_of_pos]) (by norm_num) (by norm_num)
    (by norm_num) (by norm_num [abs_of_pos])
  rw [h]
  norm_num

theorem stepX_eq (dt : ℚ) : stepX dt = binary64 (13421773 / 268435456 * dt) := by
  rw [stepX, velocity_eq]; rfl

theorem stepY_eq (dt : ℚ) : stepY dt = binary64 (5033165 / 33554432 * dt) := by
  rw [stepY, velocity3_eq]; rfl

theorem intToDouble_eq (t : Int) (h : |t| < 2 ^ 53) : intToDouble t = .fin t := by
  have := binary64_eq (t : ℚ) t 0 (by simp) h (by norm_num)
  simpa [intToDouble] using this

/-- The nearest integer at a tie is the even one. -/
theorem roundEven_eq_of_tie (t : ℚ) (n : ℤ) (h : |t - n| = 1 / 2) (hn : n % 2 = 0) :
    roundEven t = n := by
  rcases abs_cases (t - n) with ⟨h1, _⟩ | ⟨h1, _⟩
  · -- `t = n + 1/2`
    have ht : t = n + 1 / 2 := by linarith
    have hfl : ⌊t⌋ = n := by
      rw [Int.floor_eq_iff]; constructor <;> linarith
    unfold roundEven
    rw [hfl]
    have e : t - (n : ℚ) = 1 / 2 := by linarith
    rw [e]
    simp [hn]
  · -- `t = n - 1/2`
    have ht : t = n - 1 / 2 := by linarith
    have hfl : ⌊t⌋ = n - 1 := by
      rw [Int.floor_eq_iff]; push_cast; constructor <;> linarith
    unfold roundEven
    rw [hfl]
    have e : t - ((n - 1 : ℤ) : ℚ) = 1 / 2 := by push_cast; linarith
    rw [e]
    have hodd : ¬ ((n - 1) % 2 = 0) := by omega
    simp [hodd]

/-- Evaluation of `binary64` in the normal range at a tie. -/
theorem binary64_eval_tie (q : ℚ) (L n : ℤ) (h1 : (2 : ℚ) ^ L ≤ |q|)
    (h2 : |q| < (2 : ℚ) ^ (L + 1)) (hL : -1022 ≤ L)
    (h3 : |q / (2 : ℚ) ^ (L - 52) - n| = 1 / 2) (hn : n % 2 = 0)
    (h5 : |(n : ℚ) * (2 : ℚ) ^ (L - 52)| < (2 : ℚ) ^ 1024) :
    binary64 q = .fin (n * (2 : ℚ) ^ (L - 52)) := by
  have hu : ulpExp 53 (-1022) q = L - 52 := by
    unfold ulpExp
    rw [log_abs_eq q L h1 h2, max_eq_left hL]
    ring
  have hr : roundTo 53 (-1022) q = n * (2 : ℚ) ^ (L - 52) := by
    unfold roundTo
    rw [hu, roundEven_eq_of_tie _ n h3 hn]
  unfold binary64
  rw [roundFp_fin, hr]
  rw [hr]; exact h5

/-! ### Concrete iterations -/

theorem Fp.add_fin (rnd : ℚ → Fp) (a b : ℚ) : Fp.add rnd (.fin a) (.fin b) = rnd (a + b) := rfl

theorem Fp.sub_fin (rnd : ℚ → Fp) (a b : ℚ) : Fp.sub rnd (.fin a) (.fin b) = rnd (a + -b) := rfl

theorem Fp.mul_fin (rnd : ℚ → Fp) (a b : ℚ) : Fp.mul rnd (.fin a) (.fin b) = rnd (a * b) := rfl

theorem Fp.lt_fin (a b : ℚ) : Fp.lt (.fin a) (.fin b) = decide (a < b) := rfl

theorem Fp.le_fin (a b : ℚ) : Fp.le (.fin a) (.fin b) = decide (a ≤ b) := rfl

theorem Fp.toFloat_fin (a : ℚ) : Fp.toFloat (.fin a) = binary32 a := rfl

theorem imageWidth_fullHD : imageWidth fullHD = .fin (7270127 / 67108864) := by
  have h1 : intToFloat 1920 = .fin 1920 := by
    have h := binary32_eq 1920 1920 0 (by norm_num) (by norm_num) (by norm_num)
    simpa [intToFloat] using h
  have h2 : binary32 (104 / 1920) = .fin (7270127 / 134217728) := by
    have h := binary32_eval (104 / 1920) (-5) 14540254 (by norm_num [abs_of_pos])
      (by norm_num [abs_of_pos]) (by norm_num) (by norm_num) (by norm_num)
      (by norm_num [abs_of_pos])
    rw [h]; norm_num
  have h3 : binary32 (7270127 / 134217728 * 2) = .fin (7270127 / 67108864) := by
    have h := binary32_eq (7270127 / 67108864) 7270127 26 (by norm_num) (by norm_num)
      (by norm_num)
    have e : (7270127 / 134217728 * 2 : ℚ) = 7270127 / 67108864 := by norm_num
    rw [e, h]
  show Fp.mul binary32 (Fp.div binary32 (.fin 104) (intToFloat 1920)) (.fin 2) = _
  rw [h1]
  show Fp.mul binary32 (binary32 (104 / 1920)) (.fin 2) = _
  rw [h2, Fp.mul_fin, h3]

theorem imageWidth_1664 (c : Screen) (h : c.screenWidth = 1664) :
    imageWidth c = .fin (1 / 8) := by
  have h1 : intToFloat 1664 = .fin 1664 := by
    have h := binary32_eq 1664 1664 0 (by norm_num) (by norm_num) (by norm_num)
    simpa [intToFloat] using h
  have h2 : binary32 (104 / 1664) = .fin (1 / 16) := by
    have h := binary32_eq (1 / 16) 1 4 (by norm_num) (by norm_num) (by norm_num)
    have e : (104 / 1664 : ℚ) = 1 / 16 := by norm_num
    rw [e, h]
  have h3 : binary32 (1 / 16 * 2) = .fin (1 / 8) := by
    have h := binary32_eq (1 / 8) 1 3 (by norm_num) (by norm_num) (by norm_num)
    have e : (1 / 16 * 2 : ℚ) = 1 / 8 := by norm_num
    rw [e, h]
  unfold imageWidth
  rw [h, h1]
  show Fp.mul binary32 (binary32 (104 / 1664)) (.fin 2) = _
  rw [h2, Fp.mul_fin, h3]

theorem mainInit_zero : mainInit 0 = some startState := by
  rw [mainInit_eq]; rfl

theorem random_draws_one : random 0 5 1 = some 1 := by decide

theorem b64_two : binary64 2 = .fin 2 :=
  binary64_eq 2 2 0 (by norm_num) (by norm_num) (by norm_num)

theorem startState_clocks :
    advanceClocks 2 startState
      = { startState with animationTime := .fin 0, currentTime := .fin 2, currentFrame := 2 } := by
  have hd : frameDue 2 startState = true := by
    simp only [frameDue, startState, Fp.add_fin, animationDuration_eq]
    norm_num [b64_two, Fp.le_fin]
  unfold advanceClocks
  rw [if_pos hd]
  simp only [startState, Fp.add_fin]
  norm_num [b64_two, nextFrame]

theorem startState_fires : transitionFires startState ⟨2, 1, 0⟩ = true := by
  rw [transitionFires, startState_clocks]
  simp only [transitionDue, startState]
  rw [intToDouble_eq 2 (by norm_num)]
  norm_num [Fp.le_fin]

theorem startState_transition :
    transition 1 0 (advanceClocks 2 startState)
      = some { startState with
          state := 1, previousState := 1, currentFrame := 1, currentTime := .fin 0 } := by
  have hd : transitionDue (advanceClocks 2 startState) = true := startState_fires
  unfold transition
  rw [if_pos hd, startState_clocks]
  simp [random_state, random_short, startState]

theorem walk_step_x (w : ℚ) (hw : binary32 w = .fin w) (hlt : w < 15938355 / 16777216) :
    motion (.fin w) h 2 { startState with
        state := 1, previousState := 1, currentFrame := 1, currentTime := .fin 0 }
      = walkingState := by
  have hgate : Fp.lt (Fp.add binary32 (.fin 0) (.fin w)) (binary32 0.95) = true := by
    rw [Fp.add_fin, zero_add, hw, gate95_eq, Fp.lt_fin]
    simpa using hlt
  have hstep : (Fp.add binary64 (.fin 0) (stepX 2)).toFloat = .fin (13421773 / 134217728) := by
    have e : (13421773 / 268435456 * 2 : ℚ) = 13421773 / 134217728 := by norm_num
    have h64 := binary64_eq (13421773 / 134217728) 13421773 27 (by norm_num) (by norm_num)
      (by norm_num)
    have h32 := binary32_eq (13421773 / 134217728) 13421773 27 (by norm_num) (by norm_num)
      (by norm_num)
    rw [stepX_eq, e, h64, Fp.add_fin, zero_add, h64, Fp.toFloat_fin, h32]
  unfold motion
  simp only [startState] at hgate hstep ⊢
  simp [hgate, hstep, walkingState]

theorem startState_step_walk (c : Screen) (h : c.screenWidth = 1920 ∨ c.screenWidth = 1664) :
    mainLoopBody c startState ⟨2, 1, 0⟩ = some walkingState := by
  unfold mainLoopBody
  rw [startState_transition, Option.map_some']
  rcases h with h | h
  · have hw : imageWidth c = .fin (7270127 / 67108864) := by
      have := imageWidth_fullHD
      unfold imageWidth at this ⊢
      rw [h]; exact this
    rw [hw, walk_step_x _ (binary32_eq _ 7270127 26 (by norm_num) (by norm_num) (by norm_num))
      (by norm_num)]
  · rw [imageWidth_1664 c h,
      walk_step_x _ (binary32_eq _ 1 3 (by norm_num) (by norm_num) (by norm_num))
      (by norm_num)]

theorem b64_seven_quarters : binary64 (7 / 4) = .fin (7 / 4) :=
  binary64_eq _ 7 2 (by norm_num) (by norm_num) (by norm_num)

theorem b64_quarter : binary64 (1 / 4) = .fin (1 / 4) :=
  binary64_eq _ 1 2 (by norm_num) (by norm_num) (by norm_num)

theorem startState_clocks_175 : advanceClocks (7 / 4) startState = idleState175 := by
  have hd : frameDue (7 / 4) startState = true := by
    simp only [frameDue, startState, Fp.add_fin, animationDuration_eq]
    norm_num [b64_seven_quarters, Fp.le_fin]
  unfold advanceClocks
  rw [if_pos hd]
  simp only [startState, Fp.add_fin, idleState175]
  norm_num [b64_seven_quarters, nextFrame]

theorem startState_step_175 (c : Screen) :
    mainLoopBody c startState ⟨7 / 4, 0, 0⟩ = some idleState175 := by
  have hd : transitionDue idleState175 = false := by
    simp only [transitionDue, idleState175]
    rw [intToDouble_eq 2 (by norm_num)]
    norm_num [Fp.le_fin]
  unfold mainLoopBody
  simp only [startState_clocks_175, transition, hd]
  simp [motion, idleState175]

theorem mainLoop_175 (c : Screen) : mainLoop c 0 [⟨7 / 4, 0, 0⟩] = some idleState175 := by
  simp [mainLoop, mainInit_zero, mainLoopFrom, startState_step_175]

theorem idleState175_clocks :
    advanceClocks (1 / 4) idleState175
      = { idleState175 with animationTime := .fin (1 / 4), currentTime := .fin 2 } := by
  have hd : frameDue (1 / 4) idleState175 = false := by
    simp only [frameDue, idleState175, Fp.add_fin, animationDuration_eq]
    norm_num [b64_quarter, Fp.le_fin]
  unfold advanceClocks
  rw [hd]
  simp only [idleState175, Fp.add_fin]
  norm_num [b64_quarter, b64_two]

theorem idleState175_fires : transitionFires idleState175 ⟨1 / 4, 1, 0⟩ = true := by
  rw [transitionFires, idleState175_clocks]
  simp only [transitionDue, idleState175]
  rw [intToDouble_eq 2 (by norm_num)]
  norm_num [Fp.le_fin]

theorem idleState175_step (c : Screen) (h : c.screenWidth = 1920) :
    mainLoopBody c idleState175 ⟨1 / 4, 1, 0⟩ = some changedState := by
  have hd : transitionDue (advanceClocks (1 / 4) idleState175) = true := idleState175_fires
  have hw : imageWidth c = .fin (7270127 / 67108864) := by
    have := imageWidth_fullHD
    unfold imageWidth at this ⊢
    rw [h]; exact this
  have hw32 : binary32 (7270127 / 67108864) = .fin (7270127 / 67108864) :=
    binary32_eq _ 7270127 26 (by norm_num) (by norm_num) (by norm_num)
  have hgate : Fp.lt (Fp.add binary32 (.fin 0) (.fin (7270127 / 67108864))) (binary32 0.95)
      = true := by
    rw [Fp.add_fin, zero_add, hw32, gate95_eq, Fp.lt_fin]
    norm_num
  have hstep : (Fp.add binary64 (.fin 0) (stepX (1 / 4))).toFloat
      = .fin (13421773 / 1073741824) := by
    have e : (13421773 / 268435456 * (1 / 4) : ℚ) = 13421773 / 1073741824 := by norm_num
    have h64 := binary64_eq (13421773 / 1073741824) 13421773 30 (by norm_num) (by norm_num)
      (by norm_num)
    have h32 := binary32_eq (13421773 / 1073741824) 13421773 30 (by norm_num) (by norm_num)
      (by norm_num)
    rw [stepX_eq, e, h64, Fp.add_fin, zero_add, h64, Fp.toFloat_fin, h32]
  unfold mainLoopBody transition
  rw [if_pos hd, idleState175_clocks, hw]
  simp only [idleState175] at hgate hstep ⊢
  simp only [one_div] at hstep
  simp [random_state, random_short, motion, hgate, hstep, changedState]

/-! ### Rounding errors of one step -/

theorem zpow_le_of_le (a b : ℤ) (h : a ≤ b) : (2 : ℚ) ^ a ≤ (2 : ℚ) ^ b :=
  zpow_le_zpow_right₀ (by norm_num) h

/-- A bounded value rounds to a finite `double` within a relative error. -/
theorem binary64_bound (q S : ℚ) (hq : |q| ≤ S) (h1 : 1 ≤ S) (h2 : S ≤ 2 ^ 101) :
    binary64 q = .fin (roundTo 53 (-1022) q) ∧
      |roundTo 53 (-1022) q - q| ≤ S * (2 : ℚ) ^ (-52 : ℤ) := by
  have herr := roundTo_rel_err 53 (-1022) q
  have ht : (2 : ℚ) ^ ((-1022 : ℤ) - 53) ≤ (2 : ℚ) ^ (-53 : ℤ) := zpow_le_of_le _ _ (by norm_num)
  have hp : (0 : ℚ) < (2 : ℚ) ^ (-53 : ℤ) := ulp_pos _
  have h52 : (2 : ℚ) ^ (-52 : ℤ) = 2 * (2 : ℚ) ^ (-53 : ℤ) := by norm_num
  have hb : |roundTo 53 (-1022) q - q| ≤ S * (2 : ℚ) ^ (-52 : ℤ) := by
    have ha : |q| * (2 : ℚ) ^ (-53 : ℤ) ≤ S * (2 : ℚ) ^ (-53 : ℤ) :=
      mul_le_mul_of_nonneg_right hq hp.le
    have hc : (2 : ℚ) ^ (-53 : ℤ) ≤ S * (2 : ℚ) ^ (-53 : ℤ) := by nlinarith
    rw [h52]
    linarith
  refine ⟨?_, hb⟩
  unfold binary64
  apply roundFp_fin
  have h3 : |roundTo 53 (-1022) q| ≤ |roundTo 53 (-1022) q - q| + |q| := by
    have := abs_add (roundTo 53 (-1022) q - q) q
    simpa using this
  have h4 : S * (2 : ℚ) ^ (-52 : ℤ) ≤ S := by
    have : (2 : ℚ) ^ (-52 : ℤ) ≤ 1 := by norm_num
    nlinarith
  have h5 : (2 : ℚ) ^ 101 * 2 < (2 : ℚ) ^ 1024 := by norm_num
  linarith

/-- A bounded value rounds to a finite `float` within a relative error. -/
theorem binary32_bound (q S : ℚ) (hq : |q| ≤ S) (h1 : 1 ≤ S) (h2 : S ≤ 2 ^ 102) :
    binary32 q = .fin (roundTo 24 (-126) q) ∧
      |roundTo 24 (-126) q - q| ≤ S * ((2 : ℚ) ^ (-24 : ℤ) + (2 : ℚ) ^ (-150 : ℤ)) := by
  have herr := roundTo_rel_err 24 (-126) q
  have ht : ((-126 : ℤ) - 24) = -150 := by norm_num
  rw [ht] at herr
  have hp : (0 : ℚ) < (2 : ℚ) ^ (-24 : ℤ) := ulp_pos _
  have hp2 : (0 : ℚ) < (2 : ℚ) ^ (-150 : ℤ) := ulp_pos _
  have hb : |roundTo 24 (-126) q - q|
      ≤ S * ((2 : ℚ) ^ (-24 : ℤ) + (2 : ℚ) ^ (-150 : ℤ)) := by
    have ha : |q| * (2 : ℚ) ^ (-24 : ℤ) ≤ S * (2 : ℚ) ^ (-24 : ℤ) :=
      mul_le_mul_of_nonneg_right hq hp.le
    have hc : (2 : ℚ) ^ (-150 : ℤ) ≤ S * (2 : ℚ) ^ (-150 : ℤ) := by nlinarith
    linarith
  refine ⟨?_, hb⟩
  unfold binary32
  apply roundFp_fin
  have h3 : |roundTo 24 (-126) q| ≤ |roundTo 24 (-126) q - q| + |q| := by
    have := abs_add (roundTo 24 (-126) q - q) q
    simpa using this
  have h4 : S * ((2 : ℚ) ^ (-24 : ℤ) + (2 : ℚ) ^ (-150 : ℤ)) ≤ S := by
    have : (2 : ℚ) ^ (-24 : ℤ) + (2 : ℚ) ^ (-150 : ℤ) ≤ 1 := by norm_num
    nlinarith
  have h5 : (2 : ℚ) ^ 102 * 2 < (2 : ℚ) ^ 128 := by norm_num
  linarith

/-- Every `float` is a `double`. -/
theorem IsFloat.isDouble {q : ℚ} (h : IsFloat q) : IsDouble q := by
  have hb := roundEven_ulp_bound 24 (-126) (by norm_num) q
  have hk := ulpExp_ge 24 (-126) q
  have hval : q = (roundEven (q / (2 : ℚ) ^ ulpExp 24 (-126) q) : ℚ)
      * (2 : ℚ) ^ ulpExp 24 (-126) q := h.symm
  generalize roundEven (q / (2 : ℚ) ^ ulpExp 24 (-126) q) = m at hb hval
  generalize ulpExp 24 (-126) q = k at hk hval
  unfold IsDouble
  rw [hval]
  apply roundTo_of_rep 53 (-1022) m k _ (by norm_num) (by omega)
  have h24 : (2 : ℤ) ^ (24 : ℤ).toNat < 2 ^ (53 : ℤ).toNat := by decide
  exact lt_of_le_of_lt hb h24

theorem isFloat_roundTo (q : ℚ) : IsFloat (roundTo 24 (-126) q) :=
  roundTo_idem 24 (-126) (by norm_num) q

theorem isDouble_roundTo (q : ℚ) : IsDouble (roundTo 53 (-1022) q) :=
  roundTo_idem 53 (-1022) (by norm_num) q

/-- A `double` result converted to `float`: finite and within a relative error. -/
theorem toFloat_binary64_bound (q S : ℚ) (hq : |q| ≤ S) (h1 : 1 ≤ S) (h2 : S ≤ 2 ^ 100) :
    (binary64 q).toFloat = .fin (roundTo 24 (-126) (roundTo 53 (-1022) q)) ∧
      |roundTo 24 (-126) (roundTo 53 (-1022) q) - q| ≤ S * (2 : ℚ) ^ (-23 : ℤ) := by
  obtain ⟨h64, e64⟩ := binary64_bound q S hq h1 (by
    have : (2 : ℚ) ^ 100 ≤ 2 ^ 101 := by norm_num
    linarith)
  have hz : |roundTo 53 (-1022) q| ≤ S * (1 + (2 : ℚ) ^ (-52 : ℤ)) := by
    have h3 : |roundTo 53 (-1022) q| ≤ |roundTo 53 (-1022) q - q| + |q| := by
      have := abs_add (roundTo 53 (-1022) q - q) q
      simpa using this
    linarith
  have hc : (1 : ℚ) + (2 : ℚ) ^ (-52 : ℤ) ≤ 2 := by norm_num
  obtain ⟨h32, e32⟩ := binary32_bound (roundTo 53 (-1022) q) (S * (1 + (2 : ℚ) ^ (-52 : ℤ))) hz
    (by nlinarith [ulp_pos (-52)]) (by
      have : (2 : ℚ) ^ 100 * 2 ≤ 2 ^ 102 := by norm_num
      nlinarith)
  refine ⟨?_, ?_⟩
  · rw [h64, Fp.toFloat_fin, h32]
  · have htri : |roundTo 24 (-126) (roundTo 53 (-1022) q) - q|
        ≤ |roundTo 24 (-126) (roundTo 53 (-1022) q) - roundTo 53 (-1022) q|
          + |roundTo 53 (-1022) q - q| := by
      have := abs_add (roundTo 24 (-126) (roundTo 53 (-1022) q) - roundTo 53 (-1022) q)
        (roundTo 53 (-1022) q - q)
      simpa using this
    have hk : (1 + (2 : ℚ) ^ (-52 : ℤ)) * ((2 : ℚ) ^ (-24 : ℤ) + (2 : ℚ) ^ (-150 : ℤ))
        + (2 : ℚ) ^ (-52 : ℤ) ≤ (2 : ℚ) ^ (-23 : ℤ) := by norm_num
    have hS0 : 0 ≤ S := by linarith
    calc |roundTo 24 (-126) (roundTo 53 (-1022) q) - q|
        ≤ S * (1 + (2 : ℚ) ^ (-52 : ℤ)) * ((2 : ℚ) ^ (-24 : ℤ) + (2 : ℚ) ^ (-150 : ℤ))
            + S * (2 : ℚ) ^ (-52 : ℤ) := by linarith
      _ = S * ((1 + (2 : ℚ) ^ (-52 : ℤ)) * ((2 : ℚ) ^ (-24 : ℤ) + (2 : ℚ) ^ (-150 : ℤ))
            + (2 : ℚ) ^ (-52 : ℤ)) := by ring
      _ ≤ S * (2 : ℚ) ^ (-23 : ℤ) := mul_le_mul_of_nonneg_left hk hS0

/-- Step `u += p` of a `float` coordinate through `double` arithmetic: the result
is a finite `float`, not below `u`, and above `u + p` by a rounding error at most. -/
theorem step_up (u p S : ℚ) (hu : IsFloat u) (hp : 0 ≤ p) (hS : |u + p| ≤ S) (h1 : 1 ≤ S)
    (h2 : S ≤ 2 ^ 100) :
    ∃ u', (Fp.add binary64 (.fin u) (.fin p)).toFloat = .fin u' ∧ IsFloat u' ∧ u ≤ u' ∧
      u' ≤ u + p + S * (2 : ℚ) ^ (-23 : ℤ) := by
  obtain ⟨hfin, herr⟩ := toFloat_binary64_bound (u + p) S hS h1 h2
  refine ⟨_, by rw [Fp.add_fin]; exact hfin, isFloat_roundTo _, ?_, ?_⟩
  · have hz : u ≤ roundTo 53 (-1022) (u + p) :=
      roundTo_ge_of_ge_rep 53 (-1022) (by norm_num) hu.isDouble (by linarith)
    exact roundTo_ge_of_ge_rep 24 (-126) (by norm_num) hu hz
  · have := (abs_le.mp herr).2
    linarith

/-- Step `u -= p` of a `float` coordinate through `double` arithmetic: the result
is a finite `float`, not above `u`, and below `u - p` by a rounding error at most. -/
theorem step_down (u p S : ℚ) (hu : IsFloat u) (hp : 0 ≤ p) (hS : |u - p| ≤ S) (h1 : 1 ≤ S)
    (h2 : S ≤ 2 ^ 100) :
    ∃ u', (Fp.sub binary64 (.fin u) (.fin p)).toFloat = .fin u' ∧ IsFloat u' ∧ u' ≤ u ∧
      u - p - S * (2 : ℚ) ^ (-23 : ℤ) ≤ u' := by
  have hS' : |u + -p| ≤ S := by simpa [sub_eq_add_neg] using hS
  obtain ⟨hfin, herr⟩ := toFloat_binary64_bound (u + -p) S hS' h1 h2
  refine ⟨_, by rw [Fp.sub_fin]; exact hfin, isFloat_roundTo _, ?_, ?_⟩
  · have hz : roundTo 53 (-1022) (u + -p) ≤ u :=
      roundTo_le_of_le_rep 53 (-1022) (by norm_num) hu.isDouble (by linarith)
    exact roundTo_le_of_le_rep 24 (-126) (by norm_num) hu hz
  · have := (abs_le.mp herr).1
    linarith

/-! ### Steps and gates of the motion -/

theorem stepX_bound (dt D : ℚ) (h0 : 0 ≤ dt) (hD : dt ≤ D) (hmax : D ≤ 2 ^ 64) :
    ∃ p, stepX dt = .fin p ∧ 0 ≤ p ∧
      p ≤ D / 20 + D * (2 : ℚ) ^ (-29 : ℤ) + (2 : ℚ) ^ (-52 : ℤ) := by
  have hq0 : 0 ≤ 13421773 / 268435456 * dt := by positivity
  have hq : |13421773 / 268435456 * dt| ≤ 1 + D := by
    rw [abs_of_nonneg hq0]; nlinarith
  obtain ⟨hfin, herr⟩ := binary64_bound _ (1 + D) hq (by linarith) (by
    have : (1 : ℚ) + 2 ^ 64 ≤ 2 ^ 101 := by norm_num
    linarith)
  refine ⟨_, by rw [stepX_eq]; exact hfin, roundTo_nonneg _ _ hq0, ?_⟩
  have h1 := (abs_le.mp herr).2
  have hk : (13421773 / 268435456 : ℚ) + (2 : ℚ) ^ (-52 : ℤ)
      ≤ 1 / 20 + (2 : ℚ) ^ (-29 : ℤ) := by norm_num
  have hD0 : 0 ≤ D := le_trans h0 hD
  have h2 : 13421773 / 268435456 * dt ≤ 13421773 / 268435456 * D := by nlinarith
  have h3 : D * ((13421773 / 268435456 : ℚ) + (2 : ℚ) ^ (-52 : ℤ))
      ≤ D * (1 / 20 + (2 : ℚ) ^ (-29 : ℤ)) := mul_le_mul_of_nonneg_left hk hD0
  nlinarith

theorem stepY_bound (dt D : ℚ) (h0 : 0 ≤ dt) (hD : dt ≤ D) (hmax : D ≤ 2 ^ 64) :
    ∃ p, stepY dt = .fin p ∧ 0 ≤ p ∧
      p ≤ 3 * D / 20 + D * (2 : ℚ) ^ (-26 : ℤ) + (2 : ℚ) ^ (-52 : ℤ) := by
  have hq0 : 0 ≤ 5033165 / 33554432 * dt := by positivity
  have hq : |5033165 / 33554432 * dt| ≤ 1 + D := by
    rw [abs_of_nonneg hq0]; nlinarith
  obtain ⟨hfin, herr⟩ := binary64_bound _ (1 + D) hq (by linarith) (by
    have : (1 : ℚ) + 2 ^ 64 ≤ 2 ^ 101 := by norm_num
    linarith)
  refine ⟨_, by rw [stepY_eq]; exact hfin, roundTo_nonneg _ _ hq0, ?_⟩
  have h1 := (abs_le.mp herr).2
  have hk : (5033165 / 33554432 : ℚ) + (2 : ℚ) ^ (-52 : ℤ)
      ≤ 3 / 20 + (2 : ℚ) ^ (-26 : ℤ) := by norm_num
  have hD0 : 0 ≤ D := le_trans h0 hD
  have h2 : 5033165 / 33554432 * dt ≤ 5033165 / 33554432 * D := by nlinarith
  have h3 : D * ((5033165 / 33554432 : ℚ) + (2 : ℚ) ^ (-52 : ℤ))
      ≤ D * (3 / 20 + (2 : ℚ) ^ (-26 : ℤ)) := mul_le_mul_of_nonneg_left hk hD0
  nlinarith

/-- An open gate `u + w < g` in `float` arithmetic, `g` a `float`, is open in exact
arithmetic. -/
theorem gate_open (u w g : ℚ) (hg : IsFloat g) (hg0 : 0 ≤ g)
    (h : Fp.lt (Fp.add binary32 (.fin u) (.fin w)) (.fin g) = true) : u + w < g := by
  rw [Fp.add_fin] at h
  by_contra hcon
  have hge : g ≤ u + w := not_lt.mp hcon
  have hr : g ≤ roundTo 24 (-126) (u + w) :=
    roundTo_ge_of_ge_rep 24 (-126) (by norm_num) hg hge
  unfold binary32 roundFp at h
  split_ifs at h with h1 h2
  · simp [Fp.lt] at h
  · have hq : u + w ≤ 0 := not_lt.mp h2
    have hz := roundTo_nonpos 24 (-126) hq
    have h0 : roundTo 24 (-126) (u + w) = 0 := le_antisymm hz (le_trans hg0 hr)
    rw [h0] at h1
    norm_num at h1
  · rw [Fp.lt_fin] at h
    have : roundTo 24 (-126) (u + w) < g := by simpa using h
    linarith

theorem isFloat_gate95 : IsFloat (15938355 / 16777216) :=
  isFloat_dyadic 15938355 24 (by norm_num) (by norm_num)

theorem isFloat_gate88 : IsFloat (7381975 / 8388608) :=
  isFloat_dyadic 7381975 23 (by norm_num) (by norm_num)

/-! ### One motion step keeps the position within a step of the gates -/

theorem slack_facts (D : ℚ) (hD0 : 0 ≤ D) :
    D * (2 : ℚ) ^ (-29 : ℤ) + (2 : ℚ) ^ (-52 : ℤ) + (2 + D) * (2 : ℚ) ^ (-23 : ℤ)
        ≤ (1 + D) / 10 ^ 6 - 1 / 10 ^ 7 ∧
      D * (2 : ℚ) ^ (-26 : ℤ) + (2 : ℚ) ^ (-52 : ℤ) + (2 + D) * (2 : ℚ) ^ (-23 : ℤ)
        ≤ (1 + D) / 10 ^ 6 - 1 / 10 ^ 7 := by
  constructor
  · norm_num
    linarith
  · norm_num
    linarith

theorem motion_x_bound (w h : Fp) (wq dt D u : ℚ) (s : Drone) (hw : w = .fin wq)
    (hw0 : 0 ≤ wq) (hx : s.x = .fin u) (hu : IsFloat u) (h0 : 0 ≤ dt) (hD : dt ≤ D)
    (hmax : D ≤ 2 ^ 64) (hlo : -(19 / 20) - D / 20 - (1 + D) / 10 ^ 6 < u)
    (hhi : u + wq < 19 / 20 + D / 20 + (1 + D) / 10 ^ 6) :
    ∃ u', (motion w h dt s).x = .fin u' ∧ IsFloat u' ∧
      -(19 / 20) - D / 20 - (1 + D) / 10 ^ 6 < u' ∧
      u' + wq < 19 / 20 + D / 20 + (1 + D) / 10 ^ 6 := by
  have hD0 : 0 ≤ D := le_trans h0 hD
  obtain ⟨p, hp, hp0, hpb⟩ := stepX_bound dt D h0 hD hmax
  have hsl := (slack_facts D hD0).1
  have hS2 : (2 : ℚ) + D ≤ 2 ^ 100 := by
    have : (2 : ℚ) + 2 ^ 64 ≤ 2 ^ 100 := by norm_num
    linarith
  have hs23 : (0 : ℚ) ≤ (2 + D) * (2 : ℚ) ^ (-23 : ℤ) :=
    mul_nonneg (by linarith) (ulp_pos _).le
  have hs29 : (0 : ℚ) ≤ D * (2 : ℚ) ^ (-29 : ℤ) := mul_nonneg hD0 (ulp_pos _).le
  have hs52 : (0 : ℚ) < (2 : ℚ) ^ (-52 : ℤ) := ulp_pos _
  have hg : (15938355 / 16777216 : ℚ) < 19 / 20 := by norm_num
  rw [motion_x, hx, hw, hp, gate95_eq]
  generalize (2 : ℚ) ^ (-29 : ℤ) = e29 at hpb hsl hs29
  generalize (2 : ℚ) ^ (-52 : ℤ) = e52 at hpb hsl hs52
  split_ifs with h1 h2 h3 h4
  · have hopen := gate_open u wq _ isFloat_gate95 (by norm_num) h2
    obtain ⟨u', hu', hfl, hle, hub⟩ := step_up u p (2 + D) hu hp0
      (by rw [abs_le]; constructor <;> linarith) (by linarith) hS2
    generalize (2 : ℚ) ^ (-23 : ℤ) = e23 at hub hsl hs23
    exact ⟨u', hu', hfl, by linarith, by linarith⟩
  · exact ⟨u, rfl, hu, hlo, hhi⟩
  · have hopen : -(15938355 / 16777216 : ℚ) < u := by
      simpa [Fp.neg, Fp.lt] using h4
    obtain ⟨u', hu', hfl, hle, hlb⟩ := step_down u p (2 + D) hu hp0
      (by rw [abs_le]; constructor <;> linarith) (by linarith) hS2
    generalize (2 : ℚ) ^ (-23 : ℤ) = e23 at hlb hsl hs23
    exact ⟨u', hu', hfl, by linarith, by linarith⟩
  · exact ⟨u, rfl, hu, hlo, hhi⟩
  · exact ⟨u, rfl, hu, hlo, hhi⟩

theorem motion_y_bound (w h : Fp) (hq dt D u : ℚ) (s : Drone) (hh : h = .fin hq)
    (hh0 : 0 ≤ hq) (hy : s.y = .fin u) (hu : IsFloat u) (h0 : 0 ≤ dt) (hD : dt ≤ D)
    (hmax : D ≤ 2 ^ 64) (hlo : -1 - 3 * D / 20 - (1 + D) / 10 ^ 6 < u)
    (hhi : u + hq < 22 / 25 + 3 * D / 20 + (1 + D) / 10 ^ 6) :
    ∃ u', (motion w h dt s).y = .fin u' ∧ IsFloat u' ∧
      -1 - 3 * D / 20 - (1 + D) / 10 ^ 6 < u' ∧
      u' + hq < 22 / 25 + 3 * D / 20 + (1 + D) / 10 ^ 6 := by
  have hD0 : 0 ≤ D := le_trans h0 hD
  obtain ⟨p, hp, hp0, hpb⟩ := stepY_bound dt D h0 hD hmax
  have hsl := (slack_facts D hD0).2
  have hS2 : (2 : ℚ) + D ≤ 2 ^ 100 := by
    have : (2 : ℚ) + 2 ^ 64 ≤ 2 ^ 100 := by norm_num
    linarith
  have hs23 : (0 : ℚ) ≤ (2 + D) * (2 : ℚ) ^ (-23 : ℤ) :=
    mul_nonneg (by linarith) (ulp_pos _).le
  have hs26 : (0 : ℚ) ≤ D * (2 : ℚ) ^ (-26 : ℤ) := mul_nonneg hD0 (ulp_pos _).le
  have hs52 : (0 : ℚ) < (2 : ℚ) ^ (-52 : ℤ) := ulp_pos _
  have hg : (7381975 / 8388608 : ℚ) < 22 / 25 := by norm_num
  rw [motion_y, hy, hh, hp, gate88_eq, gate1_eq]
  generalize (2 : ℚ) ^ (-26 : ℤ) = e26 at hpb hsl hs26
  generalize (2 : ℚ) ^ (-52 : ℤ) = e52 at hpb hsl hs52
  split_ifs with h1 h2 h3 h4
  · have hopen := gate_open u hq _ isFloat_gate88 (by norm_num) h2
    obtain ⟨u', hu', hfl, hle, hub⟩ := step_up u p (2 + D) hu hp0
      (by rw [abs_le]; constructor <;> linarith) (by linarith) hS2
    generalize (2 : ℚ) ^ (-23 : ℤ) = e23 at hub hsl hs23
    exact ⟨u', hu', hfl, by linarith, by linarith⟩
  · exact ⟨u, rfl, hu, hlo, hhi⟩
  · have hopen : -(1 : ℚ) < u := by
      simpa [Fp.neg, Fp.lt] using h4
    obtain ⟨u', hu', hfl, hle, hlb⟩ := step_down u p (2 + D) hu hp0
      (by rw [abs_le]; constructor <;> linarith) (by linarith) hS2
    generalize (2 : ℚ) ^ (-23 : ℤ) = e23 at hlb hsl hs23
    exact ⟨u', hu', hfl, by linarith, by linarith⟩
  · exact ⟨u, rfl, hu, hlo, hhi⟩
  · exact ⟨u, rfl, hu, hlo, hhi⟩

/-! ### Runs past a gate -/

theorem isFloat_zero : IsFloat 0 := roundTo_zero _ _

theorem isFloat_neg_one : IsFloat (-1) := by
  have h := isFloat_dyadic (-1) 0 (by norm_num) (by norm_num)
  simpa using h

theorem imageHeight_832 (c : Screen) (h : c.screenHeight = 832) :
    imageHeight c = .fin (1 / 4) := by
  have h1 : intToFloat 832 = .fin 832 := by
    have h := binary32_eq 832 832 0 (by norm_num) (by norm_num) (by norm_num)
    simpa [intToFloat] using h
  have h2 : binary32 (104 / 832) = .fin (1 / 8) := by
    have h := binary32_eq (1 / 8) 1 3 (by norm_num) (by norm_num) (by norm_num)
    have e : (104 / 832 : ℚ) = 1 / 8 := by norm_num
    rw [e, h]
  have h3 : binary32 (1 / 8 * 2) = .fin (1 / 4) := by
    have h := binary32_eq (1 / 4) 1 2 (by norm_num) (by norm_num) (by norm_num)
    have e : (1 / 8 * 2 : ℚ) = 1 / 4 := by norm_num
    rw [e, h]
  unfold imageHeight
  rw [h, h1]
  show Fp.mul binary32 (binary32 (104 / 832)) (.fin 2) = _
  rw [h2, Fp.mul_fin, h3]

theorem b64_zero : binary64 0 = .fin 0 :=
  binary64_eq 0 0 0 (by norm_num) (by norm_num) (by norm_num)

theorem b64_thirty_two : binary64 32 = .fin 32 :=
  binary64_eq 32 32 0 (by norm_num) (by norm_num) (by norm_num)

theorem startState_step_zero (c : Screen) :
    mainLoopBody c startState ⟨0, 0, 0⟩ = some startState := by
  have hc : advanceClocks 0 startState = startState := by
    have hd : frameDue 0 startState = false := by
      simp only [frameDue, startState, Fp.add_fin, animationDuration_eq]
      norm_num [b64_zero, Fp.le_fin]
    unfold advanceClocks
    rw [hd]
    simp only [startState, Fp.add_fin]
    norm_num [b64_zero]
  have hd : transitionDue startState = false := by
    simp only [transitionDue, startState]
    rw [intToDouble_eq 2 (by norm_num)]
    norm_num [Fp.le_fin]
  unfold mainLoopBody
  simp only [hc, transition, hd]
  simp [motion, startState]

theorem walkingState_clocks :
    advanceClocks 32 walkingState
      = { walkingState with animationTime := .fin 0, currentTime := .fin 32,
                            currentFrame := 2 } := by
  have hd : frameDue 32 walkingState = true := by
    simp only [frameDue, walkingState, Fp.add_fin, animationDuration_eq]
    norm_num [b64_thirty_two, Fp.le_fin]
  unfold advanceClocks
  rw [if_pos hd]
  simp only [walkingState, Fp.add_fin]
  norm_num [b64_thirty_two, nextFrame]

theorem walkingState_fires : transitionFires walkingState ⟨32, 1, 0⟩ = true := by
  rw [transitionFires, walkingState_clocks]
  simp only [transitionDue, walkingState]
  rw [intToDouble_eq 2 (by norm_num)]
  norm_num [Fp.le_fin]

theorem walkingState_step_32 (c : Screen) (h : c.screenWidth = 1664) :
    mainLoopBody c walkingState ⟨32, 1, 0⟩ = some runawayState := by
  have hd : transitionDue (advanceClocks 32 walkingState) = true := walkingState_fires
  have hgate : Fp.lt (Fp.add binary32 (.fin (13421773 / 134217728)) (.fin (1 / 8)))
      (binary32 0.95) = true := by
    obtain ⟨hfin, -⟩ := binary32_bound (13421773 / 134217728 + 1 / 8) 1
      (by norm_num [abs_of_pos]) (by norm_num) (by norm_num)
    have hq : IsFloat (1 / 4) := by
      have h := isFloat_dyadic 1 2 (by norm_num) (by norm_num)
      simpa using h
    have hle : roundTo 24 (-126) (13421773 / 134217728 + 1 / 8) ≤ 1 / 4 :=
      roundTo_le_of_le_rep 24 (-126) (by norm_num) hq (by norm_num)
    rw [Fp.add_fin, hfin, gate95_eq, Fp.lt_fin]
    have : roundTo 24 (-126) (13421773 / 134217728 + 1 / 8) < 15938355 / 16777216 :=
      lt_of_le_of_lt hle (by norm_num)
    simpa using this
  have hstep : (Fp.add binary64 (.fin (13421773 / 134217728)) (stepX 32)).toFloat
      = .fin (7130317 / 4194304) := by
    have e : (13421773 / 268435456 * 32 : ℚ) = 13421773 / 8388608 := by norm_num
    have hp := binary64_eq (13421773 / 8388608) 13421773 23 (by norm_num) (by norm_num)
      (by norm_num)
    have e2 : (13421773 / 134217728 + 13421773 / 8388608 : ℚ) = 228170141 / 134217728 := by
      norm_num
    have h64 := binary64_eq (228170141 / 134217728) 228170141 27 (by norm_num) (by norm_num)
      (by norm_num)
    have h32 := binary32_eval (228170141 / 134217728) 0 14260634 (by norm_num [abs_of_pos])
      (by norm_num [abs_of_pos]) (by norm_num) (by norm_num) (by norm_num)
      (by norm_num [abs_of_pos])
    rw [stepX_eq, e, hp, Fp.add_fin, e2, h64, Fp.toFloat_fin, h32]
    norm_num
  unfold mainLoopBody transition
  rw [if_pos hd, walkingState_clocks, imageWidth_1664 c h]
  simp only [walkingState] at hgate hstep ⊢
  simp only [one_div] at hgate
  simp [random_state, random_short, motion, hgate, hstep, runawayState]

/-! ### The motion table -/

theorem motion_eq_floatIntegrate (b : Behavior) (w h : Fp) (dt : ℚ) (s : Drone) :
    motion w h dt { s with state := b.code } =
      { s with state := b.code,
               x := (floatIntegrate b velocity w h dt (s.x, s.y)).1,
               y := (floatIntegrate b velocity w h dt (s.x, s.y)).2 } := by
  cases b <;>
    simp only [motion, floatIntegrate, Behavior.code, stepX, stepY, intToFloat_three] <;>
    norm_num <;> split_ifs <;> rfl

theorem exists_behavior_of_code (n : Int) (h0 : 0 ≤ n) (h5 : n ≤ 5) :
    ∃ b : Behavior, b.code = n := by
  have h : n = 0 ∨ n = 1 ∨ n = 2 ∨ n = 3 ∨ n = 4 ∨ n = 5 := by omega
  rcases h with h | h | h | h | h | h
  · exact ⟨.Idle, h.symm⟩
  · exact ⟨.WalkRight, h.symm⟩
  · exact ⟨.WalkLeft, h.symm⟩
  · exact ⟨.Sleep, h.symm⟩
  · exact ⟨.RiseUp, h.symm⟩
  · exact ⟨.Descend, h.symm⟩

theorem float090_eq : binary32 0.90 = .fin (7549747 / 8388608) := by
  have h := binary32_eval 0.90 (-1) 15099494 (by norm_num [abs_of_pos])
    (by norm_num [abs_of_pos]) (by norm_num) (by norm_num) (by norm_num)
    (by norm_num [abs_of_pos])
  rw [h]
  norm_num

theorem float01_eq : binary32 0.1 = .fin (13421773 / 134217728) := by
  have h := binary32_eval 0.1 (-4) 13421773 (by norm_num [abs_of_pos])
    (by norm_num [abs_of_pos]) (by norm_num) (by norm_num) (by norm_num)
    (by norm_num [abs_of_pos])
  rw [h]
  norm_num

/-- In `float`, `0.90f + 0.1f` is `1.0f`. -/
theorem float090_add_float01 :
    Fp.add binary32 (binary32 0.90) (binary32 0.1) = .fin 1 := by
  have h := binary32_eval (7549747 / 8388608 + 13421773 / 134217728) (-1) 16777216
    (by norm_num [abs_of_pos]) (by norm_num [abs_of_pos]) (by norm_num) (by norm_num)
    (by norm_num) (by norm_num [abs_of_pos])
  rw [float090_eq, float01_eq, Fp.add_fin, h]
  norm_num

theorem walkRight_closed_fixed (h : Fp) (t : Drone) (h1 : t.state = 1)
    (hx : t.x = binary32 0.90) : motion (binary32 0.1) h 1 t = t := by
  have hg : Fp.lt (Fp.add binary32 t.x (binary32 0.1)) (binary32 0.95) = false := by
    rw [hx, float090_add_float01, gate95_eq, Fp.lt_fin]
    norm_num
  unfold motion
  rw [if_neg (by rw [h1]; decide), if_pos h1, hg]
  rfl

/-! ### The machine table against the exact table -/

theorem stepX_near (dt D : ℚ) (h0 : 0 ≤ dt) (hD : dt ≤ D) (hmax : D ≤ 2 ^ 64) :
    ∃ p, stepX dt = .fin p ∧ 0 ≤ p ∧ |p - 1 / 20 * dt| ≤ (1 + D) * (2 : ℚ) ^ (-26 : ℤ) := by
  have hq0 : 0 ≤ 13421773 / 268435456 * dt := by positivity
  have hq : |13421773 / 268435456 * dt| ≤ 1 + D := by
    rw [abs_of_nonneg hq0]; nlinarith
  obtain ⟨hfin, herr⟩ := binary64_bound _ (1 + D) hq (by linarith) (by
    have : (1 : ℚ) + 2 ^ 64 ≤ 2 ^ 101 := by norm_num
    linarith)
  refine ⟨_, by rw [stepX_eq]; exact hfin, roundTo_nonneg _ _ hq0, ?_⟩
  have h1 := abs_le.mp herr
  have hD0 : 0 ≤ D := le_trans h0 hD
  have e52 : (2 : ℚ) ^ (-52 : ℤ) = 1 / 4503599627370496 := by norm_num
  have e26 : (2 : ℚ) ^ (-26 : ℤ) = 1 / 67108864 := by norm_num
  rw [e52] at h1
  rw [e26, abs_le]
  constructor <;> nlinarith

theorem stepY_near (dt D : ℚ) (h0 : 0 ≤ dt) (hD : dt ≤ D) (hmax : D ≤ 2 ^ 64) :
    ∃ p, stepY dt = .fin p ∧ 0 ≤ p ∧ |p - 3 / 20 * dt| ≤ (1 + D) * (2 : ℚ) ^ (-26 : ℤ) := by
  have hq0 : 0 ≤ 5033165 / 33554432 * dt := by positivity
  have hq : |5033165 / 33554432 * dt| ≤ 1 + D := by
    rw [abs_of_nonneg hq0]; nlinarith
  obtain ⟨hfin, herr⟩ := binary64_bound _ (1 + D) hq (by linarith) (by
    have : (1 : ℚ) + 2 ^ 64 ≤ 2 ^ 101 := by norm_num
    linarith)
  refine ⟨_, by rw [stepY_eq]; exact hfin, roundTo_nonneg _ _ hq0, ?_⟩
  have h1 := abs_le.mp herr
  have hD0 : 0 ≤ D := le_trans h0 hD
  have e52 : (2 : ℚ) ^ (-52 : ℤ) = 1 / 4503599627370496 := by norm_num
  have e26 : (2 : ℚ) ^ (-26 : ℤ) = 1 / 67108864 := by norm_num
  rw [e52] at h1
  rw [e26, abs_le]
  constructor <;> nlinarith

/-- A coordinate `u` moved by the rounded step `p`, in `double` and back to `float`,
is near `u` moved by the exact step `q`. -/
theorem add_near (u p q S : ℚ) (hS : |u + p| ≤ S) (h1 : 1 ≤ S) (h2 : S ≤ 2 ^ 100)
    (hq : |p - q| ≤ S * (2 : ℚ) ^ (-26 : ℤ)) :
    ∃ u', (Fp.add binary64 (.fin u) (.fin p)).toFloat = .fin u' ∧
      |u' - (u + q)| ≤ S / 10 ^ 6 := by
  obtain ⟨hfin, herr⟩ := toFloat_binary64_bound (u + p) S hS h1 h2
  refine ⟨_, by rw [Fp.add_fin]; exact hfin, ?_⟩
  have e23 : (2 : ℚ) ^ (-23 : ℤ) = 1 / 8388608 := by norm_num
  have e26 : (2 : ℚ) ^ (-26 : ℤ) = 1 / 67108864 := by norm_num
  rw [e23] at herr
  rw [e26] at hq
  have a := abs_le.mp herr
  have b := abs_le.mp hq
  rw [abs_le]
  constructor <;> linarith

theorem sub_near (u p q S : ℚ) (hS : |u - p| ≤ S) (h1 : 1 ≤ S) (h2 : S ≤ 2 ^ 100)
    (hq : |p - q| ≤ S * (2 : ℚ) ^ (-26 : ℤ)) :
    ∃ u', (Fp.sub binary64 (.fin u) (.fin p)).toFloat = .fin u' ∧
      |u' - (u - q)| ≤ S / 10 ^ 6 := by
  have hS' : |u + -p| ≤ S := by simpa [sub_eq_add_neg] using hS
  obtain ⟨hfin, herr⟩ := toFloat_binary64_bound (u + -p) S hS' h1 h2
  refine ⟨_, by rw [Fp.sub_fin]; exact hfin, ?_⟩
  have e23 : (2 : ℚ) ^ (-23 : ℤ) = 1 / 8388608 := by norm_num
  have e26 : (2 : ℚ) ^ (-26 : ℤ) = 1 / 67108864 := by norm_num
  rw [e23] at herr
  rw [e26] at hq
  have a := abs_le.mp herr
  have b := abs_le.mp hq
  rw [abs_le]
  constructor <;> linarith

/-- Where the machine table moves the position, the exact table with `v = 0.05` moves
it too, and to a place within `(M + 1 + D) / 10 ^ 6`. -/
theorem floatIntegrate_near (b : Behavior) (x y w h dt D M : ℚ) (hx : |x| ≤ M)
    (hy : |y| ≤ M) (hM : M ≤ 2 ^ 64) (h0 : 0 ≤ dt) (hD : dt ≤ D) (hmax : D ≤ 2 ^ 64) :
    ∃ x' y', floatIntegrate b velocity (.fin w) (.fin h) dt (.fin x, .fin y)
        = (.fin x', .fin y') ∧
      ((x', y') = (x, y) ∨
        (|x' - (specIntegrate b 0.05 w h dt (x, y)).1| ≤ (M + 1 + D) / 10 ^ 6 ∧
         |y' - (specIntegrate b 0.05 w h dt (x, y)).2| ≤ (M + 1 + D) / 10 ^ 6)) := by
  have hD0 : 0 ≤ D := le_trans h0 hD
  have hM0 : 0 ≤ M := le_trans (abs_nonneg x) hx
  have hS1 : (1 : ℚ) ≤ M + 1 + D := by linarith
  have hS2 : M + 1 + D ≤ 2 ^ 100 := by
    have : (2 : ℚ) ^ 64 + 1 + 2 ^ 64 ≤ 2 ^ 100 := by norm_num
    linarith
  have he : (0 : ℚ) ≤ (M + 1 + D) / 10 ^ 6 := by positivity
  have hu26 : (0 : ℚ) < (2 : ℚ) ^ (-26 : ℤ) := ulp_pos _
  obtain ⟨p, hp, hp0, hpn⟩ := stepX_near dt D h0 hD hmax
  obtain ⟨r, hr, hr0, hrn⟩ := stepY_near dt D h0 hD hmax
  have hpS : |p - 1 / 20 * dt| ≤ (M + 1 + D) * (2 : ℚ) ^ (-26 : ℤ) :=
    le_trans hpn (mul_le_mul_of_nonneg_right (by linarith) hu26.le)
  have hrS : |r - 3 / 20 * dt| ≤ (M + 1 + D) * (2 : ℚ) ^ (-26 : ℤ) :=
    le_trans hrn (mul_le_mul_of_nonneg_right (by linarith) hu26.le)
  have e26 : (2 : ℚ) ^ (-26 : ℤ) = 1 / 67108864 := by norm_num
  have hpb : p ≤ 1 + D := by
    have := (abs_le.mp hpn).2
    rw [e26] at this
    nlinarith
  have hrb : r ≤ 1 + D := by
    have := (abs_le.mp hrn).2
    rw [e26] at this
    nlinarith
  have hx' := abs_le.mp hx
  have hy' := abs_le.mp hy
  have hstepX : Fp.mul binary64 velocity (.fin dt) = .fin p := hp
  have hstepY : Fp.mul binary64 (Fp.mul binary32 velocity (.fin 3)) (.fin dt) = .fin r := by
    rw [← intToFloat_three]; exact hr
  cases b
  · exact ⟨x, y, rfl, Or.inl rfl⟩
  · by_cases hg : Fp.lt (Fp.add binary32 (.fin x) (.fin w)) (binary32 0.95) = true
    · have hopen : x + w < 15938355 / 16777216 := by
        rw [gate95_eq] at hg
        exact gate_open x w _ isFloat_gate95 (by norm_num) hg
      obtain ⟨x', hx1, hx2⟩ := add_near x p (1 / 20 * dt) (M + 1 + D)
        (by rw [abs_le]; constructor <;> linarith) hS1 hS2 hpS
      refine ⟨x', y, ?_, Or.inr ⟨?_, ?_⟩⟩
      · simp only [floatIntegrate, hg, if_true, hstepX, hx1]
      · have : x + w < (0.95 : ℚ) := by norm_num; linarith
        simp only [specIntegrate, this, if_true]
        norm_num at hx2 ⊢
        exact hx2
      · have : x + w < (0.95 : ℚ) := by norm_num; linarith
        simp only [specIntegrate, this, if_true]
        simpa using he
    · refine ⟨x, y, ?_, Or.inl rfl⟩
      simp only [floatIntegrate, hg]
      rfl
  · by_cases hg : Fp.lt (binary32 0.95).neg (.fin x) = true
    · have hopen : -(15938355 / 16777216 : ℚ) < x := by
        rw [gate95_eq] at hg
        simpa [Fp.neg, Fp.lt] using hg
      obtain ⟨x', hx1, hx2⟩ := sub_near x p (1 / 20 * dt) (M + 1 + D)
        (by rw [abs_le]; constructor <;> linarith) hS1 hS2 hpS
      refine ⟨x', y, ?_, Or.inr ⟨?_, ?_⟩⟩
      · simp only [floatIntegrate, hg, if_true, hstepX, hx1]
      · have : x > (-0.95 : ℚ) := by norm_num; linarith
        simp only [specIntegrate, this, if_true]
        norm_num at hx2 ⊢
        exact hx2
      · have : x > (-0.95 : ℚ) := by norm_num; linarith
        simp only [specIntegrate, this, if_true]
        simpa using he
    · refine ⟨x, y, ?_, Or.inl rfl⟩
      simp only [floatIntegrate, hg]
      rfl
  · exact ⟨x, y, rfl, Or.inl rfl⟩
  · by_cases hg : Fp.lt (Fp.add binary32 (.fin y) (.fin h)) (binary32 0.88) = true
    · have hopen : y + h < 7381975 / 8388608 := by
        rw [gate88_eq] at hg
        exact gate_open y h _ isFloat_gate88 (by norm_num) hg
      obtain ⟨y', hy1, hy2⟩ := add_near y r (3 / 20 * dt) (M + 1 + D)
        (by rw [abs_le]; constructor <;> linarith) hS1 hS2 hrS
      refine ⟨x, y', ?_, Or.inr ⟨?_, ?_⟩⟩
      · simp only [floatIntegrate, hg, if_true, hstepY, hy1]
      · have : y + h < (0.88 : ℚ) := by norm_num; linarith
        simp only [specIntegrate, this, if_true]
        simpa using he
      · have : y + h < (0.88 : ℚ) := by norm_num; linarith
        simp only [specIntegrate, this, if_true]
        norm_num at hy2 ⊢
        exact hy2
    · refine ⟨x, y, ?_, Or.inl rfl⟩
      simp only [floatIntegrate, hg]
      rfl
  · by_cases hg : Fp.lt (binary32 1.0).neg (.fin y) = true
    · have hopen : -(1 : ℚ) < y := by
        rw [gate1_eq] at hg
        simpa [Fp.neg, Fp.lt] using hg
      obtain ⟨y', hy1, hy2⟩ := sub_near y r (3 / 20 * dt) (M + 1 + D)
        (by rw [abs_le]; constructor <;> linarith) hS1 hS2 hrS
      refine ⟨x, y', ?_, Or.inr ⟨?_, ?_⟩⟩
      · simp only [floatIntegrate, hg, if_true, hstepY, hy1]
      · have : y > (-1.0 : ℚ) := by norm_num; linarith
        simp only [specIntegrate, this, if_true]
        simpa using he
      · have : y > (-1.0 : ℚ) := by norm_num; linarith
        simp only [specIntegrate, this, if_true]
        norm_num at hy2 ⊢
        exact hy2
    · refine ⟨x, y, ?_, Or.inl rfl⟩
      simp only [floatIntegrate, hg]
      rfl

/-! ### Frame advances against elapsed time -/

/-- A `double` is a multiple of `2 ^ (-1074)`. -/
theorem isDouble_grid (a : ℚ) (h : IsDouble a) :
    ∃ m : ℤ, a = m * (2 : ℚ) ^ (-1074 : ℤ) := by
  have hk := ulpExp_ge 53 (-1022) a
  have hval : a = (roundEven (a / (2 : ℚ) ^ ulpExp 53 (-1022) a) : ℚ)
      * (2 : ℚ) ^ ulpExp 53 (-1022) a := h.symm
  generalize roundEven (a / (2 : ℚ) ^ ulpExp 53 (-1022) a) = m at hval
  generalize ulpExp 53 (-1022) a = k at hk hval
  obtain ⟨n, hn⟩ := zpow_eq_int_mul k (-1074) (by omega)
  refine ⟨m * n, ?_⟩
  rw [hval, hn]
  push_cast
  ring

/-- The sum of two `double` values is rounded with a relative error only: below the
normal range the sum is itself a `double`. -/
theorem roundTo_grid_err (q : ℚ) (m : ℤ) (hq : q = m * (2 : ℚ) ^ (-1074 : ℤ)) :
    |roundTo 53 (-1022) q - q| ≤ |q| * (2 : ℚ) ^ (-53 : ℤ) := by
  rcases le_total (Int.log 2 |q|) (-1022) with hle | hle
  · have hu : ulpExp 53 (-1022) q = -1074 := by
      unfold ulpExp
      rw [max_eq_right hle]
      norm_num
    have hr : roundTo 53 (-1022) q = q := by
      unfold roundTo
      rw [hu]
      have hd : q / (2 : ℚ) ^ (-1074 : ℤ) = (m : ℚ) := by
        rw [hq]
        field_simp
      rw [hd, roundEven_intCast, hq]
    rw [hr, sub_self, abs_zero]
    exact mul_nonneg (abs_nonneg q) (ulp_pos _).le
  · have herr := roundTo_err 53 (-1022) q
    have hu : ulpExp 53 (-1022) q = Int.log 2 |q| - 53 + 1 := by
      unfold ulpExp
      rw [max_eq_left hle]
      ring
    rw [hu, zpow_add₀ (by norm_num)] at herr
    rcases eq_or_ne q 0 with h0 | h0
    · rw [h0, roundTo_zero]
      simp
    · have hpos : 0 < |q| := abs_pos.mpr h0
      have hlog := log_le_self |q| hpos
      have : (2 : ℚ) ^ (Int.log 2 |q| - 53) ≤ |q| * (2 : ℚ) ^ (-53 : ℤ) := by
        rw [sub_eq_add_neg, zpow_add₀ (by norm_num)]
        exact mul_le_mul_of_nonneg_right hlog (ulp_pos _).le
      have e : (2 : ℚ) ^ (Int.log 2 |q| - 53) * 2 ^ (1 : ℤ) / 2
          = (2 : ℚ) ^ (Int.log 2 |q| - 53) := by
        norm_num
      rw [e] at herr
      linarith

theorem double_add_err (a b : ℚ) (ha : IsDouble a) (hb : IsDouble b) :
    |roundTo 53 (-1022) (a + b) - (a + b)| ≤ |a + b| * (2 : ℚ) ^ (-53 : ℤ) := by
  obtain ⟨m, hm⟩ := isDouble_grid a ha
  obtain ⟨n, hn⟩ := isDouble_grid b hb
  apply roundTo_grid_err (a + b) (m + n)
  rw [hm, hn]
  push_cast
  ring

theorem totalTime_nonneg (ticks : List Tick) (h : ∀ i ∈ ticks, 0 ≤ i.deltaTime) :
    0 ≤ totalTime ticks := by
  induction ticks with
  | nil => simp [totalTime]
  | cons i ticks ih =>
    rw [totalTime_cons]
    have h1 := h i (List.mem_cons_self i ticks)
    have h2 := ih (fun j hj => h j (List.mem_cons_of_mem i hj))
    linarith

/-- The test of the frame timer on the sum `T + d` of two non-negative `double`
values: it succeeds exactly when the rounded sum reaches the `double` 0.3, and
otherwise the rounded sum is finite. -/
theorem frameDue_iff (s : Drone) (T d : ℚ) (hs : s.animationTime = .fin T) (hT : 0 ≤ T)
    (hd : 0 ≤ d) :
    (frameDue d s = true ↔
        5404319552844595 / 18014398509481984 ≤ roundTo 53 (-1022) (T + d)) ∧
      (frameDue d s = false →
        Fp.add binary64 s.animationTime (.fin d) = .fin (roundTo 53 (-1022) (T + d))) := by
  have hq : 0 ≤ T + d := by linarith
  have hr := roundTo_nonneg 53 (-1022) hq
  unfold frameDue
  rw [hs, Fp.add_fin, animationDuration_eq]
  unfold binary64 roundFp
  split_ifs with h1 h2
  · rw [abs_of_nonneg hr] at h1
    refine ⟨⟨fun _ => ?_, fun _ => rfl⟩, fun h => by simp [Fp.le] at h⟩
    have : (5404319552844595 / 18014398509481984 : ℚ) ≤ 2 ^ 1024 := by norm_num
    linarith
  · exfalso
    have h0 : T + d = 0 := le_antisymm (not_lt.mp h2) hq
    rw [h0, roundTo_zero] at h1
    norm_num at h1
  · rw [Fp.le_fin]
    exact ⟨by simp, fun _ => rfl⟩

/-- Upper bound on the frame advances: each advance uses up at least the `double`
0.3 of accumulated time, each addition to the timer rounding up by at most one part
in `2 ^ 53`. -/
theorem frameAdvances_upper (c : Screen) :
    ∀ (ticks : List Tick) (s : Drone) (T : ℚ), s.animationTime = .fin T → IsDouble T →
      0 ≤ T → (∀ i ∈ ticks, 0 ≤ i.deltaTime ∧ IsDouble i.deltaTime) →
      (frameAdvances c s ticks : ℚ) * (5404319552844595 / 18014398509481984)
        ≤ (T + totalTime ticks) * (1 + 1 / 2 ^ 53) ^ ticks.length := by
  intro ticks
  induction ticks with
  | nil =>
    intro s T _ _ hT _
    simp [frameAdvances, totalTime]
    exact hT
  | cons i ticks ih =>
    intro s T hs hTd hT hdt
    obtain ⟨hd0, hdd⟩ := hdt i (List.mem_cons_self i ticks)
    have hrest : ∀ j ∈ ticks, 0 ≤ j.deltaTime ∧ IsDouble j.deltaTime :=
      fun j hj => hdt j (List.mem_cons_of_mem i hj)
    have hR := totalTime_nonneg ticks (fun j hj => (hrest j hj).1)
    obtain ⟨s', hbody⟩ := mainLoopBody_total c s i
    have hq : 0 ≤ T + i.deltaTime := by linarith
    have hr0 := roundTo_nonneg 53 (-1022) hq
    have herr := double_add_err T i.deltaTime hTd hdd
    rw [abs_of_nonneg hq] at herr
    have hup := (abs_le.mp herr).2
    have e53 : (2 : ℚ) ^ (-53 : ℤ) = 1 / 2 ^ 53 := by norm_num
    rw [e53] at hup
    obtain ⟨hiff, hfin⟩ := frameDue_iff s T i.deltaTime hs hT hd0
    have hanim := mainLoopBody_animationTime c s s' i hbody
    have hP : (1 : ℚ) ≤ (1 + 1 / 2 ^ 53) ^ ticks.length := one_le_pow₀ (by norm_num)
    have he0 : (0 : ℚ) < 1 / 2 ^ 53 := by norm_num
    have hrd : IsDouble (roundTo 53 (-1022) (T + i.deltaTime)) := isDouble_roundTo _
    rw [frameAdvances_cons c s s' i ticks hbody, totalTime_cons, List.length_cons, pow_succ,
      ← add_assoc]
    generalize (1 + 1 / 2 ^ 53 : ℚ) ^ ticks.length = P at hP ih ⊢
    generalize (1 / 2 ^ 53 : ℚ) = e at hup he0 ⊢
    generalize totalTime ticks = R at hR ih ⊢
    generalize roundTo 53 (-1022) (T + i.deltaTime) = r at hr0 hup hiff hfin hrd
    generalize T + i.deltaTime = q at hq hup ⊢
    have hqe : 0 ≤ q * e := mul_nonneg hq he0.le
    have hRP : 0 ≤ R * P := mul_nonneg hR (by linarith)
    have hRPe : 0 ≤ R * P * e := mul_nonneg hRP he0.le
    have hqP : q * (1 + e) ≤ q * (1 + e) * P := by
      have : 0 ≤ q * (1 + e) := by nlinarith
      nlinarith
    by_cases hdue : frameDue i.deltaTime s = true
    · rw [hdue] at hanim
      have hc := hiff.mp hdue
      have hih := ih s' 0 (by simpa using hanim) (roundTo_zero _ _) (le_refl _) hrest
      rw [zero_add] at hih
      rw [if_pos hdue]
      push_cast
      nlinarith
    · have hdue' : frameDue i.deltaTime s = false := by simpa using hdue
      rw [hdue'] at hanim
      simp only [Bool.false_eq_true, if_false] at hanim
      have hfin' := hfin hdue'
      rw [hfin'] at hanim
      have hih := ih s' r hanim hrd hr0 hrest
      rw [hdue']
      simp only [Bool.false_eq_true, if_false, Nat.zero_add]
      have h1 : (r + R) * P ≤ (q * (1 + e) + R) * P := by
        apply mul_le_mul_of_nonneg_right _ (by linarith)
        linarith
      nlinarith

/-- Lower bound on the frame advances: a timer that starts below the `double` 0.3 and
is given enough time, each addition rounding down by at most one part in `2 ^ 53`,
reaches it. -/
theorem frameAdvances_pos (c : Screen) :
    ∀ (ticks : List Tick) (s : Drone) (T : ℚ), s.animationTime = .fin T → IsDouble T →
      0 ≤ T → T < 5404319552844595 / 18014398509481984 →
      (∀ i ∈ ticks, 0 ≤ i.deltaTime ∧ IsDouble i.deltaTime) →
      5404319552844595 / 18014398509481984
        ≤ (T + totalTime ticks) * (1 - 1 / 2 ^ 53) ^ ticks.length →
      1 ≤ frameAdvances c s ticks := by
  intro ticks
  induction ticks with
  | nil =>
    intro s T _ _ _ hlt _ hsum
    simp [totalTime] at hsum
    linarith
  | cons i ticks ih =>
    intro s T hs hTd hT hlt hdt hsum
    obtain ⟨hd0, hdd⟩ := hdt i (List.mem_cons_self i ticks)
    have hrest : ∀ j ∈ ticks, 0 ≤ j.deltaTime ∧ IsDouble j.deltaTime :=
      fun j hj => hdt j (List.mem_cons_of_mem i hj)
    have hR := totalTime_nonneg ticks (fun j hj => (hrest j hj).1)
    obtain ⟨s', hbody⟩ := mainLoopBody_total c s i
    have hq : 0 ≤ T + i.deltaTime := by linarith
    have hr0 := roundTo_nonneg 53 (-1022) hq
    have herr := double_add_err T i.deltaTime hTd hdd
    rw [abs_of_nonneg hq] at herr
    have hlo := (abs_le.mp herr).1
    have e53 : (2 : ℚ) ^ (-53 : ℤ) = 1 / 2 ^ 53 := by norm_num
    rw [e53] at hlo
    obtain ⟨hiff, hfin⟩ := frameDue_iff s T i.deltaTime hs hT hd0
    have hanim := mainLoopBody_animationTime c s s' i hbody
    have hP : (0 : ℚ) ≤ (1 - 1 / 2 ^ 53) ^ ticks.length := pow_nonneg (by norm_num) _
    have he0 : (0 : ℚ) < 1 / 2 ^ 53 := by norm_num
    have hrd : IsDouble (roundTo 53 (-1022) (T + i.deltaTime)) := isDouble_roundTo _
    rw [frameAdvances_cons c s s' i ticks hbody]
    rw [totalTime_cons, List.length_cons, pow_succ, ← add_assoc] at hsum
    by_cases hdue : frameDue i.deltaTime s = true
    · rw [if_pos hdue]
      omega
    · have hdue' : frameDue i.deltaTime s = false := by simpa using hdue
      rw [hdue'] at hanim
      simp only [Bool.false_eq_true, if_false] at hanim
      rw [hfin hdue'] at hanim
      have hrlt : roundTo 53 (-1022) (T + i.deltaTime)
          < 5404319552844595 / 18014398509481984 := by
        by_contra hcon
        exact hdue (hiff.mpr (not_lt.mp hcon))
      have hih := ih s' _ hanim hrd hr0 hrlt hrest
      generalize (1 - 1 / 2 ^ 53 : ℚ) ^ ticks.length = P at hP hih hsum
      generalize (1 / 2 ^ 53 : ℚ) = e at hlo he0 hsum
      generalize totalTime ticks = R at hR hih hsum
      generalize roundTo 53 (-1022) (T + i.deltaTime) = r at hr0 hlo hih
      generalize T + i.deltaTime = q at hq hlo hsum
      have h1 : (q * (1 - e) + R) * P ≤ (r + R) * P := by
        apply mul_le_mul_of_nonneg_right _ hP
        linarith
      have h2 : (q + R) * (P * (1 - e)) ≤ (q * (1 - e) + R) * P := by
        have : 0 ≤ R * P * e := mul_nonneg (mul_nonneg hR hP) he0.le
        nlinarith
      have := hih (by linarith)
      omega

theorem mainLoopFrom_total (c : Screen) (ticks : List Tick) (s : Drone) :
    ∃ s', mainLoopFrom c s ticks = some s' := by
  obtain ⟨s', h, -⟩ := mainLoopFrom_induct c (fun _ => True) (fun _ => True)
    (fun _ _ _ _ _ _ => trivial) ticks s trivial (fun _ _ => trivial)
  exact ⟨s', h⟩

theorem isDouble_quarter : IsDouble (1 / 4) := by
  have h := isDouble_dyadic 1 2 (by norm_num) (by norm_num)
  simpa using h

theorem b64_one : binary64 1 = .fin 1 :=
  binary64_eq 1 1 0 (by norm_num) (by norm_num) (by norm_num)

theorem startState_due_one : frameDue 1 startState = true := by
  simp only [frameDue, startState, Fp.add_fin, animationDuration_eq]
  norm_num [b64_one, Fp.le_fin]

theorem startState_quiet_one : transitionFires startState ⟨1, 0, 0⟩ = false := by
  rw [transitionFires_eq]
  simp only [startState, Fp.add_fin]
  rw [intToDouble_eq 2 (by norm_num)]
  norm_num [b64_one, Fp.le_fin]

/-- The frame timer at the start of every iteration, when every `deltaTime` is a
non-negative `double`: a non-negative `double` below the `double` 0.3. -/
theorem timer_below_duration (c : Screen) (r0 : Nat) (ticks : List Tick)
    (h : ∀ j ∈ ticks, 0 ≤ j.deltaTime ∧ IsDouble j.deltaTime) :
    ∃ s T, mainLoop c r0 ticks = some s ∧ s.animationTime = .fin T ∧ IsDouble T ∧
      0 ≤ T ∧ T < 5404319552844595 / 18014398509481984 := by
  obtain ⟨s0, h0, ha⟩ : ∃ s0, mainInit r0 = some s0 ∧ s0.animationTime = .fin 0 :=
    ⟨_, mainInit_eq r0, rfl⟩
  obtain ⟨s, hs, T, hT⟩ := mainLoopFrom_induct c
    (fun s => ∃ T, s.animationTime = .fin T ∧ IsDouble T ∧
      0 ≤ T ∧ T < 5404319552844595 / 18014398509481984)
    (fun j => 0 ≤ j.deltaTime ∧ IsDouble j.deltaTime)
    (by
      rintro s i s' ⟨T, hs, hTd, hT, -⟩ ⟨hd0, hdd⟩ hbody
      obtain ⟨hiff, hfin⟩ := frameDue_iff s T i.deltaTime hs hT hd0
      have hanim := mainLoopBody_animationTime c s s' i hbody
      by_cases hdue : frameDue i.deltaTime s = true
      · rw [hdue] at hanim
        exact ⟨0, by simpa using hanim, roundTo_zero _ _, le_refl _, by norm_num⟩
      · have hdue' : frameDue i.deltaTime s = false := by simpa using hdue
        rw [hdue'] at hanim
        simp only [Bool.false_eq_true, if_false] at hanim
        rw [hfin hdue'] at hanim
        refine ⟨_, hanim, isDouble_roundTo _, roundTo_nonneg _ _ (by linarith), ?_⟩
        by_contra hcon
        exact hdue (hiff.mpr (not_lt.mp hcon)))
    ticks s0 ⟨0, ha, roundTo_zero _ _, le_refl _, by norm_num⟩ h
  exact ⟨s, T, by simp [mainLoop, h0, hs], hT⟩

/-! ### The midpoint scenario: 30 additions of the `double` 0.1 -/

theorem midpointClock_val0 : midpointClock 0 = 0 := rfl

theorem midpointClock_val1 : midpointClock 1 = 3602879701896397 / 36028797018963968 := rfl

theorem midpointClock_val2 : midpointClock 2 = 3602879701896397 / 18014398509481984 := rfl

theorem midpointClock_val3 : midpointClock 3 = 1351079888211149 / 4503599627370496 := rfl

theorem midpointClock_val4 : midpointClock 4 = 3602879701896397 / 9007199254740992 := rfl

theorem midpointClock_val5 : midpointClock 5 = 1 / 2 := rfl

theorem midpointClock_val6 : midpointClock 6 = 5404319552844595 / 9007199254740992 := rfl

theorem midpointClock_val7 : midpointClock 7 = 3152519739159347 / 4503599627370496 := rfl

theorem midpointClock_val8 : midpointClock 8 = 7205759403792793 / 9007199254740992 := rfl

theorem midpointClock_val9 : midpointClock 9 = 2026619832316723 / 2251799813685248 := rfl

theorem midpointClock_val10 : midpointClock 10 = 9007199254740991 / 9007199254740992 := rfl

theorem midpointClock_val11 : midpointClock 11 = 4953959590107545 / 4503599627370496 := rfl

theorem midpointClock_val12 : midpointClock 12 = 5404319552844595 / 4503599627370496 := rfl

theorem midpointClock_val13 : midpointClock 13 = 5854679515581645 / 4503599627370496 := rfl

theorem midpointClock_val14 : midpointClock 14 = 6305039478318695 / 4503599627370496 := rfl

theorem midpointClock_val15 : midpointClock 15 = 6755399441055745 / 4503599627370496 := rfl

theorem midpointClock_val16 : midpointClock 16 = 7205759403792795 / 4503599627370496 := rfl

theorem midpointClock_val17 : midpointClock 17 = 7656119366529845 / 4503599627370496 := rfl

theorem midpointClock_val18 : midpointClock 18 = 8106479329266895 / 4503599627370496 := rfl

theorem midpointClock_val19 : midpointClock 19 = 8556839292003945 / 4503599627370496 := rfl

theorem midpointClock_val20 : midpointClock 20 = 4503599627370497 / 2251799813685248 := rfl

theorem midpointClock_val21 : midpointClock 21 = 2364389804369511 / 1125899906842624 := rfl

theorem midpointClock_val22 : midpointClock 22 = 4953959590107547 / 2251799813685248 := rfl

theorem midpointClock_val23 : midpointClock 23 = 647392446434509 / 281474976710656 := rfl

theorem midpointClock_val24 : midpointClock 24 = 5404319552844597 / 2251799813685248 := rfl

theorem midpointClock_val25 : midpointClock 25 = 2814749767106561 / 1125899906842624 := rfl

theorem midpointClock_val26 : midpointClock 26 = 5854679515581647 / 2251799813685248 := rfl

theorem midpointClock_val27 : midpointClock 27 = 1519964874237543 / 562949953421312 := rfl

theorem midpointClock_val28 : midpointClock 28 = 6305039478318697 / 2251799813685248 := rfl

theorem midpointClock_val29 : midpointClock 29 = 3265109729843611 / 1125899906842624 := rfl

theorem midpointClock_val30 : midpointClock 30 = 6755399441055747 / 2251799813685248 := rfl

theorem midpointClock_add0 :
    binary64 (0 + double01) = .fin (3602879701896397 / 36028797018963968) := by
  have h := binary64_eval (0 + double01) (-4) 7205759403792794
    (by norm_num [double01, abs_of_pos]) (by norm_num [double01, abs_of_pos]) (by norm_num)
    (by norm_num [double01]) (by norm_num [double01]) (by norm_num [abs_of_pos])
  rw [h]
  norm_num

theorem midpointClock_add1 :
    binary64 (3602879701896397 / 36028797018963968 + double01) = .fin (3602879701896397 / 18014398509481984) := by
  have h := binary64_eval (3602879701896397 / 36028797018963968 + double01) (-3) 7205759403792794
    (by norm_num [double01, abs_of_pos]) (by norm_num [double01, abs_of_pos]) (by norm_num)
    (by norm_num [double01]) (by norm_num [double01]) (by norm_num [abs_of_pos])
  rw [h]
  norm_num

theorem midpointClock_add2 :
    binary64 (3602879701896397 / 18014398509481984 + double01) = .fin (1351079888211149 / 4503599627370496) := by
  have h := binary64_eval_tie (3602879701896397 / 18014398509481984 + double01) (-2) 5404319552844596
    (by norm_num [double01, abs_of_pos]) (by norm_num [double01, abs_of_pos]) (by norm_num)
    (by norm_num [double01, abs_of_neg]) (by norm_num) (by norm_num [abs_of_pos])
  rw [h]
  norm_num

theorem midpointClock_add3 :
    binary64 (1351079888211149 / 4503599627370496 + double01) = .fin (3602879701896397 / 9007199254740992) := by
  have h := binary64_eval_tie (1351079888211149 / 4503599627370496 + double01) (-2) 7205759403792794
    (by norm_num [double01, abs_of_pos]) (by norm_num [double01, abs_of_pos]) (by norm_num)
    (by norm_num [double01, abs_of_pos]) (by norm_num) (by norm_num [abs_of_pos])
  rw [h]
  norm_num

theorem midpointClock_add4 :
    binary64 (3602879701896397 / 9007199254740992 + double01) = .fin (1 / 2) := by
  have h := binary64_eval (3602879701896397 / 9007199254740992 + double01) (-1) 4503599627370496
    (by norm_num [double01, abs_of_pos]) (by norm_num [double01, abs_of_pos]) (by norm_num)
    (by norm_num [double01]) (by norm_num [double01]) (by norm_num [abs_of_pos])
  rw [h]
  norm_num

theorem midpointClock_add5 :
    binary64 (1 / 2 + double01) = .fin (5404319552844595 / 9007199254740992) := by
  have h := binary64_eval (1 / 2 + double01) (-1) 5404319552844595
    (by norm_num [double01, abs_of_pos]) (by norm_num [double01, abs_of_pos]) (by norm_num)
    (by norm_num [double01]) (by norm_num [double01]) (by norm_num [abs_of_pos])
  rw [h]
  norm_num

theorem midpointClock_add6 :
    binary64 (5404319552844595 / 9007199254740992 + double01) = .fin (3152519739159347 / 4503599627370496) := by
  have h := binary64_eval (5404319552844595 / 9007199254740992 + double01) (-1) 6305039478318694
    (by norm_num [double01, abs_of_pos]) (by norm_num [double01, abs_of_pos]) (by norm_num)
    (by norm_num [double01]) (by norm_num [double01]) (by norm_num [abs_of_pos])
  rw [h]
  norm_num

theorem midpointClock_add7 :
    binary64 (3152519739159347 / 4503599627370496 + double01) = .fin (7205759403792793 / 9007199254740992) := by
  have h := binary64_eval (3152519739159347 / 4503599627370496 + double01) (-1) 7205759403792793
    (by norm_num [double01, abs_of_pos]) (by norm_num [double01, abs_of_pos]) (by norm_num)
    (by norm_num [double01]) (by norm_num [double01]) (by norm_num [abs_of_pos])
  rw [h]
  norm_num

theorem midpointClock_add8 :
    binary64 (7205759403792793 / 9007199254740992 + double01) = .fin (2026619832316723 / 2251799813685248) := by
  have h := binary64_eval (7205759403792793 / 9007199254740992 + double01) (-1) 8106479329266892
    (by norm_num [double01, abs_of_pos]) (by norm_num [double01, abs_of_pos]) (by norm_num)
    (by norm_num [double01]) (by norm_num [double01]) (by norm_num [abs_of_pos])
  rw [h]
  norm_num

theorem midpointClock_add9 :
    binary64 (2026619832316723 / 2251799813685248 + double01) = .fin (9007199254740991 / 9007199254740992) := by
  have h := binary64_eval (2026619832316723 / 2251799813685248 + double01) (-1) 9007199254740991
    (by norm_num [double01, abs_of_pos]) (by norm_num [double01, abs_of_pos]) (by norm_num)
    (by norm_num [double01]) (by norm_num [double01]) (by norm_num [abs_of_pos])
  rw [h]
  norm_num

theorem midpointClock_add10 :
    binary64 (9007199254740991 / 9007199254740992 + double01) = .fin (4953959590107545 / 4503599627370496) := by
  have h := binary64_eval (9007199254740991 / 9007199254740992 + double01) (0) 4953959590107545
    (by norm_num [double01, abs_of_pos]) (by norm_num [double01, abs_of_pos]) (by norm_num)
    (by norm_num [double01]) (by norm_num [double01]) (by norm_num [abs_of_pos])
  rw [h]
  norm_num

theorem midpointClock_add11 :
    binary64 (4953959590107545 / 4503599627370496 + double01) = .fin (5404319552844595 / 4503599627370496) := by
  have h := binary64_eval (4953959590107545 / 4503599627370496 + double01) (0) 5404319552844595
    (by norm_num [double01, abs_of_pos]) (by norm_num [double01, abs_of_pos]) (by norm_num)
    (by norm_num [double01]) (by norm_num [double01]) (by norm_num [abs_of_pos])
  rw [h]
  norm_num

theorem midpointClock_add12 :
    binary64 (5404319552844595 / 4503599627370496 + double01) = .fin (5854679515581645 / 4503599627370496) := by
  have h := binary64_eval (5404319552844595 / 4503599627370496 + double01) (0) 5854679515581645
    (by norm_num [double01, abs_of_pos]) (by norm_num [double01, abs_of_pos]) (by norm_num)
    (by norm_num [double01]) (by norm_num [double01]) (by norm_num [abs_of_pos])
  rw [h]
  norm_num

theorem midpointClock_add13 :
    binary64 (5854679515581645 / 4503599627370496 + double01) = .fin (6305039478318695 / 4503599627370496) := by
  have h := binary64_eval (5854679515581645 / 4503599627370496 + double01) (0) 6305039478318695
    (by norm_num [double01, abs_of_pos]) (by norm_num [double01, abs_of_pos]) (by norm_num)
    (by norm_num [double01]) (by norm_num [double01]) (by norm_num [abs_of_pos])
  rw [h]
  norm_num

theorem midpointClock_add14 :
    binary64 (6305039478318695 / 4503599627370496 + double01) = .fin (6755399441055745 / 4503599627370496) := by
  have h := binary64_eval (6305039478318695 / 4503599627370496 + double01) (0) 6755399441055745
    (by norm_num [double01, abs_of_pos]) (by norm_num [double01, abs_of_pos]) (by norm_num)
    (by norm_num [double01]) (by norm_num [double01]) (by norm_num [abs_of_pos])
  rw [h]
  norm_num

theorem midpointClock_add15 :
    binary64 (6755399441055745 / 4503599627370496 + double01) = .fin (7205759403792795 / 4503599627370496) := by
  have h := binary64_eval (6755399441055745 / 4503599627370496 + double01) (0) 7205759403792795
    (by norm_num [double01, abs_of_pos]) (by norm_num [double01, abs_of_pos]) (by norm_num)
    (by norm_num [double01]) (by norm_num [double01]) (by norm_num [abs_of_pos])
  rw [h]
  norm_num

theorem midpointClock_add16 :
    binary64 (7205759403792795 / 4503599627370496 + double01) = .fin (7656119366529845 / 4503599627370496) := by
  have h := binary64_eval (7205759403792795 / 4503599627370496 + double01) (0) 7656119366529845
    (by norm_num [double01, abs_of_pos]) (by norm_num [double01, abs_of_pos]) (by norm_num)
    (by norm_num [double01]) (by norm_num [double01]) (by norm_num [abs_of_pos])
  rw [h]
  norm_num

theorem midpointClock_add17 :
    binary64 (7656119366529845 / 4503599627370496 + double01) = .fin (8106479329266895 / 4503599627370496) := by
  have h := binary64_eval (7656119366529845 / 4503599627370496 + double01) (0) 8106479329266895
    (by norm_num [double01, abs_of_pos]) (by norm_num [double01, abs_of_pos]) (by norm_num)
    (by norm_num [double01]) (by norm_num [double01]) (by norm_num [abs_of_pos])
  rw [h]
  norm_num

theorem midpointClock_add18 :
    binary64 (8106479329266895 / 4503599627370496 + double01) = .fin (8556839292003945 / 4503599627370496) := by
  have h := binary64_eval (8106479329266895 / 4503599627370496 + double01) (0) 8556839292003945
    (by norm_num [double01, abs_of_pos]) (by norm_num [double01, abs_of_pos]) (by norm_num)
    (by norm_num [double01]) (by norm_num [double01]) (by norm_num [abs_of_pos])
  rw [h]
  norm_num

theorem midpointClock_add19 :
    binary64 (8556839292003945 / 4503599627370496 + double01) = .fin (4503599627370497 / 2251799813685248) := by
  have h := binary64_eval (8556839292003945 / 4503599627370496 + double01) (1) 4503599627370497
    (by norm_num [double01, abs_of_pos]) (by norm_num [double01, abs_of_pos]) (by norm_num)
    (by norm_num [double01]) (by norm_num [double01]) (by norm_num [abs_of_pos])
  rw [h]
  norm_num

theorem midpointClock_add20 :
    binary64 (4503599627370497 / 2251799813685248 + double01) = .fin (2364389804369511 / 1125899906842624) := by
  have h := binary64_eval (4503599627370497 / 2251799813685248 + double01) (1) 4728779608739022
    (by norm_num [double01, abs_of_pos]) (by norm_num [double01, abs_of_pos]) (by norm_num)
    (by norm_num [double01]) (by norm_num [double01]) (by norm_num [abs_of_pos])
  rw [h]
  norm_num

theorem midpointClock_add21 :
    binary64 (2364389804369511 / 1125899906842624 + double01) = .fin (4953959590107547 / 2251799813685248) := by
  have h := binary64_eval (2364389804369511 / 1125899906842624 + double01) (1) 4953959590107547
    (by norm_num [double01, abs_of_pos]) (by norm_num [double01, abs_of_pos]) (by norm_num)
    (by norm_num [double01]) (by norm_num [double01]) (by norm_num [abs_of_pos])
  rw [h]
  norm_num

theorem midpointClock_add22 :
    binary64 (4953959590107547 / 2251799813685248 + double01) = .fin (647392446434509 / 281474976710656) := by
  have h := binary64_eval (4953959590107547 / 2251799813685248 + double01) (1) 5179139571476072
    (by norm_num [double01, abs_of_pos]) (by norm_num [double01, abs_of_pos]) (by norm_num)
    (by norm_num [double01]) (by norm_num [double01]) (by norm_num [abs_of_pos])
  rw [h]
  norm_num

theorem midpointClock_add23 :
    binary64 (647392446434509 / 281474976710656 + double01) = .fin (5404319552844597 / 2251799813685248) := by
  have h := binary64_eval (647392446434509 / 281474976710656 + double01) (1) 5404319552844597
    (by norm_num [double01, abs_of_pos]) (by norm_num [double01, abs_of_pos]) (by norm_num)
    (by norm_num [double01]) (by norm_num [double01]) (by norm_num [abs_of_pos])
  rw [h]
  norm_num

theorem midpointClock_add24 :
    binary64 (5404319552844597 / 2251799813685248 + double01) = .fin (2814749767106561 / 1125899906842624) := by
  have h := binary64_eval (5404319552844597 / 2251799813685248 + double01) (1) 5629499534213122
    (by norm_num [double01, abs_of_pos]) (by norm_num [double01, abs_of_pos]) (by norm_num)
    (by norm_num [double01]) (by norm_num [double01]) (by norm_num [abs_of_pos])
  rw [h]
  norm_num

theorem midpointClock_add25 :
    binary64 (2814749767106561 / 1125899906842624 + double01) = .fin (5854679515581647 / 2251799813685248) := by
  have h := binary64_eval (2814749767106561 / 1125899906842624 + double01) (1) 5854679515581647
    (by norm_num [double01, abs_of_pos]) (by norm_num [double01, abs_of_pos]) (by norm_num)
    (by norm_num [double01]) (by norm_num [double01]) (by norm_num [abs_of_pos])
  rw [h]
  norm_num

theorem midpointClock_add26 :
    binary64 (5854679515581647 / 2251799813685248 + double01) = .fin (1519964874237543 / 562949953421312) := by
  have h := binary64_eval (5854679515581647 / 2251799813685248 + double01) (1) 6079859496950172
    (by norm_num [double01, abs_of_pos]) (by norm_num [double01, abs_of_pos]) (by norm_num)
    (by norm_num [double01]) (by norm_num [double01]) (by norm_num [abs_of_pos])
  rw [h]
  norm_num

theorem midpointClock_add27 :
    binary64 (1519964874237543 / 562949953421312 + double01) = .fin (6305039478318697 / 2251799813685248) := by
  have h := binary64_eval (1519964874237543 / 562949953421312 + double01) (1) 6305039478318697
    (by norm_num [double01, abs_of_pos]) (by norm_num [double01, abs_of_pos]) (by norm_num)
    (by norm_num [double01]) (by norm_num [double01]) (by norm_num [abs_of_pos])
  rw [h]
  norm_num

theorem midpointClock_add28 :
    binary64 (6305039478318697 / 2251799813685248 + double01) = .fin (3265109729843611 / 1125899906842624) := by
  have h := binary64_eval (6305039478318697 / 2251799813685248 + double01) (1) 6530219459687222
    (by norm_num [double01, abs_of_pos]) (by norm_num [double01, abs_of_pos]) (by norm_num)
    (by norm_num [double01]) (by norm_num [double01]) (by norm_num [abs_of_pos])
  rw [h]
  norm_num

theorem midpointClock_add29 :
    binary64 (3265109729843611 / 1125899906842624 + double01) = .fin (6755399441055747 / 2251799813685248) := by
  have h := binary64_eval (3265109729843611 / 1125899906842624 + double01) (1) 6755399441055747
    (by norm_num [double01, abs_of_pos]) (by norm_num [double01, abs_of_pos]) (by norm_num)
    (by norm_num [double01]) (by norm_num [double01]) (by norm_num [abs_of_pos])
  rw [h]
  norm_num

theorem midpointClock_step (k : Nat) (hk : k < 30) :
    binary64 (midpointClock k + double01) = .fin (midpointClock (k + 1)) := by
  interval_cases k
  · rw [midpointClock_val0, midpointClock_val1]; exact midpointClock_add0
  · rw [midpointClock_val1, midpointClock_val2]; exact midpointClock_add1
  · rw [midpointClock_val2, midpointClock_val3]; exact midpointClock_add2
  · rw [midpointClock_val3, midpointClock_val4]; exact midpointClock_add3
  · rw [midpointClock_val4, midpointClock_val5]; exact midpointClock_add4
  · rw [midpointClock_val5, midpointClock_val6]; exact midpointClock_add5
  · rw [midpointClock_val6, midpointClock_val7]; exact midpointClock_add6
  · rw [midpointClock_val7, midpointClock_val8]; exact midpointClock_add7
  · rw [midpointClock_val8, midpointClock_val9]; exact midpointClock_add8
  · rw [midpointClock_val9, midpointClock_val10]; exact midpointClock_add9
  · rw [midpointClock_val10, midpointClock_val11]; exact midpointClock_add10
  · rw [midpointClock_val11, midpointClock_val12]; exact midpointClock_add11
  · rw [midpointClock_val12, midpointClock_val13]; exact midpointClock_add12
  · rw [midpointClock_val13, midpointClock_val14]; exact midpointClock_add13
  · rw [midpointClock_val14, midpointClock_val15]; exact midpointClock_add14
  · rw [midpointClock_val15, midpointClock_val16]; exact midpointClock_add15
  · rw [midpointClock_val16, midpointClock_val17]; exact midpointClock_add16
  · rw [midpointClock_val17, midpointClock_val18]; exact midpointClock_add17
  · rw [midpointClock_val18, midpointClock_val19]; exact midpointClock_add18
  · rw [midpointClock_val19, midpointClock_val20]; exact midpointClock_add19
  · rw [midpointClock_val20, midpointClock_val21]; exact midpointClock_add20
  · rw [midpointClock_val21, midpointClock_val22]; exact midpointClock_add21
  · rw [midpointClock_val22, midpointClock_val23]; exact midpointClock_add22
  · rw [midpointClock_val23, midpointClock_val24]; exact midpointClock_add23
  · rw [midpointClock_val24, midpointClock_val25]; exact midpointClock_add24
  · rw [midpointClock_val25, midpointClock_val26]; exact midpointClock_add25
  · rw [midpointClock_val26, midpointClock_val27]; exact midpointClock_add26
  · rw [midpointClock_val27, midpointClock_val28]; exact midpointClock_add27
  · rw [midpointClock_val28, midpointClock_val29]; exact midpointClock_add28
  · rw [midpointClock_val29, midpointClock_val30]; exact midpointClock_add29

theorem midpointClock_lt (k : Nat) (hk : k < 30) : midpointClock k < 3 := by
  interval_cases k
  · rw [midpointClock_val0]; norm_num
  · rw [midpointClock_val1]; norm_num
  · rw [midpointClock_val2]; norm_num
  · rw [midpointClock_val3]; norm_num
  · rw [midpointClock_val4]; norm_num
  · rw [midpointClock_val5]; norm_num
  · rw [midpointClock_val6]; norm_num
  · rw [midpointClock_val7]; norm_num
  · rw [midpointClock_val8]; norm_num
  · rw [midpointClock_val9]; norm_num
  · rw [midpointClock_val10]; norm_num
  · rw [midpointClock_val11]; norm_num
  · rw [midpointClock_val12]; norm_num
  · rw [midpointClock_val13]; norm_num
  · rw [midpointClock_val14]; norm_num
  · rw [midpointClock_val15]; norm_num
  · rw [midpointClock_val16]; norm_num
  · rw [midpointClock_val17]; norm_num
  · rw [midpointClock_val18]; norm_num
  · rw [midpointClock_val19]; norm_num
  · rw [midpointClock_val20]; norm_num
  · rw [midpointClock_val21]; norm_num
  · rw [midpointClock_val22]; norm_num
  · rw [midpointClock_val23]; norm_num
  · rw [midpointClock_val24]; norm_num
  · rw [midpointClock_val25]; norm_num
  · rw [midpointClock_val26]; norm_num
  · rw [midpointClock_val27]; norm_num
  · rw [midpointClock_val28]; norm_num
  · rw [midpointClock_val29]; norm_num

theorem midpointClock_thirty :
    (3 : ℚ) ≤ midpointClock 30 ∧ midpointClock 30 < 3 + 1 / 10 ^ 14 := by
  rw [midpointClock_val30]
  norm_num

theorem double01_eq : binary64 0.1 = .fin double01 := by
  have h := binary64_eval 0.1 (-4) 7205759403792794 (by norm_num [abs_of_pos])
    (by norm_num [abs_of_pos]) (by norm_num) (by norm_num) (by norm_num)
    (by norm_num [abs_of_pos])
  rw [h]
  norm_num [double01]

/-- In the midpoint scenario the first 29 iterations only accumulate time against
the interval 3. -/
theorem midpoint_run (c : Screen) :
    ∀ n : Nat, n ≤ 29 →
      ∃ s, mainLoop c midpointSeed (List.replicate n midpointTick) = some s ∧
        s.currentTime = .fin (midpointClock n) ∧ s.timeInBetweenAnimations = 3 := by
  intro n
  induction n with
  | zero =>
    intro _
    have h0 : mainLoop c midpointSeed (List.replicate 0 midpointTick)
        = some { state := 0, previousState := 0, x := .fin 0, y := .fin (-1),
                 animationTime := .fin 0, currentFrame := 1, currentTime := .fin 0,
                 timeInBetweenAnimations := 3 } := by
      simp [mainLoop, mainInit_eq, mainLoopFrom, midpointSeed]
    exact ⟨_, h0, by rw [midpointClock_val0], rfl⟩
  | succ n ih =>
    intro hn
    obtain ⟨s, hs, hct, hti⟩ := ih (by omega)
    have hquiet : transitionFires s midpointTick = false := by
      rw [transitionFires_eq, hct, hti, intToDouble_eq 3 (by norm_num)]
      show Fp.le (.fin ((3 : ℤ) : ℚ)) (binary64 (midpointClock n + double01)) = false
      rw [midpointClock_step n (by omega), Fp.le_fin]
      have := midpointClock_lt (n + 1) (by omega)
      simp only [decide_eq_false_iff_not, not_le]
      exact_mod_cast this
    obtain ⟨s', hbody, hct', hti'⟩ := mainLoopBody_quiet c s midpointTick hquiet
    refine ⟨s', ?_, ?_, ?_⟩
    · rw [List.replicate_succ', mainLoop_append, hs]
      exact hbody
    · rw [hct', hct]
      exact midpointClock_step n (by omega)
    · rw [hti', hti]

theorem midpoint_fires (c : Screen) :
    ∃ s, mainLoop c midpointSeed (List.replicate 29 midpointTick) = some s ∧
      transitionFires s midpointTick = true ∧
      Fp.add binary64 s.currentTime (.fin midpointTick.deltaTime)
        = .fin (midpointClock 30) := by
  obtain ⟨s, hs, hct, hti⟩ := midpoint_run c 29 (le_refl _)
  have hadd : Fp.add binary64 s.currentTime (.fin midpointTick.deltaTime)
      = .fin (midpointClock 30) := by
    rw [hct]
    exact midpointClock_step 29 (by norm_num)
  refine ⟨s, hs, ?_, hadd⟩
  rw [transitionFires_eq, hadd, hti, intToDouble_eq 3 (by norm_num), Fp.le_fin]
  have := midpointClock_thirty.1
  simp only [decide_eq_true_eq]
  exact_mod_cast this

/-! ## Claims -/

/-- C1: from the initial state, after any number of iterations with any elapsed
times (in particular any non-negative ones) and any random draws, the loop yields a
state whose frame index is 1, 2, 3 or 4; and the frame advance maps 1 to 2, 2 to 3,
3 to 4 and 4 to 1. -/
theorem frame_index_cycle (c : Screen) (r0 : Nat) (ticks : List Tick) :
    (∃ s, mainLoop c r0 ticks = some s ∧
      (s.currentFrame = 1 ∨ s.currentFrame = 2 ∨ s.currentFrame = 3 ∨ s.currentFrame = 4)) ∧
    nextFrame 1 = 2 ∧ nextFrame 2 = 3 ∧ nextFrame 3 = 4 ∧ nextFrame 4 = 1 := by
  refine ⟨?_, by decide, by decide, by decide, by decide⟩
  obtain ⟨s, hs, h1, h4⟩ :=
    mainLoop_induct c (fun s => 1 ≤ s.currentFrame ∧ s.currentFrame ≤ 4) (by
      intro r s h
      rw [mainInit_eq] at h
      cases h
      exact ⟨le_refl _, by norm_num⟩) (by
      intro s i s' hs h
      obtain ⟨b, t, -, -, -, -, -, hb⟩ := mainLoopBody_spec c s i
      rw [hb] at h
      cases h
      rw [motion_currentFrame]
      have hn := nextFrame_range s.currentFrame hs
      split_ifs with h1 h2
      · exact ⟨le_refl _, by norm_num⟩
      · show 1 ≤ (advanceClocks i.deltaTime s).currentFrame ∧ _
        rw [advanceClocks_currentFrame]; split_ifs <;> assumption
      · rw [advanceClocks_currentFrame]; split_ifs <;> assumption) r0 ticks
  exact ⟨s, hs, by omega⟩

/-- C2: in every iteration from a reachable state, with `b` the state drawn by
`random(0, 5)`: if the transition fires and `b` differs from the current state, the
frame index is 1 afterwards; if it fires and `b` equals the current state, or if it
does not fire, the frame index afterwards is what the frame advance step alone
produced (the next frame when the frame was due, the old frame otherwise). -/
theorem frame_reset_iff_behaviour_change (c : Screen) (r0 : Nat) (ticks : List Tick)
    (i : Tick) :
    ∃ s s' b, mainLoop c r0 ticks = some s ∧ random 0 5 i.rand1 = some b ∧
      mainLoopBody c s i = some s' ∧
      (transitionFires s i = true → b ≠ s.state → s'.currentFrame = 1 ∧ s'.state = b) ∧
      (transitionFires s i = true → b = s.state →
        s'.state = s.state ∧
        s'.currentFrame
          = if frameDue i.deltaTime s then nextFrame s.currentFrame else s.currentFrame) ∧
      (transitionFires s i = false →
        s'.state = s.state ∧
        s'.currentFrame
          = if frameDue i.deltaTime s then nextFrame s.currentFrame else s.currentFrame) := by
  obtain ⟨s, hs, hinv⟩ := previousState_eq_state c r0 ticks
  obtain ⟨b, t, hb, -, -, -, -, hbody⟩ := mainLoopBody_spec c s i
  refine ⟨s, _, b, hs, hb, hbody, ?_, ?_, ?_⟩
  · intro hf hne
    rw [motion_currentFrame, motion_state, hinv, if_pos hf, if_pos hne]
    exact ⟨rfl, rfl⟩
  · intro hf he
    rw [motion_currentFrame, motion_state, hinv, if_pos hf, if_neg (not_not.mpr he)]
    exact ⟨he, advanceClocks_currentFrame _ _⟩
  · intro hf
    rw [motion_currentFrame, motion_state]
    simp only [hf, Bool.false_eq_true, if_false]
    exact ⟨advanceClocks_state _ _, advanceClocks_currentFrame _ _⟩

/-- C2 (witness): the run of 1.75 s then 0.25 s from the initial state.  The second
iteration fires the transition and draws state 1 while the current state is 0, and
the frame index is 1 afterwards. -/
theorem frame_reset_iff_behaviour_change_witness :
    ∃ s s' b, mainLoop fullHD 0 [⟨7 / 4, 0, 0⟩] = some s ∧ random 0 5 1 = some b ∧
      mainLoopBody fullHD s ⟨1 / 4, 1, 0⟩ = some s' ∧
      transitionFires s ⟨1 / 4, 1, 0⟩ = true ∧ b ≠ s.state ∧
      s'.currentFrame = 1 ∧ s'.state = b := by
  obtain ⟨s, s', b, hs, hb, hbody, hchange, -, -⟩ :=
    frame_reset_iff_behaviour_change fullHD 0 [⟨7 / 4, 0, 0⟩] ⟨1 / 4, 1, 0⟩
  have hs' : s = idleState175 := by
    rw [mainLoop_175] at hs
    exact (Option.some.inj hs).symm
  have hb' : b = 1 := by
    change random 0 5 1 = some b at hb
    rw [random_draws_one] at hb
    exact (Option.some.inj hb).symm
  have hf : transitionFires s ⟨1 / 4, 1, 0⟩ = true := by
    rw [hs']; exact idleState175_fires
  have hne : b ≠ s.state := by
    rw [hs', hb']
    decide
  exact ⟨s, s', b, hs, hb, hbody, hf, hne, hchange hf hne⟩

/-- C3 (counterexample): the initial position `x = 0` with sprite width `0.125`
satisfies `-0.95 <= x` and `x + width <= 0.95`.  Two iterations with `deltaTime` 2
and 32, both drawing state 1 (WalkRight), end in WalkRight with
`x = 7130317 / 4194304`, about 1.7, above `0.95 - width = 0.825`. -/
theorem walk_right_overshoots_example :
    ∃ x0 w x : ℚ, imageWidth screen1664 = .fin w ∧ startState.x = .fin x0 ∧
      (-0.95 : ℚ) ≤ x0 ∧ x0 + w ≤ 0.95 ∧
      mainLoopBody screen1664 startState ⟨2, 1, 0⟩ = some walkingState ∧
      walkingState.state = Behavior.WalkRight.code ∧
      mainLoopFrom screen1664 startState [⟨2, 1, 0⟩, ⟨32, 1, 0⟩] = some runawayState ∧
      runawayState.state = Behavior.WalkRight.code ∧
      runawayState.x = .fin x ∧ ¬ (x ≤ 0.95 - w) := by
  have h1 := startState_step_walk screen1664 (Or.inr rfl)
  have h2 := walkingState_step_32 screen1664 rfl
  refine ⟨0, 1 / 8, 7130317 / 4194304, imageWidth_1664 screen1664 rfl, rfl, by norm_num,
    by norm_num, h1, rfl, ?_, rfl, rfl, by norm_num⟩
  simp [mainLoopFrom, h1, h2]

/-- C3 (amended): for every bound `D` with `0 <= D <= 2 ^ 64` and every sequence of
iterations with `0 <= deltaTime <= D`, on a screen whose sprite width `w` is finite
and not negative, starting from a `float` position `x0` with `-0.95 <= x0` and
`x0 + w <= 0.95`, the loop produces a state after every iteration (in particular
one taken in WalkRight or in WalkLeft) whose `x` is finite and satisfies
`x < 0.95 - w + 0.05 * D + (1 + D) / 10 ^ 6` and
`x > -0.95 - 0.05 * D - (1 + D) / 10 ^ 6`: the gate stops the walk once the bound
is passed, so `x` passes it by at most one step and the rounding of that step. -/
theorem walk_stays_within_one_step (c : Screen) (D w x0 : ℚ) (s0 : Drone)
    (ticks : List Tick) (hD0 : 0 ≤ D) (hD : D ≤ 2 ^ 64)
    (hdt : ∀ i ∈ ticks, 0 ≤ i.deltaTime ∧ i.deltaTime ≤ D)
    (hw : imageWidth c = .fin w) (hw0 : 0 ≤ w) (hs : s0.x = .fin x0) (hfl : IsFloat x0)
    (hx0 : -0.95 ≤ x0) (hx1 : x0 + w ≤ 0.95) :
    ∃ s x, mainLoopFrom c s0 ticks = some s ∧ s.x = .fin x ∧
      x < 0.95 - w + 0.05 * D + (1 + D) / 10 ^ 6 ∧
      -0.95 - 0.05 * D - (1 + D) / 10 ^ 6 < x := by
  have he : (0 : ℚ) < (1 + D) / 10 ^ 6 := by positivity
  obtain ⟨s, hs, x, hx, -, h1, h2⟩ := mainLoopFrom_induct c
    (fun s => ∃ u, s.x = .fin u ∧ IsFloat u ∧
      -(19 / 20) - D / 20 - (1 + D) / 10 ^ 6 < u ∧
      u + w < 19 / 20 + D / 20 + (1 + D) / 10 ^ 6)
    (fun i => 0 ≤ i.deltaTime ∧ i.deltaTime ≤ D)
    (by
      rintro s i s' ⟨u, hu, hfu, hlo, hhi⟩ hQ hbody
      obtain ⟨t, htx, -, hx, -⟩ := mainLoopBody_moves c s s' i hbody
      rw [hx]
      exact motion_x_bound _ _ w _ D u t hw hw0 (by rw [htx, hu]) hfu hQ.1 hQ.2 hD hlo hhi)
    ticks s0 ⟨x0, hs, hfl, by norm_num at hx0 ⊢; linarith, by norm_num at hx1 ⊢; linarith⟩ hdt
  refine ⟨s, x, hs, hx, ?_, ?_⟩
  · norm_num at h2 ⊢; linarith
  · norm_num at h1 ⊢; linarith

/-- C3 (witness): the amended bound on the run of the counterexample, `D = 32`. -/
theorem walk_stays_within_one_step_witness :
    ∃ s x, mainLoopFrom screen1664 startState [⟨2, 1, 0⟩, ⟨32, 1, 0⟩] = some s ∧
      s.x = .fin x ∧ x < 0.95 - 1 / 8 + 0.05 * 32 + (1 + 32) / 10 ^ 6 ∧
      -0.95 - 0.05 * 32 - (1 + 32) / 10 ^ 6 < x :=
  walk_stays_within_one_step screen1664 32 (1 / 8) 0 startState [⟨2, 1, 0⟩, ⟨32, 1, 0⟩]
    (by norm_num) (by norm_num) (by simp; norm_num) (imageWidth_1664 screen1664 rfl)
    (by norm_num) rfl isFloat_zero (by norm_num) (by norm_num)

/-- C4 (counterexample): `INT_MIN <= INT_MAX`, yet `random(INT_MIN, INT_MAX)` returns
no value: `max - min + 1` overflows `int`. -/
theorem random_full_range_undefined :
    INT_MIN ≤ INT_MAX ∧ random INT_MIN INT_MAX 0 = none ∧
      ¬ ∃ v, random INT_MIN INT_MAX 0 = some v ∧ INT_MIN ≤ v ∧ v ≤ INT_MAX := by
  have h : random INT_MIN INT_MAX 0 = none := by decide
  refine ⟨by decide, h, ?_⟩
  rintro ⟨v, hv, -⟩
  rw [h] at hv
  cases hv

/-- C4 (amended): for every value of `rand()`, the interval drawn at initialisation
is in [2,5]; in an iteration whose transition fires, the interval drawn after
selecting state 3 (Sleep) is in [4,10] and the one drawn after selecting any other
state is in [2,5]; and `random(min, max)` returns a value in [min, max] whenever
`min <= max` are `int` values and `max - min + 1` does not overflow `int`. -/
theorem interval_bounds :
    (∀ r0 : Nat, ∃ s, mainInit r0 = some s ∧
      2 ≤ s.timeInBetweenAnimations ∧ s.timeInBetweenAnimations ≤ 5) ∧
    (∀ (c : Screen) (s : Drone) (i : Tick), transitionFires s i = true →
      ∃ b s', random 0 5 i.rand1 = some b ∧ mainLoopBody c s i = some s' ∧ s'.state = b ∧
        (b = 3 → 4 ≤ s'.timeInBetweenAnimations ∧ s'.timeInBetweenAnimations ≤ 10) ∧
        (b ≠ 3 → 2 ≤ s'.timeInBetweenAnimations ∧ s'.timeInBetweenAnimations ≤ 5)) ∧
    (∀ (min max : Int) (r : Nat), INT_MIN ≤ min → max ≤ INT_MAX → min ≤ max →
      max - min < INT_MAX → ∃ v, random min max r = some v ∧ min ≤ v ∧ v ≤ max) := by
  refine ⟨?_, ?_, ?_⟩
  · intro r0
    have h0 := Int.emod_nonneg (r0 : Int) (show (4 : Int) ≠ 0 by decide)
    have h1 := Int.emod_lt_of_pos (r0 : Int) (show (0 : Int) < 4 by decide)
    exact ⟨_, mainInit_eq r0, by show (2 : Int) ≤ 2 + (r0 : Int) % 4; omega,
      by show 2 + (r0 : Int) % 4 ≤ 5; omega⟩
  · intro c s i hf
    obtain ⟨b, t, hb, -, -, hl, hs, hbody⟩ := mainLoopBody_spec c s i
    refine ⟨b, _, hb, hbody, ?_, ?_, ?_⟩
    · rw [motion_state, if_pos hf]; split_ifs <;> rfl
    · intro h3
      rw [motion_timeInBetweenAnimations, if_pos hf]
      split_ifs <;> exact hl h3
    · intro h3
      rw [motion_timeInBetweenAnimations, if_pos hf]
      split_ifs <;> exact hs h3
  · intro min max r hmin hmax hle hspan
    have hn : (0 : Int) < max - min + 1 := by omega
    have h0 := Int.emod_nonneg (r : Int) (ne_of_gt hn)
    have h1 := Int.emod_lt_of_pos (r : Int) hn
    exact ⟨_, random_of_fits min max r hmin hmax hle hspan, by omega, by omega⟩

/-- C4 (witness): the general part at `random(4, 10)` with `rand() = 12`. -/
theorem interval_bounds_witness :
    ∃ v, random 4 10 12 = some v ∧ (4 : Int) ≤ v ∧ v ≤ 10 :=
  interval_bounds.2.2 4 10 12 (by decide) (by decide) (by decide) (by decide)

/-- C5 (counterexample): in WalkLeft at `x = -0.95f`, the `float` nearest to `-0.95`,
which is above `-0.95`, the table of the specification moves `x` to `x - 0.05 * dt`,
while the code, whose gate is `x > -0.95f`, leaves `x` where it is.  Here `dt = 1`
on a sprite `0.125` wide and `0.25` high. -/
theorem walk_left_gate_differs_example :
    ∃ x : ℚ, (binary32 0.95).neg = .fin x ∧ x > -0.95 ∧
      specIntegrate .WalkLeft 0.05 (1 / 8) (1 / 4) 1 (x, -1) = (x - 0.05 * 1, -1) ∧
      (motion (.fin (1 / 8)) (.fin (1 / 4)) 1
        { startState with state := Behavior.WalkLeft.code, x := .fin x }).x = .fin x ∧
      x - 0.05 * 1 ≠ x := by
  refine ⟨-(15938355 / 16777216), by rw [gate95_eq]; rfl, by norm_num, ?_, ?_, by norm_num⟩
  · have h : (-(15938355 / 16777216) : ℚ) > -0.95 := by norm_num
    simp only [specIntegrate, h, if_true]
  · rw [motion_x, gate95_eq]
    simp [Behavior.code, startState, Fp.neg, Fp.lt]

/-- C5 (amended): motion leaves everything but the position alone and, for every
behaviour, position, elapsed time and sprite footprint, moves the position as the
table of the specification says once every number of the table is a machine number
(`floatIntegrate`: speed `0.05f`, bounds `0.95f`, `-0.95f`, `0.88f`, `-1.0f`, gate
sums in `float`, steps and new coordinates in `double` rounded to `float`); the
speed `0.05f` is `13421773 / 268435456`; the position after any iteration of a run
is the one this table gives for the behaviour in effect after that iteration,
applied to the position before it; for finite positions with `|x|, |y| <= M <= 2^64`
and `0 <= dt <= D <= 2^64` the result is finite and, where it differs from the old
position, the exact table with `v = 0.05` moves the position too, to a place within
`(M + 1 + D) / 10^6` in each coordinate; and in WalkRight with `x = 0.90f`, width
`0.1f` and `dt = 1.0` repeated any number of times, `x` stays at `0.90f`. -/
theorem motion_matches_table :
    velocity = binary32 0.05 ∧ velocity = .fin (13421773 / 268435456) ∧
    (∀ (b : Behavior) (w h : Fp) (dt : ℚ) (s : Drone),
      motion w h dt { s with state := b.code } =
        { s with state := b.code,
                 x := (floatIntegrate b velocity w h dt (s.x, s.y)).1,
                 y := (floatIntegrate b velocity w h dt (s.x, s.y)).2 }) ∧
    (∀ (c : Screen) (r0 : Nat) (ticks : List Tick) (i : Tick),
      ∃ s s' b, mainLoop c r0 ticks = some s ∧ mainLoopBody c s i = some s' ∧
        s'.state = Behavior.code b ∧
        (s'.x, s'.y)
          = floatIntegrate b velocity (imageWidth c) (imageHeight c) i.deltaTime (s.x, s.y)) ∧
    (∀ (b : Behavior) (x y w h dt D M : ℚ), |x| ≤ M → |y| ≤ M → M ≤ 2 ^ 64 →
      0 ≤ dt → dt ≤ D → D ≤ 2 ^ 64 →
      ∃ x' y', floatIntegrate b velocity (.fin w) (.fin h) dt (.fin x, .fin y)
          = (.fin x', .fin y') ∧
        ((x', y') = (x, y) ∨
          (|x' - (specIntegrate b 0.05 w h dt (x, y)).1| ≤ (M + 1 + D) / 10 ^ 6 ∧
           |y' - (specIntegrate b 0.05 w h dt (x, y)).2| ≤ (M + 1 + D) / 10 ^ 6))) ∧
    (∀ (n : Nat) (h : Fp) (s : Drone),
      ((motion (binary32 0.1) h 1)^[n]
        { s with state := Behavior.WalkRight.code, x := binary32 0.90 }).x
        = binary32 0.90) := by
  refine ⟨rfl, velocity_eq, motion_eq_floatIntegrate, ?_, floatIntegrate_near, ?_⟩
  · intro c r0 ticks i
    obtain ⟨s, hs, h0, h5⟩ := state_in_range c r0 ticks
    obtain ⟨b', t, hb', hb0, hb5, -, -, -⟩ := mainLoopBody_spec c s i
    obtain ⟨bn, s', hbn, hbody, hst, hx, hy⟩ := mainLoopBody_position c s i
    rw [hb'] at hbn
    cases hbn
    have hrange : 0 ≤ (if transitionFires s i then b' else s.state) ∧
        (if transitionFires s i then b' else s.state) ≤ 5 := by
      split_ifs
      · exact ⟨hb0, hb5⟩
      · exact ⟨h0, h5⟩
    obtain ⟨b, hb⟩ := exists_behavior_of_code _ hrange.1 hrange.2
    refine ⟨s, s', b, hs, hbody, by rw [hst, hb], ?_⟩
    rw [hx, hy, ← hb, motion_eq_floatIntegrate]
  · intro n h s
    have hall : (motion (binary32 0.1) h 1)^[n]
          { s with state := Behavior.WalkRight.code, x := binary32 0.90 }
        = { s with state := Behavior.WalkRight.code, x := binary32 0.90 } := by
      induction n with
      | zero => rfl
      | succ k ih =>
        rw [Function.iterate_succ_apply', ih]
        exact walkRight_closed_fixed h _ rfl rfl
    rw [hall]

/-- C6 (counterexample): from the initial state (Idle, interval 2), an iteration
with `deltaTime = 2` fires the transition and draws state 1 (WalkRight).  Idle
prescribes no motion, yet `x` goes from 0 to `0.05f * 2` in that same iteration. -/
theorem motion_uses_drawn_behaviour_example :
    mainInit 0 = some startState ∧ startState.state = Behavior.Idle.code ∧
      transitionFires startState ⟨2, 1, 0⟩ = true ∧
      random 0 5 1 = some Behavior.WalkRight.code ∧
      mainLoopBody fullHD startState ⟨2, 1, 0⟩ = some walkingState ∧
      (motion (imageWidth fullHD) (imageHeight fullHD) 2 startState).x = .fin 0 ∧
      walkingState.x = .fin (13421773 / 134217728) ∧
      walkingState.x ≠ (motion (imageWidth fullHD) (imageHeight fullHD) 2 startState).x := by
  have hm : (motion (imageWidth fullHD) (imageHeight fullHD) 2 startState).x = .fin 0 := by
    simp [motion, startState]
  refine ⟨mainInit_zero, rfl, startState_fires, by decide,
    startState_step_walk _ (Or.inl rfl), hm, rfl, ?_⟩
  rw [hm]
  simp [walkingState]

/-- C6 (amended): motion of an iteration uses the state in effect after the
transition decided in that same iteration.  With `b` the state drawn by
`random(0, 5)`: when the transition fires, the position after the iteration is the
one motion prescribes for `b` (the newly drawn behaviour moves the position in the
iteration in which it is drawn); when it does not fire, the one prescribed for the
current state. -/
theorem motion_uses_state_after_transition (c : Screen) (s : Drone) (i : Tick) :
    ∃ b s', random 0 5 i.rand1 = some b ∧ mainLoopBody c s i = some s' ∧
      (transitionFires s i = true →
        s'.state = b ∧
        s'.x = (motion (imageWidth c) (imageHeight c) i.deltaTime { s with state := b }).x ∧
        s'.y = (motion (imageWidth c) (imageHeight c) i.deltaTime { s with state := b }).y) ∧
      (transitionFires s i = false →
        s'.state = s.state ∧
        s'.x = (motion (imageWidth c) (imageHeight c) i.deltaTime s).x ∧
        s'.y = (motion (imageWidth c) (imageHeight c) i.deltaTime s).y) := by
  obtain ⟨b, s', hb, hbody, hst, hx, hy⟩ := mainLoopBody_position c s i
  refine ⟨b, s', hb, hbody, ?_, ?_⟩
  · intro hf
    simp only [hf, if_true] at hst hx hy
    exact ⟨hst, hx, hy⟩
  · intro hf
    simp only [hf, Bool.false_eq_true, if_false] at hst hx hy
    exact ⟨hst, hx, hy⟩

/-- C6 (witness): the iteration of 2 s from the initial state that draws state 1.
The transition fires, and `x` after the iteration is the one motion prescribes for
the drawn state. -/
theorem motion_uses_state_after_transition_witness :
    ∃ b s', random 0 5 1 = some b ∧ mainLoopBody fullHD startState ⟨2, 1, 0⟩ = some s' ∧
      transitionFires startState ⟨2, 1, 0⟩ = true ∧ s'.state = b ∧
      s'.x = (motion (imageWidth fullHD) (imageHeight fullHD) 2
        { startState with state := b }).x := by
  obtain ⟨b, s', hb, hbody, hfire, -⟩ :=
    motion_uses_state_after_transition fullHD startState ⟨2, 1, 0⟩
  obtain ⟨hst, hx, -⟩ := hfire startState_fires
  exact ⟨b, s', hb, hbody, startState_fires, hst, hx⟩

/-- C7 (counterexample): one iteration with `deltaTime = 1` from the initial state
(frame timer 0, interval 2, so no transition fires) advances the frame once, while
`floor(1 / 0.3) = 3`. -/
theorem frame_advances_lose_time_example :
    startState.animationTime = .fin 0 ∧ (0 : ℚ) ≤ 1 ∧ totalTime [⟨1, 0, 0⟩] ≥ 0.3 ∧
      transitionFires startState ⟨1, 0, 0⟩ = false ∧
      frameAdvances fullHD startState [⟨1, 0, 0⟩] = 1 ∧
      ⌊totalTime [⟨1, 0, 0⟩] / 0.3⌋ = 3 := by
  refine ⟨rfl, by norm_num, by norm_num [totalTime], startState_quiet_one, ?_, ?_⟩
  · obtain ⟨s', hbody⟩ := mainLoopBody_total fullHD startState ⟨1, 0, 0⟩
    rw [frameAdvances_cons fullHD startState s' _ _ hbody]
    simp [frameAdvances, startState_due_one]
  · rw [Int.floor_eq_iff]
    norm_num [totalTime]

/-- C7 (amended): for every sequence of `n` iterations whose `deltaTime` values are
non-negative `double` values, started with the frame timer at 0 (whether or not a
transition fires, which does not touch the timer), the loop runs through and the
number `N` of frame advances satisfies `N * 0.3 <= sum * (1 + 2^-53) ^ (n + 1)`:
at most `floor(sum / 0.3)` advances but for the rounding of the additions to the
timer, the timer being reset to 0 and not reduced by 0.3 at each advance; and
`N >= 1` when `sum * (1 - 2^-53) ^ n >= 0.3`. -/
theorem frame_advances_bounds (c : Screen) (s : Drone) (ticks : List Tick)
    (h0 : s.animationTime = .fin 0)
    (hdt : ∀ i ∈ ticks, 0 ≤ i.deltaTime ∧ IsDouble i.deltaTime) :
    (∃ s', mainLoopFrom c s ticks = some s') ∧
      (frameAdvances c s ticks : ℚ) * 0.3
        ≤ totalTime ticks * (1 + 1 / 2 ^ 53) ^ (ticks.length + 1) ∧
      (0.3 ≤ totalTime ticks * (1 - 1 / 2 ^ 53) ^ ticks.length →
        1 ≤ frameAdvances c s ticks) := by
  refine ⟨mainLoopFrom_total c ticks s, ?_, ?_⟩
  · have h := frameAdvances_upper c ticks s 0 h0 (roundTo_zero _ _) (le_refl _) hdt
    rw [zero_add] at h
    rw [pow_succ]
    have hN : (0 : ℚ) ≤ (frameAdvances c s ticks : ℚ) := Nat.cast_nonneg _
    have hc : (0.3 : ℚ) ≤ 5404319552844595 / 18014398509481984 * (1 + 1 / 2 ^ 53) := by
      norm_num
    have h1 : (frameAdvances c s ticks : ℚ) * 0.3
        ≤ (frameAdvances c s ticks : ℚ)
          * (5404319552844595 / 18014398509481984 * (1 + 1 / 2 ^ 53)) :=
      mul_le_mul_of_nonneg_left hc hN
    have h2 : (frameAdvances c s ticks : ℚ) * (5404319552844595 / 18014398509481984)
          * (1 + 1 / 2 ^ 53)
        ≤ totalTime ticks * (1 + 1 / 2 ^ 53) ^ ticks.length * (1 + 1 / 2 ^ 53) :=
      mul_le_mul_of_nonneg_right h (by norm_num)
    linarith
  · intro hsum
    apply frameAdvances_pos c ticks s 0 h0 (roundTo_zero _ _) (le_refl _) (by norm_num) hdt
    rw [zero_add]
    have : (5404319552844595 / 18014398509481984 : ℚ) ≤ 0.3 := by norm_num
    linarith

/-- C7 (witness): three iterations with `deltaTime = 0.25` from the initial state:
the timer reaches 0.3 in the second one. -/
theorem frame_advances_bounds_witness :
    (∃ s', mainLoopFrom fullHD startState [⟨1 / 4, 0, 0⟩, ⟨1 / 4, 0, 0⟩, ⟨1 / 4, 0, 0⟩]
        = some s') ∧
      (frameAdvances fullHD startState [⟨1 / 4, 0, 0⟩, ⟨1 / 4, 0, 0⟩, ⟨1 / 4, 0, 0⟩] : ℚ) * 0.3
        ≤ totalTime [⟨1 / 4, 0, 0⟩, ⟨1 / 4, 0, 0⟩, ⟨1 / 4, 0, 0⟩]
          * (1 + 1 / 2 ^ 53) ^ ([⟨1 / 4, 0, 0⟩, ⟨1 / 4, 0, 0⟩, ⟨1 / 4, 0, 0⟩] : List Tick).length.succ ∧
      (0.3 ≤ totalTime [⟨1 / 4, 0, 0⟩, ⟨1 / 4, 0, 0⟩, ⟨1 / 4, 0, 0⟩]
          * (1 - 1 / 2 ^ 53) ^ ([⟨1 / 4, 0, 0⟩, ⟨1 / 4, 0, 0⟩, ⟨1 / 4, 0, 0⟩] : List Tick).length →
        1 ≤ frameAdvances fullHD startState [⟨1 / 4, 0, 0⟩, ⟨1 / 4, 0, 0⟩, ⟨1 / 4, 0, 0⟩]) :=
  frame_advances_bounds fullHD startState [⟨1 / 4, 0, 0⟩, ⟨1 / 4, 0, 0⟩, ⟨1 / 4, 0, 0⟩] rfl
    (by
      intro i hi
      simp only [List.mem_cons, List.mem_singleton, List.not_mem_nil, or_false, or_self] at hi
      rw [hi]
      exact ⟨by norm_num, isDouble_quarter⟩)

/-- C8 (counterexample): after an iteration with `deltaTime = 1.75` and one with
`deltaTime = 0.25` from the initial state, the second fires the transition and draws
state 1, different from the current state 0.  The frame index is 1 afterwards, but
`animationTime` is 0.25, not 0, and the next frame advance is due after another
0.0625 s. -/
theorem frame_timer_survives_change_example :
    mainLoop fullHD 0 [⟨7 / 4, 0, 0⟩] = some idleState175 ∧
      transitionFires idleState175 ⟨1 / 4, 1, 0⟩ = true ∧
      random 0 5 1 = some 1 ∧ (1 : Int) ≠ idleState175.state ∧
      mainLoopBody fullHD idleState175 ⟨1 / 4, 1, 0⟩ = some changedState ∧
      changedState.currentFrame = 1 ∧ changedState.animationTime = .fin (1 / 4) ∧
      changedState.animationTime ≠ .fin 0 ∧ frameDue (1 / 16) changedState = true := by
  refine ⟨mainLoop_175 _, idleState175_fires, random_draws_one, by decide,
    idleState175_step _ rfl, rfl, rfl, ?_, ?_⟩
  · simp [changedState]
  · have h : binary64 (1 / 4 + 1 / 16) = .fin (5 / 16) := by
      have e : (1 / 4 + 1 / 16 : ℚ) = 5 / 16 := by norm_num
      rw [e]
      exact binary64_eq _ 5 4 (by norm_num) (by norm_num) (by norm_num)
    simp only [frameDue, changedState, Fp.add_fin, animationDuration_eq, h, Fp.le_fin]
    norm_num

/-- C8 (amended): in every iteration from a reachable state in which the transition
fires and the drawn state `b` differs from the current one, the state afterwards is
`b` and the frame index is 1; the frame timer `animationTime` is not reset by the
change: it is what the clock step of that iteration left, 0 if the frame was due in
it and the accumulated time `animationTime + deltaTime` otherwise.  So the next
frame advance comes after at most 0.3 s of accumulated time, not after exactly
0.3 s: when every `deltaTime` so far is a non-negative `double`, any `n` further
iterations with non-negative `double` values of `deltaTime` whose sum times
`(1 - 2^-53) ^ n` is at least 0.3 contain a frame advance. -/
theorem behaviour_change_resets_frame_only (c : Screen) (r0 : Nat) (ticks : List Tick)
    (i : Tick) :
    ∃ s s' b, mainLoop c r0 ticks = some s ∧ random 0 5 i.rand1 = some b ∧
      mainLoopBody c s i = some s' ∧
      (transitionFires s i = true → b ≠ s.state →
        s'.state = b ∧ s'.currentFrame = 1 ∧
        s'.animationTime
          = (if frameDue i.deltaTime s then .fin 0
             else Fp.add binary64 s.animationTime (.fin i.deltaTime))) ∧
      ((∀ j ∈ ticks ++ [i], 0 ≤ j.deltaTime ∧ IsDouble j.deltaTime) →
        ∀ later : List Tick, (∀ j ∈ later, 0 ≤ j.deltaTime ∧ IsDouble j.deltaTime) →
          0.3 ≤ totalTime later * (1 - 1 / 2 ^ 53) ^ later.length →
          1 ≤ frameAdvances c s' later) := by
  obtain ⟨s, hs, hinv⟩ := previousState_eq_state c r0 ticks
  obtain ⟨b, t, hb, -, -, -, -, hbody⟩ := mainLoopBody_spec c s i
  refine ⟨s, _, b, hs, hb, hbody, ?_, ?_⟩
  · intro hf hne
    refine ⟨?_, ?_, ?_⟩
    · rw [motion_state, hinv, if_pos hf, if_pos hne]
    · rw [motion_currentFrame, hinv, if_pos hf, if_pos hne]
    · rw [motion_animationTime, hinv, if_pos hf, if_pos hne]
      exact advanceClocks_animationTime _ _
  · intro hpast later hlater hsum
    obtain ⟨s2, T, hs2, hT, hTd, hT0, hTlt⟩ := timer_below_duration c r0 (ticks ++ [i]) hpast
    rw [mainLoop_append, hs, Option.some_bind, hbody] at hs2
    cases hs2
    apply frameAdvances_pos c later _ T hT hTd hT0 hTlt hlater
    have hc : (5404319552844595 / 18014398509481984 : ℚ) ≤ 0.3 := by norm_num
    have hP : (0 : ℚ) ≤ (1 - 1 / 2 ^ 53) ^ later.length := pow_nonneg (by norm_num) _
    nlinarith [mul_nonneg hT0 hP]

/-- C8 (witness): the run of the counterexample.  The transition fires in the second
iteration and draws a different state; the frame index is reset and the frame timer
is the accumulated 0.25; one further iteration of 0.5 s advances the frame. -/
theorem behaviour_change_resets_frame_only_witness :
    ∃ s s' b, mainLoop fullHD 0 [⟨7 / 4, 0, 0⟩] = some s ∧ random 0 5 1 = some b ∧
      mainLoopBody fullHD s ⟨1 / 4, 1, 0⟩ = some s' ∧
      transitionFires s ⟨1 / 4, 1, 0⟩ = true ∧ b ≠ s.state ∧
      s'.state = b ∧ s'.currentFrame = 1 ∧ s'.animationTime = .fin (1 / 4) ∧
      1 ≤ frameAdvances fullHD s' [⟨1 / 2, 0, 0⟩] := by
  obtain ⟨s, s', b, hs, hb, hbody, hchange, hnext⟩ :=
    behaviour_change_resets_frame_only fullHD 0 [⟨7 / 4, 0, 0⟩] ⟨1 / 4, 1, 0⟩
  have hs' : s = idleState175 := by
    rw [mainLoop_175] at hs
    exact (Option.some.inj hs).symm
  have hb' : b = 1 := by
    change random 0 5 1 = some b at hb
    rw [random_draws_one] at hb
    exact (Option.some.inj hb).symm
  have hf : transitionFires s ⟨1 / 4, 1, 0⟩ = true := by
    rw [hs']; exact idleState175_fires
  have hne : b ≠ s.state := by
    rw [hs', hb']
    decide
  obtain ⟨h1, h2, h3⟩ := hchange hf hne
  have hd74 : IsDouble (7 / 4) := by
    have h := isDouble_dyadic 7 2 (by norm_num) (by norm_num)
    simpa using h
  have hd12 : IsDouble (1 / 2) := by
    have h := isDouble_dyadic 1 1 (by norm_num) (by norm_num)
    simpa using h
  have hadv := hnext
    (by
      intro j hj
      simp only [List.cons_append, List.nil_append, List.mem_cons, List.mem_singleton,
        List.not_mem_nil, or_false] at hj
      rcases hj with hj | hj
      · rw [hj]; exact ⟨by norm_num, hd74⟩
      · rw [hj]; exact ⟨by norm_num, isDouble_quarter⟩)
    [⟨1 / 2, 0, 0⟩]
    (by
      intro j hj
      simp only [List.mem_singleton] at hj
      rw [hj]; exact ⟨by norm_num, hd12⟩)
    (by norm_num [totalTime])
  refine ⟨s, s', b, hs, hb, hbody, hf, hne, h1, h2, ?_, hadv⟩
  subst hs'
  rw [idleState175_step fullHD rfl] at hbody
  cases hbody
  rfl

/-- C9 (counterexample): in the midpoint scenario the transition fires on the 30th
iteration, when the accumulated time is 3 (30 times the `double` 0.1), which is less
than 3.5. -/
theorem midpoint_fires_at_three_example :
    ∃ s, mainLoop fullHD midpointSeed (List.replicate 29 midpointTick) = some s ∧
      transitionFires s midpointTick = true ∧
      totalTime (List.replicate 30 midpointTick) = 30 * double01 ∧
      totalTime (List.replicate 30 midpointTick) < 3.5 := by
  obtain ⟨s, hs, hf, -⟩ := midpoint_fires fullHD
  have ht : totalTime (List.replicate 30 midpointTick) = 30 * double01 := by
    simp [totalTime, midpointTick]
    ring
  refine ⟨s, hs, hf, ht, ?_⟩
  rw [ht]
  norm_num [double01]

/-- C9 (amended): with `rand()` values for which `random` returns the integer
midpoint of each requested range (3 for [2,5], the interval being an `int`), starting
from the initial state and with `deltaTime` the `double` 0.1 in every iteration, the
first transition fires in the 30th iteration, when the accumulated `currentTime`
reaches 3 s (it is 3 and a rounding excess below `10 ^ -14`), and in no earlier
iteration. -/
theorem midpoint_first_transition (c : Screen) :
    (random 2 5 midpointSeed = some (midpoint 2 5) ∧
      random 0 5 midpointTick.rand1 = some (midpoint 0 5) ∧
      random 2 5 midpointTick.rand2 = some (midpoint 2 5) ∧
      random 4 10 midpointTick.rand2 = some (midpoint 4 10)) ∧
    binary64 0.1 = .fin midpointTick.deltaTime ∧ midpoint 2 5 = 3 ∧
    (∀ n : Nat, n < 29 →
      ∃ s, mainLoop c midpointSeed (List.replicate n midpointTick) = some s ∧
        transitionFires s midpointTick = false) ∧
    (∃ s t, mainLoop c midpointSeed (List.replicate 29 midpointTick) = some s ∧
      transitionFires s midpointTick = true ∧
      Fp.add binary64 s.currentTime (.fin midpointTick.deltaTime) = .fin t ∧
      3 ≤ t ∧ t < 3 + 1 / 10 ^ 14) := by
  refine ⟨⟨by decide, by decide, by decide, by decide⟩, double01_eq, by decide, ?_, ?_⟩
  · intro n hn
    obtain ⟨s, hs, hct, hti⟩ := midpoint_run c n (by omega)
    refine ⟨s, hs, ?_⟩
    rw [transitionFires_eq, hct, hti, intToDouble_eq 3 (by norm_num)]
    show Fp.le (.fin ((3 : ℤ) : ℚ)) (binary64 (midpointClock n + double01)) = false
    rw [midpointClock_step n (by omega), Fp.le_fin]
    have := midpointClock_lt (n + 1) (by omega)
    simp only [decide_eq_false_iff_not, not_le]
    exact_mod_cast this
  · obtain ⟨s, hs, hf, hadd⟩ := midpoint_fires c
    exact ⟨s, _, hs, hf, hadd, midpointClock_thirty.1, midpointClock_thirty.2⟩

/-- C9 (witness): no transition fires in the 11th iteration of the midpoint
scenario. -/
theorem midpoint_first_transition_witness :
    ∃ s, mainLoop fullHD midpointSeed (List.replicate 10 midpointTick) = some s ∧
      transitionFires s midpointTick = false :=
  (midpoint_first_transition fullHD).2.2.2.1 10 (by norm_num)

/-- C10 (counterexample): with `D = 0`, one iteration with `deltaTime = 0` from the
initial state, whose position satisfies the four starting conditions, leaves
`y = -1`, which is not above `-1.0 - 0.15 * 0`. -/
theorem zero_bound_not_strict_example :
    ∃ x y w h : ℚ, imageWidth screen1664 = .fin w ∧ imageHeight screen1664 = .fin h ∧
      startState.x = .fin x ∧ startState.y = .fin y ∧
      (-0.95 : ℚ) ≤ x ∧ x + w ≤ 0.95 ∧ (-1.0 : ℚ) ≤ y ∧ y + h ≤ 0.88 ∧
      mainLoop screen1664 0 [⟨0, 0, 0⟩] = some startState ∧
      ¬ (y > -1.0 - 0.15 * 0) := by
  refine ⟨0, -1, 1 / 8, 1 / 4, imageWidth_1664 screen1664 rfl,
    imageHeight_832 screen1664 rfl, rfl, rfl, by norm_num, by norm_num, by norm_num,
    by norm_num, ?_, by norm_num⟩
  simp [mainLoop, mainInit_zero, mainLoopFrom, startState_step_zero]

/-- C10 (amended): for every bound `D` with `0 <= D <= 2 ^ 64` and every sequence of
iterations with `0 <= deltaTime <= D` and any random draws, on a screen whose sprite
width `w` and height `h` are finite and not negative, starting from a `float`
position `(x0, y0)` with `-0.95 <= x0`, `x0 + w <= 0.95`, `-1.0 <= y0` and
`y0 + h <= 0.88`, the loop produces a state after every iteration whose position
`(x, y)` is finite and satisfies, with `e = (1 + D) / 10 ^ 6` for the rounding,
`x + w < 0.95 + 0.05 * D + e`, `x > -0.95 - 0.05 * D - e`,
`y + h < 0.88 + 0.15 * D + e` and `y > -1.0 - 0.15 * D - e`. -/
theorem position_overshoot_bound (c : Screen) (D w h x0 y0 : ℚ) (s0 : Drone)
    (ticks : List Tick) (hD0 : 0 ≤ D) (hD : D ≤ 2 ^ 64)
    (hdt : ∀ i ∈ ticks, 0 ≤ i.deltaTime ∧ i.deltaTime ≤ D)
    (hw : imageWidth c = .fin w) (hw0 : 0 ≤ w) (hh : imageHeight c = .fin h) (hh0 : 0 ≤ h)
    (hsx : s0.x = .fin x0) (hfx : IsFloat x0) (hsy : s0.y = .fin y0) (hfy : IsFloat y0)
    (hx0 : -0.95 ≤ x0) (hx1 : x0 + w ≤ 0.95) (hy0 : -1.0 ≤ y0) (hy1 : y0 + h ≤ 0.88) :
    ∃ s x y, mainLoopFrom c s0 ticks = some s ∧ s.x = .fin x ∧ s.y = .fin y ∧
      x + w < 0.95 + 0.05 * D + (1 + D) / 10 ^ 6 ∧
      x > -0.95 - 0.05 * D - (1 + D) / 10 ^ 6 ∧
      y + h < 0.88 + 0.15 * D + (1 + D) / 10 ^ 6 ∧
      y > -1.0 - 0.15 * D - (1 + D) / 10 ^ 6 := by
  have he : (0 : ℚ) < (1 + D) / 10 ^ 6 := by positivity
  obtain ⟨s, hs, ⟨x, hx, -, h1, h2⟩, ⟨y, hy, -, h3, h4⟩⟩ := mainLoopFrom_induct c
    (fun s =>
      (∃ u, s.x = .fin u ∧ IsFloat u ∧
        -(19 / 20) - D / 20 - (1 + D) / 10 ^ 6 < u ∧
        u + w < 19 / 20 + D / 20 + (1 + D) / 10 ^ 6) ∧
      (∃ u, s.y = .fin u ∧ IsFloat u ∧
        -1 - 3 * D / 20 - (1 + D) / 10 ^ 6 < u ∧
        u + h < 22 / 25 + 3 * D / 20 + (1 + D) / 10 ^ 6))
    (fun i => 0 ≤ i.deltaTime ∧ i.deltaTime ≤ D)
    (by
      rintro s i s' ⟨⟨u, hu, hfu, hlo, hhi⟩, ⟨v, hv, hfv, hlo', hhi'⟩⟩ hQ hbody
      obtain ⟨t, htx, hty, hx, hy⟩ := mainLoopBody_moves c s s' i hbody
      rw [hx, hy]
      exact ⟨motion_x_bound _ _ w _ D u t hw hw0 (by rw [htx, hu]) hfu hQ.1 hQ.2 hD hlo hhi,
        motion_y_bound _ _ h _ D v t hh hh0 (by rw [hty, hv]) hfv hQ.1 hQ.2 hD hlo' hhi'⟩)
    ticks s0
    ⟨⟨x0, hsx, hfx, by norm_num at hx0 ⊢; linarith, by norm_num at hx1 ⊢; linarith⟩,
      ⟨y0, hsy, hfy, by norm_num at hy0 ⊢; linarith, by norm_num at hy1 ⊢; linarith⟩⟩ hdt
  refine ⟨s, x, y, hs, hx, hy, ?_, ?_, ?_, ?_⟩
  · norm_num at h2 ⊢; linarith
  · norm_num at h1 ⊢; linarith
  · norm_num at h4 ⊢; linarith
  · norm_num at h3 ⊢; linarith

/-- C10 (witness): the bound for `D = 32` on a run from the initial state on a 1664
by 832 screen that walks right for 2 s and for 32 s, passing the right gate, and
then rises for 32 s, passing the upper gate. -/
theorem position_overshoot_bound_witness :
    ∃ s x y, mainLoopFrom screen1664 startState [⟨2, 1, 0⟩, ⟨32, 1, 0⟩, ⟨32, 4, 0⟩] = some s ∧
      s.x = .fin x ∧ s.y = .fin y ∧
      x + 1 / 8 < 0.95 + 0.05 * 32 + (1 + 32) / 10 ^ 6 ∧
      x > -0.95 - 0.05 * 32 - (1 + 32) / 10 ^ 6 ∧
      y + 1 / 4 < 0.88 + 0.15 * 32 + (1 + 32) / 10 ^ 6 ∧
      y > -1.0 - 0.15 * 32 - (1 + 32) / 10 ^ 6 :=
  position_overshoot_bound screen1664 32 (1 / 8) (1 / 4) 0 (-1) startState
    [⟨2, 1, 0⟩, ⟨32, 1, 0⟩, ⟨32, 4, 0⟩]
    (by norm_num) (by norm_num) (by simp; norm_num) (imageWidth_1664 screen1664 rfl)
    (by norm_num) (imageHeight_832 screen1664 rfl) (by norm_num) rfl isFloat_zero rfl
    isFloat_neg_one (by norm_num) (by norm_num) (by norm_num) (by norm_num)

end DesktopDrone
